import Mathlib

/-!
Vortex: LogQL to ClickHouse SQL translation.

A shallow embedding of `pkg/ql/queries.go` and `pkg/ql/transformer.go`
(the query translator) together with the parts of the libraries they drive:
the `go-sqlbuilder` select builder, the Prometheus `labels.Matcher`, the
LogQL selector walk and the OpenTelemetry `NormalizeLabel` function.

Conventions.
* Go strings are modelled as Lean `String`s, that is as sequences of Unicode
  characters (the runes `strings.Map` iterates over).
* `time.Time` arguments are represented by their `UnixMilli()` count, an `Int`.
* A Go `panic` is the `Except.error` branch of an `Except String _` result.
* `log.Printf` calls have no effect on the result and are dropped.
-/

namespace Vortex

set_option maxRecDepth 16000

deriving instance DecidableEq for Except

/-! ## Constants of `queries.go` -/

def OtelLogLabelsColumn : String := "ResourceAttributes"
def OtelLogTimestampColumn : String := "Timestamp"
def OtelLogMessageColumn : String := "Body"

/-! ## The `go-sqlbuilder` select builder (library model) -/

/-- State of a `sqlbuilder.SelectBuilder`: the clauses collected so far and the
argument list of its `Args`. `limit` is `-1` while no limit has been set. Every
argument this program adds is a Go string. -/
structure SelectBuilder where
  distinct : Bool
  tables : List String
  selectCols : List String
  whereExprs : List String
  orderByCols : List String
  limit : Int
  args : List String
deriving DecidableEq, Repr

namespace SelectBuilder

/-- The builder `sqlbuilder.ClickHouse.NewSelectBuilder()` returns. -/
def new : SelectBuilder :=
  { distinct := false, tables := [], selectCols := [], whereExprs := [],
    orderByCols := [], limit := -1, args := [] }

/-- The placeholder `Args.Add` returns for the argument stored at index `i`:
`fmt.Sprintf("$%d", i)`. -/
def placeholder (i : Nat) : String := "$" ++ toString i

/-- Library call `sb.Args.Add(arg)`: appends the argument and returns its placeholder. -/
def argsAdd (sb : SelectBuilder) (arg : String) : String × SelectBuilder :=
  (placeholder sb.args.length, { sb with args := sb.args ++ [arg] })

def Select (sb : SelectBuilder) (cols : List String) : SelectBuilder :=
  { sb with selectCols := cols }

def From (sb : SelectBuilder) (table : String) : SelectBuilder :=
  { sb with tables := [table] }

def Distinct (sb : SelectBuilder) : SelectBuilder :=
  { sb with distinct := true }

def Where (sb : SelectBuilder) (andExpr : String) : SelectBuilder :=
  { sb with whereExprs := sb.whereExprs ++ [andExpr] }

def OrderBy (sb : SelectBuilder) (col : String) : SelectBuilder :=
  { sb with orderByCols := [col] }

def Limit (sb : SelectBuilder) (limit : Int) : SelectBuilder :=
  { sb with limit := limit }

/-- Helper `WriteLeadingString` of the library's string buffer: a separating
blank is written first unless the buffer is still empty. -/
def writeLeading (buf s : String) : String :=
  if buf = "" then s else buf ++ " " ++ s

/-- The statement text with `$n` placeholders, as `Build` assembles it before
compiling the placeholders (ClickHouse flavor: the limit is written in decimal). -/
def render (sb : SelectBuilder) : String :=
  let b0 : String := ""
  let b1 := if sb.selectCols ≠ [] then
      writeLeading b0 "SELECT " ++ (if sb.distinct then "DISTINCT " else "")
        ++ ", ".intercalate sb.selectCols
    else b0
  let b2 := if sb.tables ≠ [] then writeLeading b1 "FROM " ++ ", ".intercalate sb.tables else b1
  let b3 := if sb.whereExprs ≠ [] then
      writeLeading b2 "WHERE " ++ " AND ".intercalate sb.whereExprs
    else b2
  let b4 := if sb.orderByCols ≠ [] then
      writeLeading b3 "ORDER BY " ++ ", ".intercalate sb.orderByCols
    else b3
  if 0 ≤ sb.limit then writeLeading b4 "LIMIT " ++ toString sb.limit else b4

end SelectBuilder

/-! ### `Args.Compile`: replacing `$n` by `?` -/

/-- Scanner state of `Args.CompileWithFlavor`. -/
inductive CompileMode where
  | normal
  | dollar
  | digits (n : Nat)
deriving DecidableEq, Repr

/-- Output of compiling the reference `$n`: a `?` and the value `args[n]`; nothing
when `n` is out of range. -/
def compileValue (args : List String) (n : Nat) : List Char × List String :=
  match args.get? n with
  | some v => (['?'], [v])
  | none => ([], [])

/-- The scanner of `Args.CompileWithFlavor` as a state machine over the
characters of the format: `$$` is a literal dollar, `$` followed by a run of
digits refers to the argument of that index, any other `$` is kept as it is. -/
def compileGo (args : List String) : CompileMode → List Char → List Char × List String
  | .normal, [] => ([], [])
  | .dollar, [] => (['$'], [])
  | .digits n, [] => compileValue args n
  | .normal, c :: cs =>
    if c = '$' then compileGo args .dollar cs
    else
      let r := compileGo args .normal cs
      (c :: r.1, r.2)
  | .dollar, c :: cs =>
    if c = '$' then
      let r := compileGo args .normal cs
      ('$' :: r.1, r.2)
    else if c.isDigit then compileGo args (.digits (c.toNat - 48)) cs
    else
      let r := compileGo args .normal cs
      ('$' :: c :: r.1, r.2)
  | .digits n, c :: cs =>
    if c.isDigit then compileGo args (.digits (10 * n + (c.toNat - 48))) cs
    else
      let v := compileValue args n
      let r := if c = '$' then compileGo args .dollar cs
        else
          let r0 := compileGo args .normal cs
          (c :: r0.1, r0.2)
      (v.1 ++ r.1, v.2 ++ r.2)

/-- Library call `Args.Compile(format)`: the SQL text and the positional arguments. -/
def compile (args : List String) (format : String) : String × List String :=
  let r := compileGo args .normal format.data
  (String.mk r.1, r.2)

/-- Library call `sb.Build()`. -/
def SelectBuilder.Build (sb : SelectBuilder) : String × List String :=
  compile sb.args sb.render

/-! ## The wrapper `selectBuilder` of package `ql` -/

namespace SelectBuilder

/-- Modelled from the spec: the method `EqualField` of the `selectBuilder` wrapper,
whose declaring file is not part of the sources at hand. The spec gives the
predicate shape `key_lookup(label) = value` with the value passed as a positional
argument: the field text is used as it is and the value is added to the arguments. -/
def EqualField (sb : SelectBuilder) (field value : String) : String × SelectBuilder :=
  let a := sb.argsAdd value
  (field ++ " = " ++ a.1, a.2)

/-- Modelled from the spec: the method `NotEqualField` of the `selectBuilder`
wrapper, predicate shape `key_lookup(label) != value`. -/
def NotEqualField (sb : SelectBuilder) (field value : String) : String × SelectBuilder :=
  let a := sb.argsAdd value
  (field ++ " != " ++ a.1, a.2)

/-- Modelled from the spec: the method `MatchField` of the `selectBuilder` wrapper,
predicate shape `key_lookup(label) MATCHES value`, written with the engine-native
regex predicate `match(haystack, pattern)`. -/
def MatchField (sb : SelectBuilder) (field value : String) : String × SelectBuilder :=
  let a := sb.argsAdd value
  ("match(" ++ field ++ ", " ++ a.1 ++ ")", a.2)

/-- Modelled from the spec: the method `NotMatchField` of the `selectBuilder`
wrapper, predicate shape `NOT (key_lookup(label) MATCHES value)`. -/
def NotMatchField (sb : SelectBuilder) (field value : String) : String × SelectBuilder :=
  let a := sb.MatchField field value
  ("NOT (" ++ a.1 ++ ")", a.2)

/-- Library function `sqlbuilder.Escape`: every `$` of an identifier is doubled. -/
def Escape (ident : String) : String :=
  String.mk (ident.data.flatMap fun c => if c = '$' then ['$', '$'] else [c])

/-- Library method `Cond.Like`. -/
def Like (sb : SelectBuilder) (field value : String) : String × SelectBuilder :=
  let a := sb.argsAdd value
  (Escape field ++ " LIKE " ++ a.1, a.2)

/-- Library method `Cond.NotLike`. -/
def NotLike (sb : SelectBuilder) (field value : String) : String × SelectBuilder :=
  let a := sb.argsAdd value
  (Escape field ++ " NOT LIKE " ++ a.1, a.2)

/-- Modelled from the spec: the method `Match` of the `selectBuilder` wrapper,
predicate shape `body_col MATCHES pattern` on an escaped column name. -/
def Match (sb : SelectBuilder) (field value : String) : String × SelectBuilder :=
  let a := sb.argsAdd value
  ("match(" ++ Escape field ++ ", " ++ a.1 ++ ")", a.2)

/-- Modelled from the spec: the method `NotMatch` of the `selectBuilder` wrapper,
the negation of `Match`. -/
def NotMatch (sb : SelectBuilder) (field value : String) : String × SelectBuilder :=
  let a := sb.Match field value
  ("NOT (" ++ a.1 ++ ")", a.2)

end SelectBuilder

/-! ## Prometheus `labels.Matcher` and the LogQL selector (library model) -/

/-- Go `labels.MatchType`, an `int`. -/
abbrev MatchType := Int

def MatchEqual : MatchType := 0
def MatchNotEqual : MatchType := 1
def MatchRegexp : MatchType := 2
def MatchNotRegexp : MatchType := 3

/-- Go `labels.Matcher`. The unexported field `re` holds the compiled regular
expression, represented here by its source string; it is `none` for a nil pointer. -/
structure Matcher where
  Type_ : MatchType
  Name : String
  Value : String
  re : Option String
deriving DecidableEq, Repr

/-- Library method `Matcher.GetRegexString`: the empty string when `re` is nil. -/
def Matcher.GetRegexString (m : Matcher) : String :=
  match m.re with
  | none => ""
  | some s => s

/-- Library constructor `labels.NewMatcher` (which the LogQL parser and `logql.Match`
use): the regular expression is set from the value for the two regex types only. -/
def NewMatcher (t : MatchType) (n v : String) : Matcher :=
  { Type_ := t, Name := n, Value := v,
    re := if t = MatchRegexp ∨ t = MatchNotRegexp then some v else none }

/-- One node handed to the callback of `expr.Walk` in `AcceptLogSelectorExpr`,
by the case of the type switch it takes. -/
inductive Node where
  | pipelineExpr
  | matchersExpr (mts : List Matcher)
  | lineFilterExpr (ty : MatchType) (mtch : String)
  | other
deriving DecidableEq, Repr

/-- A `syntax.LogSelectorExpr`, represented by the sequence of nodes its `Walk`
visits (a `PipelineExpr` is followed by its matchers node and its stages). -/
abbrev LogSelectorExpr := List Node

/-- Go `logproto.Direction`, an `int32` enum. -/
abbrev Direction := Int

def FORWARD : Direction := 0
def BACKWARD : Direction := 1

/-! ## `transformer.go` -/

/-- Source function `denormalizeLabel`: `strings.Map` with `_` sent to `.`. -/
def denormalizeLabel (label : String) : String :=
  String.mk (label.data.map fun r => if r = '_' then '.' else r)

/-- The expression `fmt.Sprintf` builds in `AcceptMatcher` and `LabelQuery` around
a placeholder. -/
def keySelectorOf (ph : String) : String :=
  "arrayElement(`" ++ OtelLogLabelsColumn ++ "`, " ++ ph ++ ")"

/-- Source method `logQLTransformer.AcceptMatcher`; the panic of the default case
is the `error` result, its message without the formatted operator. -/
def AcceptMatcher (b : SelectBuilder) (m : Matcher) : Except String SelectBuilder :=
  if m.Value = "" ∧ m.GetRegexString = "" then .ok b
  else
    let a := b.argsAdd (denormalizeLabel m.Name)
    let keySelector := keySelectorOf a.1
    if m.Type_ = MatchEqual then
      let p := a.2.EqualField keySelector m.Value
      .ok (p.2.Where p.1)
    else if m.Type_ = MatchNotEqual then
      let p := a.2.NotEqualField keySelector m.Value
      .ok (p.2.Where p.1)
    else if m.Type_ = MatchRegexp then
      let p := a.2.MatchField keySelector m.GetRegexString
      .ok (p.2.Where p.1)
    else if m.Type_ = MatchNotRegexp then
      let p := a.2.NotMatchField keySelector m.GetRegexString
      .ok (p.2.Where p.1)
    else .error "invalid match type"

/-- Source method `logQLTransformer.AcceptMatchersExpr`: the loop over `expr.Matchers()`. -/
def AcceptMatchersExpr (b : SelectBuilder) (mts : List Matcher) : Except String SelectBuilder :=
  mts.foldlM AcceptMatcher b

/-- Source method `logQLTransformer.AcceptLineFilterExpr`; the default case only logs. -/
def AcceptLineFilterExpr (b : SelectBuilder) (ty : MatchType) (mtch : String) : SelectBuilder :=
  if mtch = "" then b
  else if ty = MatchEqual then
    let p := b.Like OtelLogMessageColumn ("%" ++ mtch ++ "%")
    p.2.Where p.1
  else if ty = MatchNotEqual then
    let p := b.NotLike OtelLogMessageColumn ("%" ++ mtch ++ "%")
    p.2.Where p.1
  else if ty = MatchRegexp then
    let p := b.Match OtelLogMessageColumn mtch
    p.2.Where p.1
  else if ty = MatchNotRegexp then
    let p := b.NotMatch OtelLogMessageColumn mtch
    p.2.Where p.1
  else b

/-- The callback `AcceptLogSelectorExpr` passes to `expr.Walk`, applied to one node. -/
def acceptNode (b : SelectBuilder) : Node → Except String SelectBuilder
  | .pipelineExpr => .ok b
  | .matchersExpr mts => AcceptMatchersExpr b mts
  | .lineFilterExpr ty mtch => .ok (AcceptLineFilterExpr b ty mtch)
  | .other => .ok b

/-- Source method `logQLTransformer.AcceptLogSelectorExpr`. -/
def AcceptLogSelectorExpr (b : SelectBuilder) (expr : LogSelectorExpr) :
    Except String SelectBuilder :=
  expr.foldlM acceptNode b

/-! ## `queries.go` -/

/-- Go `otelEnvironmentImpl`. -/
structure otelEnvironmentImpl where
  dbName : String
  otelLogsTable : String
deriving DecidableEq, Repr

/-- Source method `otelEnvironmentImpl.tableName`. -/
def otelEnvironmentImpl.tableName (o : otelEnvironmentImpl) : String :=
  "`" ++ o.dbName ++ "`.`" ++ o.otelLogsTable ++ "`"

/-- Lower time bound `fmt.Sprintf` writes: the millisecond count is printed in decimal. -/
def lowerBound (ms : Int) : String :=
  "`" ++ OtelLogTimestampColumn ++ "` >= fromUnixTimestamp64Milli(" ++ toString ms ++ ")"

/-- Upper time bound `fmt.Sprintf` writes. -/
def upperBound (ms : Int) : String :=
  "`" ++ OtelLogTimestampColumn ++ "` <= fromUnixTimestamp64Milli(" ++ toString ms ++ ")"

/-- The `ORDER BY` column of `SelectLogsQuery` for a direction. -/
def orderByOf (direction : Direction) : String :=
  let orderBy := "`" ++ OtelLogTimestampColumn ++ "`"
  if direction = BACKWARD then orderBy ++ " DESC"
  else if direction = FORWARD then orderBy ++ " ASC"
  else orderBy

/-- The builder of `SelectLogsQuery` at the point where the selector is translated. -/
def selectLogsInit (o : otelEnvironmentImpl) (start end_ : Int) (limit : Nat)
    (direction : Direction) : SelectBuilder :=
  let sb := (SelectBuilder.new.Select
    ["`" ++ OtelLogTimestampColumn ++ "`", "`" ++ OtelLogMessageColumn ++ "`",
      "`" ++ OtelLogLabelsColumn ++ "`"]).From o.tableName
  let sb := sb.Where (lowerBound start)
  let sb := sb.Where (upperBound end_)
  let sb := sb.Limit (limit : Int)
  sb.OrderBy (orderByOf direction)

/-- The statement builder `SelectLogsQuery` holds when it calls `Build`. -/
def selectLogsBuilder (o : otelEnvironmentImpl) (expr : LogSelectorExpr) (start end_ : Int)
    (limit : Nat) (direction : Direction) : Except String SelectBuilder :=
  AcceptLogSelectorExpr (selectLogsInit o start end_ limit direction) expr

/-- Source method `otelEnvironmentImpl.SelectLogsQuery`. -/
def SelectLogsQuery (o : otelEnvironmentImpl) (expr : LogSelectorExpr) (start end_ : Int)
    (limit : Nat) (direction : Direction) : Except String (String × List String) :=
  (selectLogsBuilder o expr start end_ limit direction).map SelectBuilder.Build

/-- The statement builder `LabelQuery` holds when it calls `Build`. -/
def labelBuilder (o : otelEnvironmentImpl) (name : String) (values : Bool)
    (start end_ : Option Int) : SelectBuilder :=
  let sb := (SelectBuilder.new.From o.tableName).Distinct
  let sb :=
    if values then
      let a := sb.argsAdd (denormalizeLabel name)
      a.2.Select [keySelectorOf a.1]
    else sb.Select ["arrayJoin(mapKeys(`" ++ OtelLogLabelsColumn ++ "`))"]
  let sb := match start with
    | some s => sb.Where (lowerBound s)
    | none => sb
  match end_ with
  | some e => sb.Where (upperBound e)
  | none => sb

/-- Source method `otelEnvironmentImpl.LabelQuery`. -/
def LabelQuery (o : otelEnvironmentImpl) (name : String) (values : Bool)
    (start end_ : Option Int) : String × List String :=
  (labelBuilder o name values start end_).Build

/-- The builder of `SeriesQuery` before the loop over the groups. -/
def seriesInit (o : otelEnvironmentImpl) (start end_ : Int) : SelectBuilder :=
  let sb := (SelectBuilder.new.From o.tableName).Distinct
  let sb := sb.Select ["`" ++ OtelLogLabelsColumn ++ "`"]
  let sb := sb.Where (lowerBound start)
  sb.Where (upperBound end_)

/-- The statement builder `SeriesQuery` holds when it calls `Build`. -/
def seriesBuilder (o : otelEnvironmentImpl) (groups : List (List Matcher)) (start end_ : Int) :
    Except String SelectBuilder :=
  groups.foldlM (fun b group => group.foldlM AcceptMatcher b) (seriesInit o start end_)

/-- Source method `otelEnvironmentImpl.SeriesQuery`. -/
def SeriesQuery (o : otelEnvironmentImpl) (groups : List (List Matcher)) (start end_ : Int) :
    Except String (String × List String) :=
  (seriesBuilder o groups start end_).map SelectBuilder.Build

/-! ## OpenTelemetry `prometheustranslator.NormalizeLabel` (library model) -/

/-- What `NormalizeLabel` reads from outside its argument: the Unicode tables
behind `unicode.IsLetter` and `unicode.IsDigit` for the characters beyond ASCII,
and the state of the feature gate `PermissiveLabelSanitization` (off by default). -/
structure NormalizeEnv where
  letterOrDigit : Char → Bool
  dropSanitizationGate : Bool

/-- The test `unicode.IsLetter(r) || unicode.IsDigit(r)`: on ASCII these are the
letters and the decimal digits. -/
def isLetterOrDigit (E : NormalizeEnv) (r : Char) : Bool :=
  if r.toNat < 128 then r.isAlphanum else E.letterOrDigit r

/-- Library function `sanitizeRune`: `_` for anything that is no letter and no digit. -/
def sanitizeRune (E : NormalizeEnv) (r : Char) : Char :=
  if isLetterOrDigit E r then r else '_'

/-- Library function `NormalizeLabel`. The digit test reads the first byte of the
sanitized label, which is a digit only for an ASCII digit. -/
def NormalizeLabel (E : NormalizeEnv) (label : String) : String :=
  if label.data = [] then label
  else
    let l := label.data.map (sanitizeRune E)
    match l with
    | [] => String.mk l
    | c :: cs =>
      if c.isDigit then String.mk ("key_".data ++ l)
      else if c = '_' ∧ cs.head? ≠ some '_' ∧ E.dropSanitizationGate = false then
        String.mk ("key".data ++ l)
      else String.mk l

/-- Normalisation environment with the ASCII tables only and the feature
gate `PermissiveLabelSanitization` at its default. -/
def asciiNormalizeEnv : NormalizeEnv :=
  { letterOrDigit := fun _ => false, dropSanitizationGate := false }

/-! ## Specification-side definitions -/

/-- A builder with further `WHERE` expressions and arguments appended, everything
else unchanged. -/
def SelectBuilder.extend (b : SelectBuilder) (w a : List String) : SelectBuilder :=
  { b with whereExprs := b.whereExprs ++ w, args := b.args ++ a }

/-- The four operator kinds the translator recognises. -/
def recognized (t : MatchType) : Prop :=
  t = MatchEqual ∨ t = MatchNotEqual ∨ t = MatchRegexp ∨ t = MatchNotRegexp

instance (t : MatchType) : Decidable (recognized t) := by
  unfold recognized; infer_instance

/-- A matcher the translator drops: empty value and empty regex string. -/
def Matcher.dropped (m : Matcher) : Prop := m.Value = "" ∧ m.GetRegexString = ""

instance (m : Matcher) : Decidable m.dropped := by
  unfold Matcher.dropped; infer_instance

/-- The comparison of the spec's matcher table for an operator, a key lookup and
the placeholder of the compared value. -/
def comparison (t : MatchType) (key ph : String) : String :=
  if t = MatchEqual then key ++ " = " ++ ph
  else if t = MatchNotEqual then key ++ " != " ++ ph
  else if t = MatchRegexp then "match(" ++ key ++ ", " ++ ph ++ ")"
  else "NOT (" ++ ("match(" ++ key ++ ", " ++ ph ++ ")") ++ ")"

/-- The predicate of a matcher of operator `t` whose key is argument `i` and whose
compared value is argument `i + 1`, a reference to argument `k` being written
`ph k`: the placeholder `$k` in the builder, `?` in the built text. -/
def matcherPredicate (ph : Nat → String) (t : MatchType) (i : Nat) : String :=
  comparison t (keySelectorOf (ph i)) (ph (i + 1))

/-- The value a matcher is compared with: the value for the equality operators,
the regex string for the others. -/
def Matcher.param (m : Matcher) : String :=
  if m.Type_ = MatchEqual ∨ m.Type_ = MatchNotEqual then m.Value else m.GetRegexString

/-- One predicate per matcher that is not dropped, in list order, the first
reference being to argument `i`. -/
def flatWhere (ph : Nat → String) : Nat → List Matcher → List String
  | _, [] => []
  | i, m :: ms =>
    if m.dropped then flatWhere ph i ms
    else matcherPredicate ph m.Type_ i :: flatWhere ph (i + 2) ms

/-- The reference to an argument in the built text. -/
def questionMark : Nat → String := fun _ => "?"

/-- The arguments of the matchers that are not dropped: denormalized name, then
compared value. -/
def flatArgs : List Matcher → List String
  | [] => []
  | m :: ms =>
    if m.dropped then flatArgs ms else denormalizeLabel m.Name :: m.param :: flatArgs ms

/-- Two builders that hold the same statement and differ at most in the values of
their arguments. -/
def agree (b1 b2 : SelectBuilder) : Prop :=
  b1.distinct = b2.distinct ∧ b1.tables = b2.tables ∧ b1.selectCols = b2.selectCols ∧
  b1.whereExprs = b2.whereExprs ∧ b1.orderByCols = b2.orderByCols ∧ b1.limit = b2.limit ∧
  b1.args.length = b2.args.length

/-- Two translation results that both fail, or both hold agreeing builders. -/
def agreeResult : Except String SelectBuilder → Except String SelectBuilder → Prop
  | .ok b1, .ok b2 => agree b1 b2
  | .error e1, .error e2 => e1 = e2
  | _, _ => False

/-- Two lists of equal length whose members are related pairwise. -/
def allPairs {α : Type} (S : α → α → Bool) : List α → List α → Bool
  | [], [] => true
  | x :: xs, y :: ys => S x y && allPairs S xs ys
  | _, _ => false

/-- Two matchers that differ at most in their strings: the same operator, and
both dropped or both translated. -/
def sameShapeMatcher (m1 m2 : Matcher) : Bool :=
  decide (m1.Type_ = m2.Type_) && decide (m1.dropped ↔ m2.dropped)

/-- Two selector nodes that differ at most in their strings. -/
def sameShapeNode : Node → Node → Bool
  | .pipelineExpr, .pipelineExpr => true
  | .matchersExpr ms1, .matchersExpr ms2 => allPairs sameShapeMatcher ms1 ms2
  | .lineFilterExpr t1 s1, .lineFilterExpr t2 s2 => decide (t1 = t2) && decide (s1 = "" ↔ s2 = "")
  | .other, .other => true
  | _, _ => false

/-- Two selectors that differ at most in label names, in non-empty matcher values
and in non-empty line-filter patterns. -/
def sameShape (e1 e2 : LogSelectorExpr) : Bool := allPairs sameShapeNode e1 e2

/-- Two lists of matcher groups that differ at most in label names and in
non-empty matcher values. -/
def sameShapeGroups (g1 g2 : List (List Matcher)) : Bool :=
  allPairs (allPairs sameShapeMatcher) g1 g2

/-- The time-range predicates of `LabelQuery`, one per bound that is present. -/
def labelBounds (start end_ : Option Int) : List String :=
  (start.map lowerBound).toList ++ (end_.map upperBound).toList

/-- The `WHERE` clause of a statement text: nothing for no predicate, otherwise
the predicates joined by `AND`. -/
def whereClause (w : List String) : String :=
  if w ≠ [] then " WHERE " ++ " AND ".intercalate w else ""

/-- The argument a line filter adds: the pattern between wildcards for the two
containment operators, the pattern itself for the two regex operators, nothing
for an empty pattern or another operator. -/
def lineFilterArgs (ty : MatchType) (mtch : String) : List String :=
  if mtch = "" then []
  else if ty = MatchEqual ∨ ty = MatchNotEqual then ["%" ++ mtch ++ "%"]
  else if ty = MatchRegexp ∨ ty = MatchNotRegexp then [mtch]
  else []

/-- The predicate a line filter adds when `i` arguments are already stored. -/
def lineFilterWhere (ph : Nat → String) (ty : MatchType) (mtch : String) (i : Nat) :
    List String :=
  if mtch = "" then []
  else if ty = MatchEqual then [OtelLogMessageColumn ++ " LIKE " ++ ph i]
  else if ty = MatchNotEqual then [OtelLogMessageColumn ++ " NOT LIKE " ++ ph i]
  else if ty = MatchRegexp then ["match(" ++ OtelLogMessageColumn ++ ", " ++ ph i ++ ")"]
  else if ty = MatchNotRegexp then
    ["NOT (" ++ ("match(" ++ OtelLogMessageColumn ++ ", " ++ ph i ++ ")") ++ ")"]
  else []

/-- The arguments one selector node adds. -/
def nodeArgs : Node → List String
  | .pipelineExpr => []
  | .matchersExpr mts => flatArgs mts
  | .lineFilterExpr ty mtch => lineFilterArgs ty mtch
  | .other => []

/-- The arguments a selector adds, in the order of the walk. -/
def selectorArgs (expr : LogSelectorExpr) : List String :=
  expr.flatMap nodeArgs

/-- The predicates one selector node adds when `i` arguments are already stored. -/
def nodeWhere (ph : Nat → String) (i : Nat) : Node → List String
  | .pipelineExpr => []
  | .matchersExpr mts => flatWhere ph i mts
  | .lineFilterExpr ty mtch => lineFilterWhere ph ty mtch i
  | .other => []

/-- The predicates a selector adds, in the order of the walk. -/
def selectorWhere (ph : Nat → String) : Nat → LogSelectorExpr → List String
  | _, [] => []
  | i, n :: ns => nodeWhere ph i n ++ selectorWhere ph (i + (nodeArgs n).length) ns

/-- A stretch of format that is empty or begins with something else than a digit. -/
def startsNonDigit : List Char → Prop
  | [] => True
  | c :: _ => c.isDigit = false

instance (l : List Char) : Decidable (startsNonDigit l) := by
  cases l <;> unfold startsNonDigit <;> infer_instance

/-- The scanner of `compile`, in normal mode at the stretch `s` of a format that
goes on with something else than a digit, writes `t`, emits the values `v` and is
in normal mode again. -/
def Emits (args : List String) (s t : String) (v : List String) : Prop :=
  ∀ rest, startsNonDigit rest →
    compileGo args .normal (s.data ++ rest) =
      (t.data ++ (compileGo args .normal rest).1, v ++ (compileGo args .normal rest).2)

/-- The number a run of decimal digits denotes, continuing from `n`. -/
def parseDigits (n : Nat) (ds : List Char) : Nat :=
  ds.foldl (fun a c => 10 * a + (c.toNat - 48)) n

/-- The expressions of a `WHERE` list after the first, each behind ` AND `. -/
def andTail : List String → String
  | [] => ""
  | e :: es => " AND " ++ e ++ andTail es

/-- Every matcher of the list that is translated has a recognised operator. -/
def matchersRecognized (ms : List Matcher) : Prop :=
  ∀ m ∈ ms, ¬ m.dropped → recognized m.Type_

instance (ms : List Matcher) : Decidable (matchersRecognized ms) := by
  unfold matchersRecognized; infer_instance

/-- The matchers of a matchers node are recognised; other nodes never panic. -/
def nodeRecognized : Node → Prop
  | .matchersExpr mts => matchersRecognized mts
  | _ => True

instance (n : Node) : Decidable (nodeRecognized n) := by
  cases n <;> unfold nodeRecognized <;> infer_instance

/-- No node of the selector makes the translation panic. -/
def selectorRecognized (expr : LogSelectorExpr) : Prop :=
  ∀ n ∈ expr, nodeRecognized n

instance (expr : LogSelectorExpr) : Decidable (selectorRecognized expr) := by
  unfold selectorRecognized; infer_instance

/-- The SQL text of a log selection statement whose `WHERE` list holds the two
time-range predicates and then `preds`. -/
def selectLogsText (o : otelEnvironmentImpl) (preds : List String) (start end_ : Int)
    (limit : Nat) (direction : Direction) : String :=
  "SELECT `Timestamp`, `Body`, `ResourceAttributes` FROM " ++ o.tableName ++ " WHERE " ++
    " AND ".intercalate (lowerBound start :: upperBound end_ :: preds) ++
    " ORDER BY " ++ orderByOf direction ++ " LIMIT " ++ toString limit

/-- The SQL text of a series statement whose `WHERE` list holds the two time-range
predicates and then `preds`. -/
def seriesText (o : otelEnvironmentImpl) (preds : List String) (start end_ : Int) : String :=
  "SELECT DISTINCT `ResourceAttributes` FROM " ++ o.tableName ++ " WHERE " ++
    " AND ".intercalate (lowerBound start :: upperBound end_ :: preds)

/-- The name begins with a decimal digit. -/
def beginsWithDigit (L : String) : Bool :=
  match L.data with
  | c :: _ => c.isDigit
  | [] => false

/-- The name begins with an underscore that no second underscore follows. -/
def beginsWithSingleUnderscore (L : String) : Bool :=
  match L.data with
  | c :: cs => decide (c = '_' ∧ cs.head? ≠ some '_')
  | [] => false

/-- An environment for the worked scenarios. -/
def exampleEnv : otelEnvironmentImpl := { dbName := "otel", otelLogsTable := "logs" }

/-! ## SQL `LIKE` (engine model) -/

/-- The `LIKE` operator of the SQL engine on a pattern and a text: `%` stands for
any run of characters, `_` for any one character, a backslash takes the next
pattern character literally, every other character stands for itself. -/
def likeMatch : List Char → List Char → Bool
  | [], t => t.isEmpty
  | c :: ps, t =>
    if c = '%' then t.tails.any fun s => likeMatch ps s
    else if c = '_' then
      match t with
      | [] => false
      | _ :: ts => likeMatch ps ts
    else if c = '\\' then
      match t with
      | [] => false
      | x :: ts =>
        match ps with
        | [] => decide (x = '\\') && ts.isEmpty
        | e :: ps' => decide (x = e) && likeMatch ps' ts
    else
      match t with
      | [] => false
      | x :: ts => decide (x = c) && likeMatch ps ts

/-- The string `p` occurs in `b` as a substring. -/
def occursIn (p b : String) : Prop := ∃ s t : List Char, b.data = s ++ p.data ++ t

/-! ## `database/sql` rows (library model) -/

/-- A result cursor `*sql.Rows` over rows of type `ρ`: the rows not yet reached, the
row `Next` stopped at, the error `Err` reports, and the error the cursor ends with
when its rows run out (`none` for a clean end). `scanned` counts the calls of
`Scan`. -/
structure Rows (ρ : Type) where
  pending : List ρ
  current : Option ρ
  lasterr : Option String
  terminal : Option String
  scanned : Nat
deriving DecidableEq, Repr

/-- Library method `Rows.Next`: steps to the next row, or ends the cursor and
records its terminal error. -/
def Rows.Next {ρ : Type} (r : Rows ρ) : Bool × Rows ρ :=
  match r.pending with
  | x :: xs => (true, { r with pending := xs, current := some x })
  | [] => (false, { r with current := none, lasterr := r.terminal })

/-- Library method `Rows.Err`. -/
def Rows.Err {ρ : Type} (r : Rows ρ) : Option String := r.lasterr

/-- Library method `Rows.Scan` on a cursor whose rows hold the outcome of their
scan: the values read or the scan error. -/
def Rows.Scan {α : Type} (r : Rows (Except String α)) : Except String α × Rows (Except String α) :=
  match r.current with
  | some x => (x, { r with scanned := r.scanned + 1 })
  | none => (.error "sql: Scan called without calling Next", { r with scanned := r.scanned + 1 })

/-! ## Go maps and Prometheus labels (library model) -/

/-- A Go `map[string]string`, kept as the list of its entries in increasing key
order, so that equal maps are equal lists. -/
abbrev StringMap := List (String × String)

/-- The order of Go strings, byte by byte, which is the order of their characters
by code point. -/
def ltChars : List Char → List Char → Bool
  | [], [] => false
  | [], _ :: _ => true
  | _ :: _, [] => false
  | a :: as, b :: bs =>
    if a.toNat < b.toNat then true
    else if a.toNat = b.toNat then ltChars as bs
    else false

/-- The assignment `m[k] = v`. -/
def mapInsert (k v : String) : StringMap → StringMap
  | [] => [(k, v)]
  | (k', v') :: rest =>
    if k = k' then (k, v) :: rest
    else if ltChars k.data k'.data then (k, v) :: (k', v') :: rest
    else (k', v') :: mapInsert k v rest

/-- Two map entries in increasing key order. -/
def keyLt (a b : String × String) : Prop := ltChars a.1.data b.1.data = true

/-- What decoding reads from outside the row: the environment of `NormalizeLabel`
and the function `strconv.Quote`. -/
structure DecodeEnv where
  norm : NormalizeEnv
  quote : String → String

/-- Library method `Labels.String` on labels sorted by name:
the pairs `name=quoted value`, separated by a comma and a blank, between braces. -/
def labelsString (E : DecodeEnv) (ls : StringMap) : String :=
  "\x7b" ++ ", ".intercalate (ls.map fun l => l.1 ++ "=" ++ E.quote l.2) ++ "\x7d"

/-- Decode environment with the ASCII tables and the quoting of a value that needs
no escape. -/
def exampleDecodeEnv : DecodeEnv :=
  { norm := asciiNormalizeEnv, quote := fun s => "\"" ++ s ++ "\"" }

/-! ## `rowiterator.go` -/

/-- The zero `time.Time`, as its `UnixMilli` count. -/
def zeroTime : Int := -62135596800000

/-- The values `rows.Scan` reads from a row of the log table; `labelMap` lists the
entries of the scanned map in the order the `range` loop visits them. -/
structure ScannedRow where
  timestamp : Int
  body : String
  labelMap : List (String × String)
deriving DecidableEq, Repr

/-- Go `serializedRow`; `labels` is `labels.FromMap(labelMap)`, the entries sorted
by name. -/
structure serializedRow where
  timestamp : Int
  body : String
  labelMap : StringMap
  labels : StringMap
deriving DecidableEq, Repr

/-- Go `logproto.Entry`. -/
structure Entry where
  Timestamp : Int
  Line : String
deriving DecidableEq, Repr

/-- The function `sync.OnceValues` returns: not called yet, or its cached result. -/
inductive OnceValues (α : Type) where
  | fresh
  | done (r : α)
deriving DecidableEq, Repr

/-- Go `rowEntryIterator`; `currentRow` is `none` for the nil function. -/
structure rowEntryIterator where
  rows : Rows (Except String ScannedRow)
  currentRow : Option (OnceValues (Except String serializedRow))
deriving DecidableEq

/-- The loop of `readFromDB` and of `Series` over a scanned map: every key is
normalized and assigned its value, in iteration order. -/
def normalizeMap (E : NormalizeEnv) (entries : List (String × String)) : StringMap :=
  entries.foldl (fun m kv => mapInsert (NormalizeLabel E kv.1) kv.2 m) []

/-- The row `readFromDB` returns for the outcome of the scan. -/
def decodeRow (E : DecodeEnv) : Except String ScannedRow → Except String serializedRow
  | .error e => .error ("failed to scan row: " ++ e)
  | .ok s =>
    .ok { timestamp := s.timestamp, body := s.body,
          labelMap := normalizeMap E.norm s.labelMap,
          labels := normalizeMap E.norm s.labelMap }

/-- Source method `rowEntryIterator.readFromDB`. -/
def rowEntryIterator.readFromDB (E : DecodeEnv) (r : rowEntryIterator) :
    Except String serializedRow × rowEntryIterator :=
  let s := r.rows.Scan
  (decodeRow E s.1, { r with rows := s.2 })

/-- The call `r.currentRow()`: a panic for the nil function, otherwise the cached
result, computed by `readFromDB` at the first call. -/
def rowEntryIterator.callCurrentRow (E : DecodeEnv) (r : rowEntryIterator) :
    Except String (Except String serializedRow × rowEntryIterator) :=
  match r.currentRow with
  | none => .error "invalid memory address or nil pointer dereference"
  | some (.done res) => .ok (res, r)
  | some .fresh =>
    let d := r.readFromDB E
    .ok (d.1, { d.2 with currentRow := some (.done d.1) })

/-- Source method `rowEntryIterator.Next`. -/
def rowEntryIterator.Next (E : DecodeEnv) (r : rowEntryIterator) :
    Except String (Bool × rowEntryIterator) :=
  let n := r.rows.Next
  if n.1 then
    let r1 : rowEntryIterator := { rows := n.2, currentRow := some .fresh }
    match r1.callCurrentRow E with
    | .error p => .error p
    | .ok (.error _, r2) => .ok (false, r2)
    | .ok (.ok _, r2) => .ok (true, r2)
  else .ok (false, { r with rows := n.2 })

/-- Source method `rowEntryIterator.Labels`. -/
def rowEntryIterator.Labels (E : DecodeEnv) (r : rowEntryIterator) :
    Except String (String × rowEntryIterator) :=
  match r.callCurrentRow E with
  | .error p => .error p
  | .ok (.error _, r1) => .ok ("", r1)
  | .ok (.ok row, r1) => .ok (labelsString E row.labels, r1)

/-- The UTF-8 bytes of a character. -/
def utf8Bytes (c : Char) : List Nat :=
  let n := c.toNat
  if n < 0x80 then [n]
  else if n < 0x800 then [0xC0 + n / 64, 0x80 + n % 64]
  else if n < 0x10000 then [0xE0 + n / 4096, 0x80 + n / 64 % 64, 0x80 + n % 64]
  else [0xF0 + n / 262144, 0x80 + n / 4096 % 64, 0x80 + n / 64 % 64, 0x80 + n % 64]

/-- One step of the 64-bit FNV-1a hash: xor with the byte, then multiply by the
prime modulo `2 ^ 64`. -/
def fnvStep (h b : Nat) : Nat := (h ^^^ b) * 1099511628211 % 2 ^ 64

/-- Source function `hashLabels`: `fnv.New64a` over the bytes of the string. -/
def hashLabels (lbs : String) : Nat :=
  (lbs.data.flatMap utf8Bytes).foldl fnvStep 14695981039346656037

/-- Source method `rowEntryIterator.StreamHash`. -/
def rowEntryIterator.StreamHash (E : DecodeEnv) (r : rowEntryIterator) :
    Except String (Nat × rowEntryIterator) :=
  match r.Labels E with
  | .error p => .error p
  | .ok (s, r1) => .ok (hashLabels s, r1)

/-- Source method `rowEntryIterator.Error`. -/
def rowEntryIterator.Error (E : DecodeEnv) (r : rowEntryIterator) :
    Except String (Option String × rowEntryIterator) :=
  let err := r.rows.Err
  if err = none ∧ r.currentRow.isSome then
    match r.callCurrentRow E with
    | .error p => .error p
    | .ok (.error e, r1) => .ok (some e, r1)
    | .ok (.ok _, r1) => .ok (none, r1)
  else .ok (err, r)

/-- Source method `rowEntryIterator.Entry`. -/
def rowEntryIterator.Entry (E : DecodeEnv) (r : rowEntryIterator) :
    Except String (Entry × rowEntryIterator) :=
  match r.callCurrentRow E with
  | .error p => .error p
  | .ok (.error _, r1) => .ok ({ Timestamp := zeroTime, Line := "" }, r1)
  | .ok (.ok row, r1) => .ok ({ Timestamp := row.timestamp, Line := row.body }, r1)

/-- The reader `SelectLogs` returns: `&rowEntryIterator{rows: rows}`. -/
def newRowEntryIterator (rows : Rows (Except String ScannedRow)) : rowEntryIterator :=
  { rows := rows, currentRow := none }

/-- A cursor that has not been stepped yet. -/
def Rows.ofList {ρ : Type} (rows : List ρ) (terminal : Option String) : Rows ρ :=
  { pending := rows, current := none, lasterr := none, terminal := terminal, scanned := 0 }

/-- The reader after a `Next` that found the row `raw`, the rows `rest` remaining:
the row has been scanned once and its decoding is cached. -/
def afterRow (E : DecodeEnv) (r : rowEntryIterator) (raw : Except String ScannedRow)
    (rest : List (Except String ScannedRow)) : rowEntryIterator :=
  { rows := { pending := rest, current := some raw, lasterr := r.rows.lasterr,
              terminal := r.rows.terminal, scanned := r.rows.scanned + 1 },
    currentRow := some (.done (decodeRow E raw)) }

/-- The reader after a `Next` that found no row: the cursor has ended, the memo is
as it was. -/
def afterEnd (r : rowEntryIterator) : rowEntryIterator :=
  { rows := { pending := r.rows.pending, current := none, lasterr := r.rows.terminal,
              terminal := r.rows.terminal, scanned := r.rows.scanned },
    currentRow := r.currentRow }

/-- The error of a decoding, nil for a decoded row. -/
def decodeError : Except String serializedRow → Option String
  | .error e => some e
  | .ok _ => none

/-- The four accessors of the reader that read the current row. -/
inductive Accessor where
  | Labels
  | StreamHash
  | Entry
  | Error
deriving DecidableEq, Repr

/-- What a call of an accessor returns. -/
inductive Observation where
  | labels (s : String)
  | streamHash (h : Nat)
  | entry (e : Entry)
  | error (err : Option String)
deriving DecidableEq, Repr

/-- One accessor call on the reader. -/
def rowEntryIterator.call (E : DecodeEnv) (r : rowEntryIterator) :
    Accessor → Except String (Observation × rowEntryIterator)
  | .Labels => (r.Labels E).map fun x => (.labels x.1, x.2)
  | .StreamHash => (r.StreamHash E).map fun x => (.streamHash x.1, x.2)
  | .Entry => (r.Entry E).map fun x => (.entry x.1, x.2)
  | .Error => (r.Error E).map fun x => (.error x.1, x.2)

/-- A sequence of accessor calls, one after the other. -/
def rowEntryIterator.calls (E : DecodeEnv) :
    rowEntryIterator → List Accessor → Except String (List Observation × rowEntryIterator)
  | r, [] => .ok ([], r)
  | r, a :: as =>
    match r.call E a with
    | .error p => .error p
    | .ok (o, r1) =>
      match rowEntryIterator.calls E r1 as with
      | .error p => .error p
      | .ok (os, r2) => .ok (o :: os, r2)

/-- What an accessor shows of a decoded row `res` on a cursor whose `Err` is
`cursorErr`. -/
def observe (E : DecodeEnv) (cursorErr : Option String) (res : Except String serializedRow) :
    Accessor → Observation
  | .Labels =>
    match res with
    | .error _ => .labels ""
    | .ok row => .labels (labelsString E row.labels)
  | .StreamHash =>
    match res with
    | .error _ => .streamHash (hashLabels "")
    | .ok row => .streamHash (hashLabels (labelsString E row.labels))
  | .Entry =>
    match res with
    | .error _ => .entry { Timestamp := zeroTime, Line := "" }
    | .ok row => .entry { Timestamp := row.timestamp, Line := row.body }
  | .Error =>
    match cursorErr, res with
    | some e, _ => .error (some e)
    | none, .error e => .error (some e)
    | none, .ok _ => .error none

/-- The results of `n` calls of `Next`, one after the other. -/
def rowEntryIterator.nextN (E : DecodeEnv) :
    Nat → rowEntryIterator → Except String (List Bool × rowEntryIterator)
  | 0, r => .ok ([], r)
  | n + 1, r =>
    match r.Next E with
    | .error p => .error p
    | .ok (b, r1) =>
      match rowEntryIterator.nextN E n r1 with
      | .error p => .error p
      | .ok (bs, r2) => .ok (b :: bs, r2)

/-! ## `clickhouse.go` -/

/-- A Go result pair `(value, err)`: the value, or the error returned. -/
abbrev GoResult (α : Type) := Except String α

/-- Go `logproto.LabelRequest`. -/
structure LabelRequest where
  Name : String
  Values : Bool
  Start : Option Int
  End : Option Int

/-- The call `cq.conn.QueryContext(ctx, query, args...)`: a cursor or an error. -/
abbrev Conn (α : Type) := String → List String → GoResult (Rows (Except String α))

/-- The loop `for rows.Next()` of `Label` over the rows of the cursor; `Next`
steps through `pending`, and nothing reads `rows.Err()` after the loop. -/
def labelRows (E : NormalizeEnv) : List (Except String String) → List String →
    GoResult (List String)
  | [], values => .ok values
  | .error err :: _, _ => .error err
  | .ok value :: rest, values => labelRows E rest (values ++ [NormalizeLabel E value])

/-- Source method `clickhouseQuerier.Label`; the result is the `Values` of the
response. -/
def Label (E : NormalizeEnv) (o : otelEnvironmentImpl) (conn : Conn String)
    (req : LabelRequest) : GoResult (List String) :=
  let q := LabelQuery o req.Name req.Values req.Start req.End
  match conn q.1 q.2 with
  | .error err => .error err
  | .ok rows => labelRows E rows.pending []

/-- The loop `for rows.Next()` of `Series`. -/
def seriesRows (E : NormalizeEnv) : List (Except String (List (String × String))) →
    List StringMap → GoResult (List StringMap)
  | [], series => .ok series
  | .error err :: _, _ => .error ("failed to scan row: " ++ err)
  | .ok m :: rest, series => seriesRows E rest (series ++ [normalizeMap E m])

/-- Source method `clickhouseQuerier.Series`; `matched` is the result of
`logql.Match(req.Groups)`, the outer `error` is a panic of `SeriesQuery`, and the
result is the label sets of the response. -/
def Series (E : NormalizeEnv) (o : otelEnvironmentImpl)
    (conn : Conn (List (String × String))) (matched : GoResult (List (List Matcher)))
    (start end_ : Int) : Except String (GoResult (List StringMap)) :=
  match matched with
  | .error err => .ok (.error err)
  | .ok matcherGroups =>
    match SeriesQuery o matcherGroups start end_ with
    | .error p => .error p
    | .ok q =>
      match conn q.1 q.2 with
      | .error err => .ok (.error ("failed to query: " ++ err))
      | .ok rows => .ok (seriesRows E rows.pending [])

/-- A scanned row for the worked scenarios. -/
def exampleRow : ScannedRow :=
  { timestamp := 5, body := "hello", labelMap := [("service.name", "api")] }

/-- The decoding of `exampleRow`. -/
def exampleDecoded : serializedRow :=
  { timestamp := 5, body := "hello", labelMap := [("service_name", "api")],
    labels := [("service_name", "api")] }

/-- The label string and the stream hash a consumer reads for the first row of a
cursor: `Next`, then `Labels`, then `StreamHash`, on the reader `SelectLogs`
returns. -/
def firstRowLabels (E : DecodeEnv) (rows : Rows (Except String ScannedRow)) :
    Except String (String × Nat) :=
  match (newRowEntryIterator rows).Next E with
  | .error p => .error p
  | .ok (_, r1) =>
    match r1.Labels E with
    | .error p => .error p
    | .ok (l, r2) =>
      match r2.StreamHash E with
      | .error p => .error p
      | .ok (h, _) => .ok (l, h)

/-- A scanned row with two keys of the same normalized form, in one iteration
order of its map. -/
def collidingRow : ScannedRow :=
  { timestamp := 5, body := "hello", labelMap := [("a.b", "1"), ("a_b", "2")] }

/-- The row `collidingRow` in the other iteration order of its map. -/
def collidingRowSwapped : ScannedRow :=
  { timestamp := 5, body := "hello", labelMap := [("a_b", "2"), ("a.b", "1")] }

/-- A connection that answers every query with the same result. -/
def constConn {α : Type} (res : GoResult (Rows (Except String α))) : Conn α :=
  fun _ _ => res

/-! ## Helper lemmas -/

theorem foldlM_error_of_mem {α β : Type} (f : β → α → Except String β) (x : α) (e : String)
    (hf : ∀ b y, ∀ e', f b y = .error e' → e' = e)
    (hx : ∀ b, f b x = .error e) (l : List α) (h : x ∈ l) (b : β) :
    l.foldlM f b = .error e := by
  induction l generalizing b with
  | nil => cases h
  | cons y ys ih =>
    rw [List.foldlM_cons]
    by_cases hy : x = y
    · subst hy
      rw [hx b]; rfl
    · have hmem : x ∈ ys := by
        rcases List.mem_cons.mp h with h1 | h1
        · exact absurd h1 hy
        · exact h1
      cases hfy : f b y with
      | error e' => rw [hf b y e' hfy]; rfl
      | ok b' => exact ih hmem b'

theorem AcceptMatcher_dropped (b : SelectBuilder) (m : Matcher) (h : m.dropped) :
    AcceptMatcher b m = .ok b := by
  unfold Matcher.dropped at h
  simp [AcceptMatcher, h]

theorem AcceptMatcher_error_msg (b : SelectBuilder) (m : Matcher) (e : String)
    (h : AcceptMatcher b m = .error e) : e = "invalid match type" := by
  unfold AcceptMatcher at h
  split_ifs at h <;> simp_all

theorem AcceptMatcher_unrecognized (b : SelectBuilder) (m : Matcher) (hd : ¬ m.dropped)
    (ht : ¬ recognized m.Type_) : AcceptMatcher b m = .error "invalid match type" := by
  unfold Matcher.dropped at hd
  unfold recognized at ht
  push_neg at ht
  simp only [AcceptMatcher, hd, ht.1, ht.2.1, ht.2.2.1, ht.2.2.2, if_false]

theorem AcceptMatcher_recognized (b : SelectBuilder) (m : Matcher) (hd : ¬ m.dropped)
    (ht : recognized m.Type_) :
    AcceptMatcher b m = .ok
      (b.extend [matcherPredicate SelectBuilder.placeholder m.Type_ b.args.length]
        [denormalizeLabel m.Name, m.param]) := by
  unfold Matcher.dropped at hd
  rcases ht with h | h | h | h <;>
  simp [AcceptMatcher, hd, h, MatchEqual, MatchNotEqual, MatchRegexp, MatchNotRegexp,
    SelectBuilder.argsAdd, SelectBuilder.EqualField, SelectBuilder.NotEqualField,
    SelectBuilder.MatchField, SelectBuilder.NotMatchField, SelectBuilder.Where, matcherPredicate,
    comparison, Matcher.param, SelectBuilder.extend]


theorem foldlM_ok_of_forall {α β : Type} (f : β → α → Except String β) (l : List α)
    (h : ∀ x ∈ l, ∀ b, ∃ b', f b x = .ok b') (b : β) : ∃ b', l.foldlM f b = .ok b' := by
  induction l generalizing b with
  | nil => exact ⟨b, rfl⟩
  | cons y ys ih =>
    obtain ⟨b1, hb1⟩ := h y (List.mem_cons_self y ys) b
    rw [List.foldlM_cons, hb1]
    exact ih (fun x hx => h x (List.mem_cons_of_mem y hx)) b1

theorem foldlM_invariant {α β : Type} (f : β → α → Except String β) (R : β → β → Prop)
    (hrefl : ∀ b, R b b) (htrans : ∀ a b c, R a b → R b c → R a c)
    (hstep : ∀ b x b', f b x = .ok b' → R b b') (l : List α) (b b' : β)
    (h : l.foldlM f b = .ok b') : R b b' := by
  induction l generalizing b with
  | nil =>
    have : b = b' := by simpa [List.foldlM_nil, pure, Except.pure] using h
    subst this; exact hrefl b
  | cons y ys ih =>
    rw [List.foldlM_cons] at h
    cases hfy : f b y with
    | error e => rw [hfy] at h; cases h
    | ok b1 =>
      rw [hfy] at h
      exact htrans _ _ _ (hstep b y b1 hfy) (ih b1 h)

theorem foldlM_join {α β : Type} (f : β → α → Except String β) (ls : List (List α)) (b : β) :
    ls.foldlM (fun b l => l.foldlM f b) b = ls.flatten.foldlM f b := by
  induction ls generalizing b with
  | nil => rfl
  | cons l ls ih =>
    rw [List.foldlM_cons, List.flatten_cons, List.foldlM_append]
    cases h : l.foldlM f b with
    | error e => rfl
    | ok b1 => exact ih b1

theorem AcceptMatchers_ok (ms : List Matcher) (b : SelectBuilder)
    (h : ∀ m ∈ ms, ¬ m.dropped → recognized m.Type_) :
    ms.foldlM AcceptMatcher b =
      .ok (b.extend (flatWhere SelectBuilder.placeholder b.args.length ms) (flatArgs ms)) := by
  induction ms generalizing b with
  | nil => simp [flatWhere, flatArgs, pure, Except.pure, SelectBuilder.extend]
  | cons m ms ih =>
    have ih' := fun b => ih b (fun x hx => h x (List.mem_cons_of_mem m hx))
    rw [List.foldlM_cons]
    by_cases hd : m.dropped
    · rw [AcceptMatcher_dropped b m hd]
      simp only [flatWhere, flatArgs, hd, if_true]
      exact ih' b
    · rw [AcceptMatcher_recognized b m hd (h m (List.mem_cons_self m ms) hd)]
      simp only [flatWhere, flatArgs, hd, if_false]
      simp only [bind, Except.bind]
      rw [ih']
      simp [SelectBuilder.extend, List.append_assoc]

/-! ## Lemmas on `compile` -/

theorem compileValue_fst_length (a1 a2 : List String) (h : a1.length = a2.length) (n : Nat) :
    (compileValue a1 n).1 = (compileValue a2 n).1 := by
  unfold compileValue
  by_cases hn : n < a1.length
  · have hn2 : n < a2.length := h ▸ hn
    simp [List.get?_eq_getElem?, List.getElem?_eq_getElem hn, List.getElem?_eq_getElem hn2]
  · have hn2 : ¬ n < a2.length := h ▸ hn
    simp [List.get?_eq_getElem?, List.getElem?_eq_none (Nat.le_of_not_lt hn),
      List.getElem?_eq_none (Nat.le_of_not_lt hn2)]

/-- The compiled text depends on the argument list through its length only. -/
theorem compileGo_fst_length (a1 a2 : List String) (h : a1.length = a2.length)
    (m : CompileMode) (cs : List Char) :
    (compileGo a1 m cs).1 = (compileGo a2 m cs).1 := by
  induction cs generalizing m with
  | nil =>
    cases m with
    | normal => rfl
    | dollar => rfl
    | digits n => exact compileValue_fst_length a1 a2 h n
  | cons c cs ih =>
    cases m with
    | normal =>
      simp only [compileGo]
      split_ifs
      · exact ih _
      · simp [ih]
    | dollar =>
      simp only [compileGo]
      split_ifs
      · simp [ih]
      · exact ih _
      · simp [ih]
    | digits n =>
      simp only [compileGo]
      split_ifs
      · exact ih _
      · simp [ih, compileValue_fst_length a1 a2 h n]
      · simp [ih, compileValue_fst_length a1 a2 h n]

/-- A stretch of the format without `$` is copied to the text. -/
theorem compileGo_plain (args : List String) (p rest : List Char) (hp : '$' ∉ p) :
    compileGo args .normal (p ++ rest) =
      (p ++ (compileGo args .normal rest).1, (compileGo args .normal rest).2) := by
  induction p with
  | nil => rfl
  | cons c cs ih =>
    have hc : c ≠ '$' := fun h => hp (h ▸ List.mem_cons_self _ _)
    have hcs : '$' ∉ cs := fun h => hp (List.mem_cons_of_mem _ h)
    have := ih hcs
    simp [compileGo, hc, this]

/-- After a character that is neither `$` nor a digit the scanner is back in its
normal mode, whatever came before. -/
theorem compileGo_sync (args : List String) (c : Char) (hc : c ≠ '$') (hd : c.isDigit = false)
    (pre : List Char) (m : CompileMode) :
    ∃ t v, ∀ rest, compileGo args m (pre ++ c :: rest) =
      (t ++ c :: (compileGo args .normal rest).1, v ++ (compileGo args .normal rest).2) := by
  induction pre generalizing m with
  | nil =>
    cases m with
    | normal => exact ⟨[], [], fun rest => by simp [compileGo, hc]⟩
    | dollar => exact ⟨['$'], [], fun rest => by simp [compileGo, hc, hd]⟩
    | digits n =>
      exact ⟨(compileValue args n).1, (compileValue args n).2, fun rest => by
        simp [compileGo, hc, hd]⟩
  | cons x xs ih =>
    cases m with
    | normal =>
      by_cases hx : x = '$'
      · obtain ⟨t, v, h⟩ := ih .dollar
        exact ⟨t, v, fun rest => by simp [compileGo, hx, h]⟩
      · obtain ⟨t, v, h⟩ := ih .normal
        exact ⟨x :: t, v, fun rest => by simp [compileGo, hx, h]⟩
    | dollar =>
      by_cases hx : x = '$'
      · obtain ⟨t, v, h⟩ := ih .normal
        exact ⟨'$' :: t, v, fun rest => by simp [compileGo, hx, h]⟩
      · by_cases hx2 : x.isDigit = true
        · obtain ⟨t, v, h⟩ := ih (.digits (x.toNat - 48))
          exact ⟨t, v, fun rest => by simp [compileGo, hx, hx2, h]⟩
        · obtain ⟨t, v, h⟩ := ih .normal
          exact ⟨'$' :: x :: t, v, fun rest => by simp [compileGo, hx, hx2, h]⟩
    | digits n =>
      by_cases hx2 : x.isDigit = true
      · obtain ⟨t, v, h⟩ := ih (.digits (10 * n + (x.toNat - 48)))
        exact ⟨t, v, fun rest => by simp [compileGo, hx2, h]⟩
      · by_cases hx : x = '$'
        · obtain ⟨t, v, h⟩ := ih .dollar
          exact ⟨(compileValue args n).1 ++ t, (compileValue args n).2 ++ v, fun rest => by
            simp [compileGo, hx, hx2, h]⟩
        · obtain ⟨t, v, h⟩ := ih .normal
          exact ⟨(compileValue args n).1 ++ x :: t, (compileValue args n).2 ++ v, fun rest => by
            simp [compileGo, hx, hx2, h]⟩

/-! ## Builders that agree up to argument values -/

theorem agree_refl (b : SelectBuilder) : agree b b :=
  ⟨rfl, rfl, rfl, rfl, rfl, rfl, rfl⟩

theorem agree_render (b1 b2 : SelectBuilder) (h : agree b1 b2) : b1.render = b2.render := by
  obtain ⟨h1, h2, h3, h4, h5, h6, _⟩ := h
  simp only [SelectBuilder.render, h1, h2, h3, h4, h5, h6]

theorem agree_build (b1 b2 : SelectBuilder) (h : agree b1 b2) : b1.Build.1 = b2.Build.1 := by
  simp only [SelectBuilder.Build, compile, agree_render b1 b2 h]
  rw [compileGo_fst_length b1.args b2.args h.2.2.2.2.2.2]

theorem agreeResult_build (r1 r2 : Except String SelectBuilder) (h : agreeResult r1 r2) :
    (r1.map SelectBuilder.Build).map Prod.fst = (r2.map SelectBuilder.Build).map Prod.fst := by
  cases r1 with
  | error e1 =>
    cases r2 with
    | error e2 => simp only [agreeResult] at h; subst h; rfl
    | ok b2 => exact absurd h (by simp [agreeResult])
  | ok b1 =>
    cases r2 with
    | error e2 => exact absurd h (by simp [agreeResult])
    | ok b2 =>
      simp only [agreeResult] at h
      simp only [Except.map, agree_build b1 b2 h]

theorem agree_extend (b1 b2 : SelectBuilder) (h : agree b1 b2) (w a1 a2 : List String)
    (ha : a1.length = a2.length) : agree (b1.extend w a1) (b2.extend w a2) := by
  obtain ⟨h1, h2, h3, h4, h5, h6, h7⟩ := h
  refine ⟨h1, h2, h3, ?_, h5, h6, ?_⟩
  · simp [SelectBuilder.extend, h4]
  · simp [SelectBuilder.extend, h7, ha]

theorem AcceptMatcher_agree (b1 b2 : SelectBuilder) (m1 m2 : Matcher) (h : agree b1 b2)
    (hm : sameShapeMatcher m1 m2 = true) :
    agreeResult (AcceptMatcher b1 m1) (AcceptMatcher b2 m2) := by
  simp only [sameShapeMatcher, Bool.and_eq_true, decide_eq_true_eq] at hm
  obtain ⟨ht, hd⟩ := hm
  by_cases hd1 : m1.dropped
  · rw [AcceptMatcher_dropped b1 m1 hd1, AcceptMatcher_dropped b2 m2 (hd.mp hd1)]
    exact h
  · have hd2 : ¬ m2.dropped := fun h2 => hd1 (hd.mpr h2)
    by_cases hr : recognized m1.Type_
    · rw [AcceptMatcher_recognized b1 m1 hd1 hr, AcceptMatcher_recognized b2 m2 hd2 (ht ▸ hr)]
      rw [← ht, h.2.2.2.2.2.2]
      exact agree_extend b1 b2 h _ _ _ rfl
    · rw [AcceptMatcher_unrecognized b1 m1 hd1 hr,
        AcceptMatcher_unrecognized b2 m2 hd2 (ht ▸ hr)]
      rfl

theorem foldlM_agree {α : Type} (f : SelectBuilder → α → Except String SelectBuilder)
    (S : α → α → Bool)
    (hstep : ∀ b1 b2 x1 x2, agree b1 b2 → S x1 x2 = true → agreeResult (f b1 x1) (f b2 x2))
    (l1 l2 : List α) (hl : allPairs S l1 l2 = true) (b1 b2 : SelectBuilder) (h : agree b1 b2) :
    agreeResult (l1.foldlM f b1) (l2.foldlM f b2) := by
  induction l1 generalizing l2 b1 b2 with
  | nil =>
    cases l2 with
    | nil => exact h
    | cons y ys => simp [allPairs] at hl
  | cons x xs ih =>
    cases l2 with
    | nil => simp [allPairs] at hl
    | cons y ys =>
      simp only [allPairs, Bool.and_eq_true] at hl
      have hs := hstep b1 b2 x y h hl.1
      rw [List.foldlM_cons, List.foldlM_cons]
      cases h1 : f b1 x with
      | error e1 =>
        cases h2 : f b2 y with
        | error e2 => rw [h1, h2] at hs; exact hs
        | ok c2 => rw [h1, h2] at hs; exact absurd hs (by simp [agreeResult])
      | ok c1 =>
        cases h2 : f b2 y with
        | error e2 => rw [h1, h2] at hs; exact absurd hs (by simp [agreeResult])
        | ok c2 =>
          rw [h1, h2] at hs
          exact ih ys hl.2 c1 c2 hs

theorem AcceptLineFilterExpr_agree (b1 b2 : SelectBuilder) (ty : MatchType) (s1 s2 : String)
    (h : agree b1 b2) (hs : s1 = "" ↔ s2 = "") :
    agree (AcceptLineFilterExpr b1 ty s1) (AcceptLineFilterExpr b2 ty s2) := by
  obtain ⟨h1, h2, h3, h4, h5, h6, h7⟩ := h
  by_cases he : s1 = ""
  · have he2 := hs.mp he
    simp only [AcceptLineFilterExpr, he, he2, if_true]
    exact ⟨h1, h2, h3, h4, h5, h6, h7⟩
  · have he2 : ¬ s2 = "" := fun h => he (hs.mpr h)
    simp only [AcceptLineFilterExpr, he, he2, if_false]
    split_ifs <;>
    simp [agree, SelectBuilder.Where, SelectBuilder.Like, SelectBuilder.NotLike,
      SelectBuilder.Match, SelectBuilder.NotMatch, SelectBuilder.argsAdd, h1, h2, h3, h4, h5, h6, h7]

theorem acceptNode_agree (b1 b2 : SelectBuilder) (n1 n2 : Node) (h : agree b1 b2)
    (hn : sameShapeNode n1 n2 = true) : agreeResult (acceptNode b1 n1) (acceptNode b2 n2) := by
  cases n1 <;> cases n2 <;> simp only [sameShapeNode, Bool.false_eq_true] at hn
  · exact h
  · exact foldlM_agree AcceptMatcher sameShapeMatcher AcceptMatcher_agree _ _ hn b1 b2 h
  · simp only [Bool.and_eq_true, decide_eq_true_eq] at hn
    obtain ⟨ht, hs⟩ := hn
    subst ht
    exact AcceptLineFilterExpr_agree b1 b2 _ _ _ h hs
  · exact h

/-! ## Loops of the translator -/

theorem foldlM_error_msg {α β : Type} (f : β → α → Except String β) (msg : String)
    (hf : ∀ b y e, f b y = .error e → e = msg) (l : List α) (b : β) (e : String)
    (h : l.foldlM f b = .error e) : e = msg := by
  induction l generalizing b with
  | nil => simp [List.foldlM_nil, pure, Except.pure] at h
  | cons y ys ih =>
    rw [List.foldlM_cons] at h
    cases hfy : f b y with
    | error e' =>
      rw [hfy] at h
      have : e' = e := by simpa [bind, Except.bind] using h
      exact this ▸ hf b y e' hfy
    | ok b1 =>
      rw [hfy] at h
      exact ih b1 h

theorem foldlM_congr_mid {α β : Type} (f : β → α → Except String β) (x y : α)
    (h : ∀ b, f b x = f b y) (pre post : List α) (b : β) :
    (pre ++ x :: post).foldlM f b = (pre ++ y :: post).foldlM f b := by
  simp only [List.foldlM_append, List.foldlM_cons, h]

theorem foldlM_skip {α β : Type} (f : β → α → Except String β) (x : α)
    (h : ∀ b, f b x = .ok b) (pre post : List α) (b : β) :
    (pre ++ x :: post).foldlM f b = (pre ++ post).foldlM f b := by
  simp only [List.foldlM_append, List.foldlM_cons, h]
  rfl

theorem acceptNode_error_msg (b : SelectBuilder) (n : Node) (e : String)
    (h : acceptNode b n = .error e) : e = "invalid match type" := by
  cases n with
  | pipelineExpr => cases h
  | matchersExpr mts =>
    exact foldlM_error_msg AcceptMatcher _ AcceptMatcher_error_msg mts b e h
  | lineFilterExpr ty s => cases h
  | other => cases h

/-! ## Characters of printed numbers -/

theorem digitChar_isDigit (k : Nat) (h : k < 10) : (Nat.digitChar k).isDigit = true := by
  interval_cases k <;> rfl

theorem toDigitsCore_isDigit (fuel n : Nat) (acc : List Char)
    (hacc : ∀ c ∈ acc, c.isDigit = true) :
    ∀ c ∈ Nat.toDigitsCore 10 fuel n acc, c.isDigit = true := by
  induction fuel generalizing n acc with
  | zero => simpa [Nat.toDigitsCore] using hacc
  | succ f ih =>
    have hd : ∀ c ∈ Nat.digitChar (n % 10) :: acc, c.isDigit = true := by
      intro c hc
      rcases List.mem_cons.mp hc with h | h
      · rw [h]; exact digitChar_isDigit _ (Nat.mod_lt _ (by decide))
      · exact hacc c h
    simp only [Nat.toDigitsCore]
    split_ifs
    · exact hd
    · exact ih _ _ hd

theorem natToString_isDigit (n : Nat) : ∀ c ∈ (toString n).data, c.isDigit = true := by
  show ∀ c ∈ (Nat.toDigits 10 n), c.isDigit = true
  exact toDigitsCore_isDigit _ _ [] (by simp)

theorem natToString_no_dollar (n : Nat) : '$' ∉ (toString n).data := fun h =>
  absurd (natToString_isDigit n '$' h) (by decide)

theorem intToString_no_dollar (i : Int) : '$' ∉ (toString i).data := by
  cases i with
  | ofNat n => exact natToString_no_dollar n
  | negSucc n =>
    show '$' ∉ ("-" ++ toString (n + 1)).data
    rw [String.data_append]
    intro h
    rcases List.mem_append.mp h with h | h
    · exact absurd h (by decide)
    · exact natToString_no_dollar _ h

/-! ## The text `render` assembles -/

theorem append_ne_empty_of_left (a b : String) (h : a ≠ "") : a ++ b ≠ "" := by
  intro hab
  apply h
  have := congrArg String.data hab
  rw [String.data_append] at this
  exact String.ext (List.append_eq_nil.mp this).1

theorem writeLeading_of_ne (buf s : String) (h : buf ≠ "") :
    SelectBuilder.writeLeading buf s = buf ++ " " ++ s := by
  simp only [SelectBuilder.writeLeading, h, if_false]

theorem clause_step (B : String) (hB : B ≠ "") (c : Prop) [Decidable c] (kw body : String) :
    (if c then SelectBuilder.writeLeading B kw ++ body else B) =
      B ++ (if c then " " ++ kw ++ body else "") := by
  split_ifs
  · rw [writeLeading_of_ne _ _ hB]; simp only [String.append_assoc]
  · simp

/-- The rendered statement, clause by clause, of a builder with a select list. -/
theorem render_clauses (sb : SelectBuilder) (hs : sb.selectCols ≠ []) :
    sb.render =
      "SELECT " ++ (if sb.distinct then "DISTINCT " else "") ++ ", ".intercalate sb.selectCols
      ++ (if sb.tables ≠ [] then " " ++ "FROM " ++ ", ".intercalate sb.tables else "")
      ++ (if sb.whereExprs ≠ [] then " " ++ "WHERE " ++ " AND ".intercalate sb.whereExprs else "")
      ++ (if sb.orderByCols ≠ [] then " " ++ "ORDER BY " ++ ", ".intercalate sb.orderByCols
          else "")
      ++ (if 0 ≤ sb.limit then " " ++ "LIMIT " ++ toString sb.limit else "") := by
  have e0 : SelectBuilder.writeLeading "" "SELECT " = "SELECT " := rfl
  have h1 : "SELECT " ++ (if sb.distinct then "DISTINCT " else "")
      ++ ", ".intercalate sb.selectCols ≠ "" := by
    rw [String.append_assoc]
    exact append_ne_empty_of_left _ _ (by decide)
  simp only [SelectBuilder.render, hs, ne_eq, not_false_eq_true, if_true, e0]
  generalize "SELECT " ++ (if sb.distinct then "DISTINCT " else "")
      ++ ", ".intercalate sb.selectCols = B1 at h1 ⊢
  rw [clause_step B1 h1]
  have h2 := append_ne_empty_of_left B1
    (if ¬sb.tables = [] then " " ++ "FROM " ++ ", ".intercalate sb.tables else "") h1
  rw [clause_step _ h2]
  have h3 := append_ne_empty_of_left _
    (if ¬sb.whereExprs = [] then " " ++ "WHERE " ++ " AND ".intercalate sb.whereExprs else "") h2
  rw [clause_step _ h3]
  have h4 := append_ne_empty_of_left _
    (if ¬sb.orderByCols = [] then " " ++ "ORDER BY " ++ ", ".intercalate sb.orderByCols else "") h3
  rw [clause_step _ h4]

theorem intercalate_go_eq (s : String) (l : List String) :
    ∃ Z : String, ∀ acc, String.intercalate.go acc s l = acc ++ Z := by
  induction l with
  | nil => exact ⟨"", fun acc => by simp [String.intercalate.go]⟩
  | cons a as ih =>
    obtain ⟨Z, hZ⟩ := ih
    exact ⟨s ++ a ++ Z, fun acc => by
      simp only [String.intercalate.go, hZ, String.append_assoc]⟩

theorem intercalate_two (s a b : String) (l : List String) :
    ∃ Z : String, s.intercalate (a :: b :: l) = a ++ s ++ b ++ Z := by
  obtain ⟨Z, hZ⟩ := intercalate_go_eq s l
  exact ⟨Z, by simp only [String.intercalate, String.intercalate.go, hZ]⟩

/-- A blank followed by a stretch without `$` passes through `compile` unchanged,
wherever it stands in the format. -/
theorem compile_infix (args : List String) (X P Y : String) (hP : '$' ∉ P.data) :
    ∃ T : String, (compile args (X ++ " " ++ P ++ Y)).1 = T ++ " " ++ P ++ (compile args Y).1 := by
  obtain ⟨t, v, h⟩ := compileGo_sync args ' ' (by decide) (by decide) X.data .normal
  refine ⟨String.mk t, ?_⟩
  have hd : (X ++ " " ++ P ++ Y).data = X.data ++ ' ' :: (P.data ++ Y.data) := by
    simp [String.data_append]
  apply String.ext
  simp only [compile, hd, h, compileGo_plain args P.data Y.data hP, String.data_append]
  simp

/-! ## What the translator leaves untouched -/

theorem extend_nil (b : SelectBuilder) : b.extend [] [] = b := by
  simp [SelectBuilder.extend]

theorem extend_extend (b : SelectBuilder) (w a w' a' : List String) :
    (b.extend w a).extend w' a' = b.extend (w ++ w') (a ++ a') := by
  simp [SelectBuilder.extend, List.append_assoc]

theorem AcceptMatcher_extends (b : SelectBuilder) (m : Matcher) (b' : SelectBuilder)
    (h : AcceptMatcher b m = .ok b') : ∃ w a, b' = b.extend w a := by
  by_cases hd : m.dropped
  · rw [AcceptMatcher_dropped b m hd] at h
    exact ⟨[], [], by rw [extend_nil]; exact (Except.ok.inj h).symm⟩
  · by_cases hr : recognized m.Type_
    · rw [AcceptMatcher_recognized b m hd hr] at h
      exact ⟨_, _, (Except.ok.inj h).symm⟩
    · rw [AcceptMatcher_unrecognized b m hd hr] at h
      cases h

theorem AcceptLineFilterExpr_extends (b : SelectBuilder) (ty : MatchType) (s : String) :
    ∃ w a, AcceptLineFilterExpr b ty s = b.extend w a := by
  unfold AcceptLineFilterExpr
  split_ifs
  · exact ⟨[], [], (extend_nil b).symm⟩
  · exact ⟨_, _, rfl⟩
  · exact ⟨_, _, rfl⟩
  · exact ⟨_, _, rfl⟩
  · exact ⟨_, _, rfl⟩
  · exact ⟨[], [], (extend_nil b).symm⟩

theorem foldlM_extends {α : Type} (f : SelectBuilder → α → Except String SelectBuilder)
    (hstep : ∀ b x b', f b x = .ok b' → ∃ w a, b' = b.extend w a) (l : List α)
    (b b' : SelectBuilder) (h : l.foldlM f b = .ok b') : ∃ w a, b' = b.extend w a :=
  foldlM_invariant f (fun b b' => ∃ w a, b' = b.extend w a)
    (fun b => ⟨[], [], (extend_nil b).symm⟩)
    (fun a b c hab hbc => by
      obtain ⟨w, x, h1⟩ := hab
      obtain ⟨w', x', h2⟩ := hbc
      exact ⟨w ++ w', x ++ x', by rw [h2, h1, extend_extend]⟩)
    hstep l b b' h

theorem acceptNode_extends (b : SelectBuilder) (n : Node) (b' : SelectBuilder)
    (h : acceptNode b n = .ok b') : ∃ w a, b' = b.extend w a := by
  cases n with
  | pipelineExpr => exact ⟨[], [], by rw [extend_nil]; exact (Except.ok.inj h).symm⟩
  | matchersExpr mts => exact foldlM_extends AcceptMatcher AcceptMatcher_extends mts b b' h
  | lineFilterExpr ty s =>
    obtain ⟨w, a, hw⟩ := AcceptLineFilterExpr_extends b ty s
    exact ⟨w, a, by rw [← hw]; exact (Except.ok.inj h).symm⟩
  | other => exact ⟨[], [], by rw [extend_nil]; exact (Except.ok.inj h).symm⟩

theorem selectLogsBuilder_extends (o : otelEnvironmentImpl) (expr : LogSelectorExpr)
    (start end_ : Int) (limit : Nat) (direction : Direction) (b : SelectBuilder)
    (h : selectLogsBuilder o expr start end_ limit direction = .ok b) :
    ∃ w a, b = (selectLogsInit o start end_ limit direction).extend w a :=
  foldlM_extends acceptNode acceptNode_extends expr _ b h

theorem seriesBuilder_extends (o : otelEnvironmentImpl) (groups : List (List Matcher))
    (start end_ : Int) (b : SelectBuilder) (h : seriesBuilder o groups start end_ = .ok b) :
    ∃ w a, b = (seriesInit o start end_).extend w a :=
  foldlM_extends (fun b g => List.foldlM AcceptMatcher b g)
    (fun b g b' hg => foldlM_extends AcceptMatcher AcceptMatcher_extends g b b' hg) groups _ b h

/-! ## Plain pieces of the statement text -/

theorem lowerBound_no_dollar (ms : Int) : '$' ∉ (lowerBound ms).data := by
  simp only [lowerBound, String.data_append, List.mem_append, not_or]
  exact ⟨⟨by decide, intToString_no_dollar ms⟩, by decide⟩

theorem upperBound_no_dollar (ms : Int) : '$' ∉ (upperBound ms).data := by
  simp only [upperBound, String.data_append, List.mem_append, not_or]
  exact ⟨⟨by decide, intToString_no_dollar ms⟩, by decide⟩

theorem orderByOf_no_dollar (d : Direction) : '$' ∉ (orderByOf d).data := by
  unfold orderByOf
  split_ifs <;> decide

/-! ## Statement text of the three queries -/

theorem selectLogsInit_selectCols (o : otelEnvironmentImpl) (start end_ : Int) (limit : Nat)
    (direction : Direction) (w a : List String) :
    ((selectLogsInit o start end_ limit direction).extend w a).selectCols ≠ [] := by
  simp [selectLogsInit, SelectBuilder.extend, SelectBuilder.OrderBy, SelectBuilder.Limit,
    SelectBuilder.Where, SelectBuilder.From, SelectBuilder.Select]

/-- A built statement whose first two `WHERE` expressions are free of `$` shows
them in its text. -/
theorem build_where_two (b : SelectBuilder) (hs : b.selectCols ≠ []) (p q : String)
    (w : List String) (hw : b.whereExprs = p :: q :: w) (hp : '$' ∉ p.data)
    (hq : '$' ∉ q.data) :
    ∃ T1 T2 : String, b.Build.1 = T1 ++ " WHERE " ++ p ++ " AND " ++ q ++ T2 := by
  obtain ⟨Z, hZ⟩ := intercalate_two " AND " p q w
  have hr := render_clauses b hs
  rw [hw] at hr
  simp only [ne_eq, reduceCtorEq, not_false_eq_true, if_true, hZ] at hr
  have hP : '$' ∉ ("WHERE " ++ p ++ " AND " ++ q).data := by
    simp only [String.data_append, List.mem_append, not_or]
    exact ⟨⟨⟨by decide, hp⟩, by decide⟩, hq⟩
  obtain ⟨T, hT⟩ := compile_infix b.args
    ("SELECT " ++ (if b.distinct then "DISTINCT " else "") ++ ", ".intercalate b.selectCols
      ++ (if b.tables ≠ [] then " " ++ "FROM " ++ ", ".intercalate b.tables else ""))
    ("WHERE " ++ p ++ " AND " ++ q)
    (Z ++ (if b.orderByCols ≠ [] then " " ++ "ORDER BY " ++ ", ".intercalate b.orderByCols
          else "")
      ++ (if 0 ≤ b.limit then " " ++ "LIMIT " ++ toString b.limit else "")) hP
  refine ⟨T, (compile b.args
      (Z ++ (if b.orderByCols ≠ [] then " " ++ "ORDER BY " ++ ", ".intercalate b.orderByCols
          else "")
      ++ (if 0 ≤ b.limit then " " ++ "LIMIT " ++ toString b.limit else ""))).1, ?_⟩
  have hfmt : b.render = ("SELECT " ++ (if b.distinct then "DISTINCT " else "")
      ++ ", ".intercalate b.selectCols
      ++ (if b.tables ≠ [] then " " ++ "FROM " ++ ", ".intercalate b.tables else ""))
      ++ " " ++ ("WHERE " ++ p ++ " AND " ++ q)
      ++ (Z ++ (if b.orderByCols ≠ [] then " " ++ "ORDER BY " ++ ", ".intercalate b.orderByCols
          else "")
      ++ (if 0 ≤ b.limit then " " ++ "LIMIT " ++ toString b.limit else "")) := by
    rw [hr]
    apply String.ext
    simp [String.data_append]
  simp only [SelectBuilder.Build]
  rw [hfmt, hT]
  apply String.ext
  simp [String.data_append]

/-- A built statement with one `$`-free ordering column and a limit ends with its
`ORDER BY` and `LIMIT` clauses. -/
theorem build_order_limit (b : SelectBuilder) (hs : b.selectCols ≠ []) (ob : String)
    (ho : b.orderByCols = [ob]) (l : Nat) (hl : b.limit = (l : Int)) (hob : '$' ∉ ob.data) :
    ∃ T : String, b.Build.1 = T ++ " ORDER BY " ++ ob ++ " LIMIT " ++ toString l := by
  have hr := render_clauses b hs
  rw [ho, hl] at hr
  have h0 : (0 : Int) ≤ (l : Int) := Int.ofNat_nonneg l
  have hi : ", ".intercalate [ob] = ob := rfl
  have hts : toString (l : Int) = toString l := rfl
  simp only [ne_eq, reduceCtorEq, not_false_eq_true, if_true, h0, hi, hts] at hr
  have hP : '$' ∉ ("ORDER BY " ++ ob ++ " LIMIT " ++ toString l).data := by
    simp only [String.data_append, List.mem_append, not_or]
    exact ⟨⟨⟨by decide, hob⟩, by decide⟩, natToString_no_dollar l⟩
  obtain ⟨T, hT⟩ := compile_infix b.args
    ("SELECT " ++ (if b.distinct then "DISTINCT " else "") ++ ", ".intercalate b.selectCols
      ++ (if b.tables ≠ [] then " " ++ "FROM " ++ ", ".intercalate b.tables else "")
      ++ (if b.whereExprs ≠ [] then " " ++ "WHERE " ++ " AND ".intercalate b.whereExprs
          else ""))
    ("ORDER BY " ++ ob ++ " LIMIT " ++ toString l) "" hP
  refine ⟨T, ?_⟩
  have hfmt : b.render = ("SELECT " ++ (if b.distinct then "DISTINCT " else "")
      ++ ", ".intercalate b.selectCols
      ++ (if b.tables ≠ [] then " " ++ "FROM " ++ ", ".intercalate b.tables else "")
      ++ (if b.whereExprs ≠ [] then " " ++ "WHERE " ++ " AND ".intercalate b.whereExprs
          else ""))
      ++ " " ++ ("ORDER BY " ++ ob ++ " LIMIT " ++ toString l) ++ "" := by
    rw [hr]
    apply String.ext
    simp [String.data_append]
  simp only [SelectBuilder.Build]
  rw [hfmt, hT]
  apply String.ext
  simp [String.data_append, compile, compileGo]

theorem compile_plain (args : List String) (F : String) (hF : '$' ∉ F.data) :
    compile args F = (F, []) := by
  have := compileGo_plain args F.data [] hF
  simp only [List.append_nil] at this
  simp only [compile, this, compileGo, List.append_nil]

theorem compile_label_values (a R : String) (hR : '$' ∉ R.data) :
    compile [a] ("SELECT DISTINCT arrayElement(`ResourceAttributes`, $0)" ++ R) =
      ("SELECT DISTINCT arrayElement(`ResourceAttributes`, ?)" ++ R, [a]) := by
  have hd : ("SELECT DISTINCT arrayElement(`ResourceAttributes`, $0)" ++ R).data =
      "SELECT DISTINCT arrayElement(`ResourceAttributes`, ".data ++
        ('$' :: '0' :: ')' :: R.data) := by
    rw [String.data_append]; rfl
  have h1 := compileGo_plain [a] R.data [] hR
  simp only [List.append_nil] at h1
  have h2 : compileGo [a] .normal ('$' :: '0' :: ')' :: R.data) = ('?' :: ')' :: R.data, [a]) := by
    simp [compileGo, compileValue, h1]
  simp only [compile, hd, compileGo_plain [a] _ _ (show '$' ∉
    "SELECT DISTINCT arrayElement(`ResourceAttributes`, ".data by decide), h2]
  refine Prod.ext (String.ext ?_) rfl
  rw [String.data_append]
  rfl

theorem whereClause_labelBounds_no_dollar (start end_ : Option Int) :
    '$' ∉ (whereClause (labelBounds start end_)).data := by
  cases start <;> cases end_ <;>
    simp only [whereClause, labelBounds, Option.map, Option.toList, List.append_nil,
      List.nil_append, List.singleton_append, ne_eq, reduceCtorEq, not_false_eq_true,
      not_true_eq_false, if_true, if_false, String.intercalate, String.intercalate.go,
      String.data_append, List.mem_append, not_or]
  · decide
  · exact ⟨by decide, upperBound_no_dollar _⟩
  · exact ⟨by decide, lowerBound_no_dollar _⟩
  · exact ⟨by decide, ⟨lowerBound_no_dollar _, by decide⟩, upperBound_no_dollar _⟩

theorem labelBuilder_whereExprs (o : otelEnvironmentImpl) (name : String) (values : Bool)
    (start end_ : Option Int) :
    (labelBuilder o name values start end_).whereExprs = labelBounds start end_ := by
  cases start <;> cases end_ <;> cases values <;> rfl

/-- The statement of `LabelQuery`, for a table name without `$`. -/
theorem LabelQuery_eq (o : otelEnvironmentImpl) (ho : '$' ∉ o.tableName.data) (name : String)
    (values : Bool) (start end_ : Option Int) :
    LabelQuery o name values start end_ =
      ("SELECT DISTINCT " ++
          (if values then "arrayElement(`ResourceAttributes`, ?)"
            else "arrayJoin(mapKeys(`ResourceAttributes`))")
          ++ " FROM " ++ o.tableName ++ whereClause (labelBounds start end_),
        if values then [denormalizeLabel name] else []) := by
  have hs : (labelBuilder o name values start end_).selectCols ≠ [] := by
    cases start <;> cases end_ <;> cases values <;>
      simp [labelBuilder, SelectBuilder.Where, SelectBuilder.Select]
  have hr := render_clauses _ hs
  have hw := whereClause_labelBounds_no_dollar start end_
  have hd : (labelBuilder o name values start end_).distinct = true := by
    cases start <;> cases end_ <;> cases values <;> rfl
  have ht : (labelBuilder o name values start end_).tables = [o.tableName] := by
    cases start <;> cases end_ <;> cases values <;> rfl
  have hob : (labelBuilder o name values start end_).orderByCols = [] := by
    cases start <;> cases end_ <;> cases values <;> rfl
  have hl : (labelBuilder o name values start end_).limit = -1 := by
    cases start <;> cases end_ <;> cases values <;> rfl
  have hi : ", ".intercalate [o.tableName] = o.tableName := rfl
  rw [hd, ht, hob, hl, labelBuilder_whereExprs] at hr
  simp only [ne_eq, reduceCtorEq, not_false_eq_true, not_true_eq_false, if_true, if_false, hi,
    show ¬ ((0 : Int) ≤ -1) by decide] at hr
  have hwc : (if ¬ labelBounds start end_ = [] then
      " " ++ "WHERE " ++ " AND ".intercalate (labelBounds start end_) else "")
      = whereClause (labelBounds start end_) := by
    by_cases h : labelBounds start end_ = []
    · simp [whereClause, h]
    · simp only [whereClause, h, ne_eq, not_false_eq_true, if_true]
      rfl
  rw [hwc] at hr
  simp only [LabelQuery, SelectBuilder.Build, hr, compile]
  generalize o.tableName = T at ho ⊢
  cases values with
  | false =>
    have hsel : (labelBuilder o name false start end_).selectCols =
        ["arrayJoin(mapKeys(`ResourceAttributes`))"] := by
      cases start <;> cases end_ <;> rfl
    rw [hsel]
    have hF : ("SELECT " ++ "DISTINCT " ++
        ", ".intercalate ["arrayJoin(mapKeys(`ResourceAttributes`))"] ++
        (" " ++ "FROM " ++ T) ++ whereClause (labelBounds start end_) ++ "" ++ "").data
        = "SELECT DISTINCT arrayJoin(mapKeys(`ResourceAttributes`)) FROM ".data
          ++ (T.data ++ (whereClause (labelBounds start end_)).data) ++ [] := by
      simp only [String.data_append]
      simp
      rfl
    rw [hF, compileGo_plain]
    · simp only [Bool.false_eq_true, if_false, compileGo, List.append_nil]
      refine Prod.ext (String.ext ?_) rfl
      simp [String.data_append]
    · simp only [List.mem_append, not_or]
      exact ⟨by decide, ho, hw⟩
  | true =>
    have hks : keySelectorOf (SelectBuilder.placeholder 0) =
        "arrayElement(`ResourceAttributes`, $0)" := by decide
    have hsel : (labelBuilder o name true start end_).selectCols =
        ["arrayElement(`ResourceAttributes`, $0)"] := by
      rw [← hks]
      cases start <;> cases end_ <;> rfl
    have hargs : (labelBuilder o name true start end_).args = [denormalizeLabel name] := by
      cases start <;> cases end_ <;> rfl
    rw [hsel, hargs]
    have hF : "SELECT " ++ "DISTINCT " ++
        ", ".intercalate ["arrayElement(`ResourceAttributes`, $0)"] ++
        (" " ++ "FROM " ++ T) ++ whereClause (labelBounds start end_) ++ "" ++ ""
        = "SELECT DISTINCT arrayElement(`ResourceAttributes`, $0)" ++
          (" FROM " ++ T ++ whereClause (labelBounds start end_)) := by
      apply String.ext
      simp only [String.data_append]
      simp
      rfl
    have hc := compile_label_values (denormalizeLabel name)
      (" FROM " ++ T ++ whereClause (labelBounds start end_)) (by
        simp only [String.data_append, List.mem_append, not_or]
        exact ⟨⟨by decide, ho⟩, hw⟩)
    simp only [compile] at hc
    rw [hF, hc]
    refine Prod.ext (String.ext ?_) rfl
    simp [String.data_append]

/-! ## Outcomes of the query builders -/

theorem flatWhere_length (ph : Nat → String) (i : Nat) (ms : List Matcher) :
    (flatWhere ph i ms).length = (ms.filter fun m => decide (¬ m.dropped)).length := by
  induction ms generalizing i with
  | nil => rfl
  | cons m ms ih =>
    by_cases hd : m.dropped
    · simp [flatWhere, hd, ih]
    · simp [flatWhere, hd, ih]

theorem selectLogsBuilder_cases (o : otelEnvironmentImpl) (expr : LogSelectorExpr)
    (start end_ : Int) (limit : Nat) (direction : Direction) :
    selectLogsBuilder o expr start end_ limit direction = .error "invalid match type" ∨
    ∃ w a, selectLogsBuilder o expr start end_ limit direction =
      .ok ((selectLogsInit o start end_ limit direction).extend w a) := by
  cases h : selectLogsBuilder o expr start end_ limit direction with
  | error e =>
    left
    rw [foldlM_error_msg acceptNode _ acceptNode_error_msg expr _ e h]
  | ok b =>
    right
    obtain ⟨w, a, hb⟩ := selectLogsBuilder_extends o expr start end_ limit direction b h
    exact ⟨w, a, by rw [hb]⟩

theorem seriesBuilder_cases (o : otelEnvironmentImpl) (groups : List (List Matcher))
    (start end_ : Int) :
    seriesBuilder o groups start end_ = .error "invalid match type" ∨
    ∃ w a, seriesBuilder o groups start end_ = .ok ((seriesInit o start end_).extend w a) := by
  cases h : seriesBuilder o groups start end_ with
  | error e =>
    left
    rw [foldlM_error_msg (fun b g => List.foldlM AcceptMatcher b g) _
      (fun b y e h => foldlM_error_msg AcceptMatcher _ AcceptMatcher_error_msg y b e h)
      groups _ e h]
  | ok b =>
    right
    obtain ⟨w, a, hb⟩ := seriesBuilder_extends o groups start end_ b h
    exact ⟨w, a, by rw [hb]⟩

theorem acceptNode_ok (b : SelectBuilder) (n : Node)
    (h : ∀ mts, n = .matchersExpr mts → ∀ m ∈ mts, ¬ m.dropped → recognized m.Type_) :
    ∃ b', acceptNode b n = .ok b' := by
  cases n with
  | pipelineExpr => exact ⟨b, rfl⟩
  | matchersExpr mts => exact ⟨_, AcceptMatchers_ok mts b (h mts rfl)⟩
  | lineFilterExpr ty s => exact ⟨_, rfl⟩
  | other => exact ⟨b, rfl⟩

/-! ## Label normalisation -/

theorem isAlphanum_ascii (c : Char) (h : c.isAlphanum = true) : c.toNat < 128 := by
  simp only [Char.isAlphanum, Char.isAlpha, Char.isUpper, Char.isLower, Char.isDigit,
    Bool.or_eq_true, Bool.and_eq_true, decide_eq_true_eq] at h
  show c.val.toBitVec.toNat < 128
  rcases h with (⟨_, h⟩ | ⟨_, h⟩) | ⟨_, h⟩
  · have h' : c.val.toBitVec.toNat ≤ 90 := h
    omega
  · have h' : c.val.toBitVec.toNat ≤ 122 := h
    omega
  · have h' : c.val.toBitVec.toNat ≤ 57 := h
    omega

theorem sanitize_denormalize (E : NormalizeEnv) (c : Char)
    (h : c.isAlphanum = true ∨ c = '_') :
    sanitizeRune E (if c = '_' then '.' else c) = c := by
  by_cases hc : c = '_'
  · subst hc; rfl
  · have ha : c.isAlphanum = true := by
      rcases h with h | h
      · exact h
      · exact absurd h hc
    simp only [hc, if_false, sanitizeRune, isLetterOrDigit, isAlphanum_ascii c ha, if_true, ha]

theorem sanitize_denormalize_map (E : NormalizeEnv) (l : List Char)
    (h : ∀ c ∈ l, c.isAlphanum = true ∨ c = '_') :
    (l.map fun r => if r = '_' then '.' else r).map (sanitizeRune E) = l := by
  induction l with
  | nil => rfl
  | cons c cs ih =>
    simp only [List.map_cons]
    rw [sanitize_denormalize E c (h c (List.mem_cons_self c cs)),
      ih (fun x hx => h x (List.mem_cons_of_mem c hx))]

/-- What `NormalizeLabel` returns for a denormalized name of ASCII letters, digits
and underscores: the name itself, behind `key_` when it begins with a digit and
behind `key` when it begins with a single underscore and the feature gate is off. -/
theorem NormalizeLabel_denormalizeLabel (E : NormalizeEnv) (L : String)
    (hp : ∀ c ∈ L.data, c.isAlphanum = true ∨ c = '_') :
    NormalizeLabel E (denormalizeLabel L) =
      match L.data with
      | [] => L
      | c :: cs =>
        if c.isDigit then "key_" ++ L
        else if c = '_' ∧ cs.head? ≠ some '_' ∧ E.dropSanitizationGate = false then "key" ++ L
        else L := by
  have hm := sanitize_denormalize_map E L.data hp
  cases hL : L.data with
  | nil =>
    apply String.ext
    simp [NormalizeLabel, denormalizeLabel, hL]
  | cons c cs =>
    rw [hL] at hm
    have hne : (denormalizeLabel L).data ≠ [] := by
      simp [denormalizeLabel, hL]
    have hd : (denormalizeLabel L).data =
        (c :: cs).map fun r => if r = '_' then '.' else r := by
      simp [denormalizeLabel, hL]
    unfold NormalizeLabel
    rw [if_neg hne]
    simp only [hd, hm]
    split_ifs
    · apply String.ext; rw [String.data_append, hL]
    · apply String.ext; rw [String.data_append, hL]
    · apply String.ext; rw [hL]

/-! ## Predicates and arguments collected by the translator -/

theorem AcceptMatchers_ok_eq (ms : List Matcher) (b b' : SelectBuilder)
    (h : ms.foldlM AcceptMatcher b = .ok b') :
    b' = b.extend (flatWhere SelectBuilder.placeholder b.args.length ms) (flatArgs ms) := by
  by_cases hall : ∀ m ∈ ms, ¬ m.dropped → recognized m.Type_
  · rw [AcceptMatchers_ok ms b hall] at h
    exact (Except.ok.inj h).symm
  · push_neg at hall
    obtain ⟨m, hm, hd, hr⟩ := hall
    rw [foldlM_error_of_mem AcceptMatcher m _ (fun b y e h => AcceptMatcher_error_msg b y e h)
      (fun b => AcceptMatcher_unrecognized b m hd hr) ms hm b] at h
    cases h

theorem AcceptLineFilterExpr_eq (b : SelectBuilder) (ty : MatchType) (s : String) :
    AcceptLineFilterExpr b ty s =
      b.extend (lineFilterWhere SelectBuilder.placeholder ty s b.args.length)
        (lineFilterArgs ty s) := by
  have he : SelectBuilder.Escape OtelLogMessageColumn = OtelLogMessageColumn := by decide
  unfold AcceptLineFilterExpr lineFilterWhere lineFilterArgs
  split_ifs <;>
    simp_all [SelectBuilder.Where, SelectBuilder.Like, SelectBuilder.NotLike, SelectBuilder.Match,
      SelectBuilder.NotMatch, SelectBuilder.argsAdd, SelectBuilder.extend]

theorem acceptNode_eq (b : SelectBuilder) (n : Node) (b' : SelectBuilder)
    (h : acceptNode b n = .ok b') :
    b' = b.extend (nodeWhere SelectBuilder.placeholder b.args.length n) (nodeArgs n) := by
  cases n with
  | pipelineExpr => rw [← Except.ok.inj h]; exact (extend_nil b).symm
  | matchersExpr mts => exact AcceptMatchers_ok_eq mts b b' h
  | lineFilterExpr ty s =>
    rw [← Except.ok.inj h]
    exact AcceptLineFilterExpr_eq b ty s
  | other => rw [← Except.ok.inj h]; exact (extend_nil b).symm

theorem AcceptLogSelectorExpr_eq (expr : LogSelectorExpr) (b b' : SelectBuilder)
    (h : AcceptLogSelectorExpr b expr = .ok b') :
    b' = b.extend (selectorWhere SelectBuilder.placeholder b.args.length expr)
      (selectorArgs expr) := by
  induction expr generalizing b with
  | nil =>
    have : b = b' := by simpa [AcceptLogSelectorExpr, pure, Except.pure] using h
    rw [← this]
    exact (extend_nil b).symm
  | cons n ns ih =>
    simp only [AcceptLogSelectorExpr, List.foldlM_cons] at h
    cases hn : acceptNode b n with
    | error e => rw [hn] at h; cases h
    | ok b1 =>
      rw [hn] at h
      have h1 := acceptNode_eq b n b1 hn
      have h2 := ih b1 h
      rw [h2, h1, extend_extend]
      simp [selectorWhere, selectorArgs, SelectBuilder.extend]

/-! ## Placeholders under `compile` -/

theorem digitChar_toNat (k : Nat) (h : k < 10) : (Nat.digitChar k).toNat - 48 = k := by
  interval_cases k <;> rfl

theorem parseDigits_toDigitsCore (fuel n : Nat) (acc : List Char) (h : n < fuel) :
    ∃ k, ∀ a, parseDigits a (Nat.toDigitsCore 10 fuel n acc) = parseDigits (a * 10 ^ k + n) acc := by
  induction fuel generalizing n acc with
  | zero => omega
  | succ f ih =>
    simp only [Nat.toDigitsCore]
    have hd : (Nat.digitChar (n % 10)).toNat - 48 = n % 10 :=
      digitChar_toNat _ (Nat.mod_lt _ (by decide))
    split_ifs with h0
    · refine ⟨1, fun a => ?_⟩
      simp only [parseDigits, List.foldl_cons, hd]
      congr 1
      omega
    · have hlt : n / 10 < f := by omega
      obtain ⟨k, hk⟩ := ih (n / 10) (Nat.digitChar (n % 10) :: acc) hlt
      refine ⟨k + 1, fun a => ?_⟩
      rw [hk a]
      simp only [parseDigits, List.foldl_cons, hd]
      congr 1
      rw [pow_succ]
      have := Nat.div_add_mod n 10
      nlinarith

theorem parseDigits_toString (n : Nat) : parseDigits 0 (toString n).data = n := by
  show parseDigits 0 (Nat.toDigits 10 n) = n
  obtain ⟨k, hk⟩ := parseDigits_toDigitsCore (n + 1) n [] (Nat.lt_succ_self n)
  have := hk 0
  simpa [Nat.toDigits, parseDigits] using this

theorem toDigitsCore_ne_nil (fuel n : Nat) (acc : List Char) (h : acc ≠ []) :
    Nat.toDigitsCore 10 fuel n acc ≠ [] := by
  induction fuel generalizing n acc with
  | zero => simpa [Nat.toDigitsCore] using h
  | succ f ih =>
    simp only [Nat.toDigitsCore]
    split_ifs
    · simp
    · exact ih _ _ (by simp)

theorem toString_data_ne_nil (n : Nat) : (toString n).data ≠ [] := by
  show Nat.toDigitsCore 10 (n + 1) n [] ≠ []
  simp only [Nat.toDigitsCore]
  split_ifs
  · simp
  · exact toDigitsCore_ne_nil _ _ _ (by simp)

theorem compileGo_digits_run (args : List String) (ds : List Char)
    (hds : ∀ c ∈ ds, c.isDigit = true) (n : Nat) (rest : List Char) :
    compileGo args (.digits n) (ds ++ rest) = compileGo args (.digits (parseDigits n ds)) rest := by
  induction ds generalizing n with
  | nil => rfl
  | cons d ds ih =>
    have hd : d.isDigit = true := hds d (List.mem_cons_self d ds)
    simp only [List.cons_append, compileGo, hd, if_true]
    exact ih (fun c hc => hds c (List.mem_cons_of_mem d hc)) _

theorem compileGo_digits_end (args : List String) (n : Nat) (rest : List Char)
    (hr : startsNonDigit rest) :
    compileGo args (.digits n) rest =
      ((compileValue args n).1 ++ (compileGo args .normal rest).1,
        (compileValue args n).2 ++ (compileGo args .normal rest).2) := by
  cases rest with
  | nil => simp [compileGo]
  | cons c cs =>
    have hc : c.isDigit = false := hr
    by_cases h : c = '$'
    · simp [compileGo, hc, h]
    · simp [compileGo, hc, h]

/-- The placeholder of an argument in range compiles to `?` and that argument. -/
theorem emits_placeholder (args : List String) (i : Nat) (a : String)
    (h : args.get? i = some a) : Emits args (SelectBuilder.placeholder i) "?" [a] := by
  intro rest hr
  have hne := toString_data_ne_nil i
  have hdig := natToString_isDigit i
  have hp := parseDigits_toString i
  have hdata : (SelectBuilder.placeholder i).data = '$' :: (toString i).data := by
    simp [SelectBuilder.placeholder, String.data_append]
  rw [hdata]
  cases hD : (toString i).data with
  | nil => exact absurd hD hne
  | cons d ds =>
    rw [hD] at hdig hp
    have hd : d.isDigit = true := hdig d (List.mem_cons_self d ds)
    have hd' : d ≠ '$' := by
      intro hh; rw [hh] at hd; exact absurd hd (by decide)
    have hp' : parseDigits (d.toNat - 48) ds = i := by
      simpa [parseDigits] using hp
    simp only [List.cons_append, compileGo, hd', hd, if_true, if_false, List.append_eq]
    rw [compileGo_digits_run args ds (fun c hc => hdig c (List.mem_cons_of_mem d hc)),
      compileGo_digits_end args _ rest hr, hp']
    have hv : compileValue args i = (['?'], [a]) := by
      simp only [compileValue, h]
    rw [hv]
    rfl

/-! ## Composing stretches of format -/

theorem startsNonDigit_append (a b : List Char) (ha : startsNonDigit a)
    (hb : startsNonDigit b) : startsNonDigit (a ++ b) := by
  cases a with
  | nil => exact hb
  | cons c cs => exact ha

theorem startsNonDigit_string_append (a b : String)
    (ha : a.data ≠ [] ∧ startsNonDigit a.data) :
    (a ++ b).data ≠ [] ∧ startsNonDigit (a ++ b).data := by
  rw [String.data_append]
  cases h : a.data with
  | nil => exact absurd h ha.1
  | cons c cs =>
    have := ha.2
    rw [h] at this
    exact ⟨by simp, this⟩

theorem startsNonDigit_placeholder (i : Nat) :
    startsNonDigit (SelectBuilder.placeholder i).data := by
  have : (SelectBuilder.placeholder i).data = '$' :: (toString i).data := by
    simp [SelectBuilder.placeholder, String.data_append]
  rw [this]
  show ('$' : Char).isDigit = false
  decide

theorem emits_plain (args : List String) (p : String) (hp : '$' ∉ p.data) :
    Emits args p p [] := by
  intro rest _
  rw [compileGo_plain args p.data rest hp]
  rfl

theorem emits_append (args : List String) (s1 t1 s2 t2 : String) (v1 v2 : List String)
    (h1 : Emits args s1 t1 v1) (h2 : Emits args s2 t2 v2) (hs : startsNonDigit s2.data) :
    Emits args (s1 ++ s2) (t1 ++ t2) (v1 ++ v2) := by
  intro rest hr
  rw [String.data_append, List.append_assoc,
    h1 (s2.data ++ rest) (startsNonDigit_append _ _ hs hr), h2 rest hr]
  simp [String.data_append, List.append_assoc]

theorem emits_keySelector (args : List String) (i : Nat) (a : String)
    (h : args.get? i = some a) :
    Emits args (keySelectorOf (SelectBuilder.placeholder i)) (keySelectorOf (questionMark i))
      [a] :=
  emits_append args _ _ _ _ _ _
    (emits_append args _ _ _ _ [] [a]
      (emits_plain args ("arrayElement(`" ++ OtelLogLabelsColumn ++ "`, ") (by decide))
      (emits_placeholder args i a h) (startsNonDigit_placeholder i))
    (emits_plain args ")" (by decide)) (by decide)

theorem startsNonDigit_keySelector (ph : String) :
    startsNonDigit (keySelectorOf ph).data := by
  have : (keySelectorOf ph).data =
      'a' :: ("rrayElement(`ResourceAttributes`, ".data ++ ph.data ++ ")".data) := by
    simp only [keySelectorOf, String.data_append, List.append_assoc]
    rfl
  rw [this]
  show ('a' : Char).isDigit = false
  decide

/-- A matcher predicate with placeholders compiles to the same predicate with `?`
and emits the two arguments referred to. -/
theorem emits_matcherPredicate (args : List String) (t : MatchType) (i : Nat) (a1 a2 : String)
    (ht : recognized t) (h1 : args.get? i = some a1) (h2 : args.get? (i + 1) = some a2) :
    Emits args (matcherPredicate SelectBuilder.placeholder t i)
      (matcherPredicate questionMark t i) [a1, a2] := by
  have hk := emits_keySelector args i a1 h1
  have hp := emits_placeholder args (i + 1) a2 h2
  have hsp := startsNonDigit_placeholder (i + 1)
  have hsk := startsNonDigit_keySelector (SelectBuilder.placeholder i)
  have hm : Emits args
      ("match(" ++ keySelectorOf (SelectBuilder.placeholder i) ++ ", " ++
        SelectBuilder.placeholder (i + 1) ++ ")")
      ("match(" ++ keySelectorOf (questionMark i) ++ ", " ++ questionMark (i + 1) ++ ")")
      [a1, a2] :=
    emits_append args _ _ _ _ _ _
      (emits_append args _ _ _ _ _ _
        (emits_append args _ _ _ _ _ _
          (emits_append args _ _ _ _ [] [a1] (emits_plain args "match(" (by decide)) hk hsk)
          (emits_plain args ", " (by decide)) (by decide))
        hp hsp)
      (emits_plain args ")" (by decide)) (by decide)
  rcases ht with h | h | h | h <;> subst h
  · exact emits_append args _ _ _ _ _ _
      (emits_append args _ _ _ _ _ _ hk (emits_plain args " = " (by decide)) (by decide))
      hp hsp
  · exact emits_append args _ _ _ _ _ _
      (emits_append args _ _ _ _ _ _ hk (emits_plain args " != " (by decide)) (by decide))
      hp hsp
  · exact hm
  · exact emits_append args _ _ _ _ _ _
      (emits_append args _ _ _ _ [] _ (emits_plain args "NOT (" (by decide)) hm
        (startsNonDigit_string_append _ _ (startsNonDigit_string_append _ _
          (startsNonDigit_string_append _ _ (startsNonDigit_string_append "match(" _
            ⟨by decide, by decide⟩)))).2)
      (emits_plain args ")" (by decide)) (by decide)

/-! ## The `WHERE` list under `compile` -/

theorem get?_append_length (pre : List String) (x : String) (post : List String) :
    (pre ++ x :: post).get? pre.length = some x := by
  induction pre with
  | nil => rfl
  | cons p ps ih => simpa using ih

theorem emits_empty (args : List String) : Emits args "" "" [] :=
  emits_plain args "" (by decide)

theorem startsNonDigit_andTail (es : List String) : startsNonDigit (andTail es).data := by
  cases es with
  | nil => exact True.intro
  | cons e es =>
    exact (startsNonDigit_string_append _ _
      (startsNonDigit_string_append " AND " e ⟨by decide, by decide⟩)).2

theorem andTail_append (l1 l2 : List String) : andTail (l1 ++ l2) = andTail l1 ++ andTail l2 := by
  induction l1 with
  | nil =>
    apply String.ext
    simp [andTail, String.data_append]
  | cons e es ih =>
    show " AND " ++ e ++ andTail (es ++ l2) = " AND " ++ e ++ andTail es ++ andTail l2
    rw [ih]
    simp only [String.append_assoc]

theorem emits_andTail_cons (args : List String) (e te : String) (es tes : List String)
    (v vs : List String) (he : Emits args e te v) (hs : startsNonDigit e.data)
    (hes : Emits args (andTail es) (andTail tes) vs) :
    Emits args (andTail (e :: es)) (andTail (te :: tes)) (v ++ vs) :=
  emits_append args _ _ _ _ _ _
    (emits_append args _ _ _ _ [] v (emits_plain args " AND " (by decide)) he hs)
    hes (startsNonDigit_andTail es)

theorem startsNonDigit_matcherPredicate (ph : Nat → String) (t : MatchType) (i : Nat)
    (ht : recognized t) : startsNonDigit (matcherPredicate ph t i).data := by
  have hk := startsNonDigit_keySelector (ph i)
  have hkne : (keySelectorOf (ph i)).data ≠ [] := by
    simp [keySelectorOf, String.data_append]
  rcases ht with h | h | h | h <;> subst h
  · exact (startsNonDigit_string_append _ _
      (startsNonDigit_string_append _ " = " ⟨hkne, hk⟩)).2
  · exact (startsNonDigit_string_append _ _
      (startsNonDigit_string_append _ " != " ⟨hkne, hk⟩)).2
  · exact (startsNonDigit_string_append _ _ (startsNonDigit_string_append _ _
      (startsNonDigit_string_append _ _ (startsNonDigit_string_append "match(" _
        ⟨by decide, by decide⟩)))).2
  · exact (startsNonDigit_string_append _ _
      (startsNonDigit_string_append "NOT (" _ ⟨by decide, by decide⟩)).2

theorem emits_flatWhere (A : List String) (ms : List Matcher) (hm : matchersRecognized ms) :
    ∀ pre post, A = pre ++ flatArgs ms ++ post →
      Emits A (andTail (flatWhere SelectBuilder.placeholder pre.length ms))
        (andTail (flatWhere questionMark pre.length ms)) (flatArgs ms) := by
  induction ms with
  | nil => intro pre post _; exact emits_empty A
  | cons m ms ih =>
    intro pre post hA
    have hm' : matchersRecognized ms := fun x hx => hm x (List.mem_cons_of_mem m hx)
    by_cases hd : m.dropped
    · simp only [flatWhere, flatArgs, hd, if_true] at hA ⊢
      exact ih hm' pre post hA
    · have hr := hm m (List.mem_cons_self m ms) hd
      simp only [flatWhere, flatArgs, hd, if_false] at hA ⊢
      have h1 : A.get? pre.length = some (denormalizeLabel m.Name) := by
        rw [hA, List.append_assoc, List.cons_append]
        exact get?_append_length _ _ _
      have h2 : A.get? (pre.length + 1) = some m.param := by
        have : A = (pre ++ [denormalizeLabel m.Name]) ++ m.param :: (flatArgs ms ++ post) := by
          rw [hA]; simp
        rw [this]
        have hl : pre.length + 1 = (pre ++ [denormalizeLabel m.Name]).length := by simp
        rw [hl]
        exact get?_append_length _ _ _
      have htail := ih hm' (pre ++ [denormalizeLabel m.Name, m.param]) post (by rw [hA]; simp)
      have hl2 : (pre ++ [denormalizeLabel m.Name, m.param]).length = pre.length + 2 := by simp
      rw [hl2] at htail
      exact emits_andTail_cons A _ _ _ _ [denormalizeLabel m.Name, m.param] _
        (emits_matcherPredicate A m.Type_ pre.length _ _ hr h1 h2)
        (startsNonDigit_matcherPredicate _ _ _ hr) htail

theorem emits_lineFilterWhere (A : List String) (ty : MatchType) (s : String)
    (pre post : List String) (hA : A = pre ++ lineFilterArgs ty s ++ post) :
    Emits A (andTail (lineFilterWhere SelectBuilder.placeholder ty s pre.length))
      (andTail (lineFilterWhere questionMark ty s pre.length)) (lineFilterArgs ty s) := by
  have hsp := startsNonDigit_placeholder pre.length
  by_cases hs : s = ""
  · simp only [lineFilterWhere, lineFilterArgs, hs, if_true]
    exact emits_empty A
  · have hget : ∀ x, lineFilterArgs ty s = [x] → A.get? pre.length = some x := by
      intro x hx
      rw [hA, hx, List.append_assoc]
      exact get?_append_length _ _ _
    by_cases h1 : ty = MatchEqual
    · subst h1
      have ha : lineFilterArgs MatchEqual s = ["%" ++ s ++ "%"] := by
        simp [lineFilterArgs, hs]
      have hw : ∀ ph, lineFilterWhere ph MatchEqual s pre.length =
          [OtelLogMessageColumn ++ " LIKE " ++ ph pre.length] := by
        intro ph; simp [lineFilterWhere, hs]
      rw [hw, hw, ha]
      exact emits_andTail_cons A _ _ [] [] _ []
        (emits_append A _ _ _ _ [] _
          (emits_plain A (OtelLogMessageColumn ++ " LIKE ") (by decide))
          (emits_placeholder A _ _ (hget _ ha)) hsp)
        (startsNonDigit_string_append _ _
          (startsNonDigit_string_append OtelLogMessageColumn " LIKE "
            ⟨by decide, by decide⟩)).2
        (emits_empty A)
    · by_cases h2 : ty = MatchNotEqual
      · subst h2
        have ha : lineFilterArgs MatchNotEqual s = ["%" ++ s ++ "%"] := by
          simp [lineFilterArgs, hs]
        have hw : ∀ ph, lineFilterWhere ph MatchNotEqual s pre.length =
            [OtelLogMessageColumn ++ " NOT LIKE " ++ ph pre.length] := by
          intro ph; simp [lineFilterWhere, hs, MatchNotEqual, MatchEqual]
        rw [hw, hw, ha]
        exact emits_andTail_cons A _ _ [] [] _ []
          (emits_append A _ _ _ _ [] _
            (emits_plain A (OtelLogMessageColumn ++ " NOT LIKE ") (by decide))
            (emits_placeholder A _ _ (hget _ ha)) hsp)
          (startsNonDigit_string_append _ _
            (startsNonDigit_string_append OtelLogMessageColumn " NOT LIKE "
              ⟨by decide, by decide⟩)).2
          (emits_empty A)
      · have hm : ∀ x, A.get? pre.length = some x →
            Emits A ("match(" ++ OtelLogMessageColumn ++ ", " ++
                SelectBuilder.placeholder pre.length ++ ")")
              ("match(" ++ OtelLogMessageColumn ++ ", " ++ questionMark pre.length ++ ")")
              [x] := fun x hx =>
          emits_append A _ _ _ _ _ _
            (emits_append A _ _ _ _ [] _
              (emits_plain A ("match(" ++ OtelLogMessageColumn ++ ", ") (by decide))
              (emits_placeholder A _ _ hx) hsp)
            (emits_plain A ")" (by decide)) (by decide)
        have hms : ∀ ph : Nat → String, ("match(" ++ OtelLogMessageColumn ++ ", " ++
            ph pre.length ++ ")").data ≠ [] ∧ startsNonDigit ("match(" ++
            OtelLogMessageColumn ++ ", " ++ ph pre.length ++ ")").data := fun ph =>
          startsNonDigit_string_append _ _ (startsNonDigit_string_append _ _
            (startsNonDigit_string_append _ _ (startsNonDigit_string_append "match(" _
              ⟨by decide, by decide⟩)))
        by_cases h3 : ty = MatchRegexp
        · subst h3
          have ha : lineFilterArgs MatchRegexp s = [s] := by
            simp [lineFilterArgs, hs, MatchRegexp, MatchNotEqual, MatchEqual]
          have hw : ∀ ph, lineFilterWhere ph MatchRegexp s pre.length =
              ["match(" ++ OtelLogMessageColumn ++ ", " ++ ph pre.length ++ ")"] := by
            intro ph; simp [lineFilterWhere, hs, MatchRegexp, MatchNotEqual, MatchEqual]
          rw [hw, hw, ha]
          exact emits_andTail_cons A _ _ [] [] _ [] (hm _ (hget _ ha)) (hms _).2 (emits_empty A)
        · by_cases h4 : ty = MatchNotRegexp
          · subst h4
            have ha : lineFilterArgs MatchNotRegexp s = [s] := by
              simp [lineFilterArgs, hs, MatchRegexp, MatchNotEqual, MatchEqual, MatchNotRegexp]
            have hw : ∀ ph, lineFilterWhere ph MatchNotRegexp s pre.length =
                ["NOT (" ++ ("match(" ++ OtelLogMessageColumn ++ ", " ++ ph pre.length ++ ")")
                  ++ ")"] := by
              intro ph
              simp [lineFilterWhere, hs, MatchRegexp, MatchNotEqual, MatchEqual, MatchNotRegexp]
            rw [hw, hw, ha]
            exact emits_andTail_cons A _ _ [] [] _ []
              (emits_append A _ _ _ _ _ _
                (emits_append A _ _ _ _ [] _ (emits_plain A "NOT (" (by decide))
                  (hm _ (hget _ ha)) (hms _).2)
                (emits_plain A ")" (by decide)) (by decide))
              (startsNonDigit_string_append _ _
                (startsNonDigit_string_append "NOT (" _ ⟨by decide, by decide⟩)).2
              (emits_empty A)
          · simp only [lineFilterWhere, lineFilterArgs, hs, h1, h2, h3, h4, if_false, or_self]
            exact emits_empty A

theorem emits_nodeWhere (A : List String) (n : Node) (hn : nodeRecognized n)
    (pre post : List String) (hA : A = pre ++ nodeArgs n ++ post) :
    Emits A (andTail (nodeWhere SelectBuilder.placeholder pre.length n))
      (andTail (nodeWhere questionMark pre.length n)) (nodeArgs n) := by
  cases n with
  | pipelineExpr => exact emits_empty A
  | matchersExpr mts => exact emits_flatWhere A mts hn pre post hA
  | lineFilterExpr ty s => exact emits_lineFilterWhere A ty s pre post hA
  | other => exact emits_empty A

theorem emits_selectorWhere (A : List String) (expr : LogSelectorExpr)
    (hr : selectorRecognized expr) :
    ∀ pre post, A = pre ++ selectorArgs expr ++ post →
      Emits A (andTail (selectorWhere SelectBuilder.placeholder pre.length expr))
        (andTail (selectorWhere questionMark pre.length expr)) (selectorArgs expr) := by
  induction expr with
  | nil => intro pre post _; exact emits_empty A
  | cons n ns ih =>
    intro pre post hA
    have hsa : selectorArgs (n :: ns) = nodeArgs n ++ selectorArgs ns := by
      simp [selectorArgs]
    rw [hsa] at hA ⊢
    have h1 := emits_nodeWhere A n (hr n (List.mem_cons_self n ns)) pre
      (selectorArgs ns ++ post) (by rw [hA]; simp)
    have h2 := ih (fun x hx => hr x (List.mem_cons_of_mem n hx)) (pre ++ nodeArgs n) post
      (by rw [hA]; simp)
    rw [List.length_append] at h2
    simp only [selectorWhere, andTail_append]
    exact emits_append A _ _ _ _ _ _ h1 h2 (startsNonDigit_andTail _)

theorem intercalate_go_andTail (l : List String) (acc : String) :
    String.intercalate.go acc " AND " l = acc ++ andTail l := by
  induction l generalizing acc with
  | nil =>
    apply String.ext
    simp [String.intercalate.go, andTail, String.data_append]
  | cons e es ih =>
    simp only [String.intercalate.go, ih, andTail, String.append_assoc]

theorem intercalate_cons_andTail (p : String) (l : List String) :
    " AND ".intercalate (p :: l) = p ++ andTail l := by
  simp only [String.intercalate, intercalate_go_andTail]

theorem compile_of_emits (A : List String) (F F' : String) (v : List String)
    (h : Emits A F F' v) : compile A F = (F', v) := by
  have := h [] True.intro
  simp only [List.append_nil, compileGo] at this
  simp only [compile, this]

/-- A builder whose clauses are free of `$` except for the tail of its `WHERE`
list builds the text it renders with that tail compiled, and the values the tail
emits. -/
theorem build_of_emits (b : SelectBuilder) (hs : b.selectCols ≠ [])
    (hsel : '$' ∉ (", ".intercalate b.selectCols).data)
    (htab : '$' ∉ (", ".intercalate b.tables).data)
    (hord : '$' ∉ (", ".intercalate b.orderByCols).data)
    (p : String) (w tw : List String) (hw : b.whereExprs = p :: w) (hp : '$' ∉ p.data)
    (v : List String) (hE : Emits b.args (andTail w) (andTail tw) v) :
    b.Build = (SelectBuilder.render { b with whereExprs := p :: tw }, v) := by
  have hr := render_clauses b hs
  have hr' := render_clauses { b with whereExprs := p :: tw } hs
  rw [hw] at hr
  simp only [ne_eq, reduceCtorEq, not_false_eq_true, if_true, intercalate_cons_andTail]
    at hr hr'
  generalize hH : "SELECT " ++ (if b.distinct = true then "DISTINCT " else "") ++
    ", ".intercalate b.selectCols ++
    (if ¬b.tables = [] then " " ++ "FROM " ++ ", ".intercalate b.tables else "") = H at hr hr'
  generalize hO : (if ¬b.orderByCols = [] then
    " " ++ "ORDER BY " ++ ", ".intercalate b.orderByCols else "") = O at hr hr'
  generalize hL : (if 0 ≤ b.limit then " " ++ "LIMIT " ++ toString b.limit else "") = L
    at hr hr'
  have hHd : '$' ∉ H.data := by
    rw [← hH]
    simp only [String.data_append, List.mem_append, not_or]
    refine ⟨⟨⟨by decide, ?_⟩, hsel⟩, ?_⟩
    · split_ifs <;> decide
    · split_ifs
      · decide
      · simp only [String.data_append, List.mem_append, not_or]
        exact ⟨⟨by decide, by decide⟩, htab⟩
  have hOd : '$' ∉ O.data ∧ startsNonDigit O.data := by
    rw [← hO]
    split_ifs
    · exact ⟨by decide, True.intro⟩
    · refine ⟨?_, (startsNonDigit_string_append _ _
        (startsNonDigit_string_append " " "ORDER BY " ⟨by decide, by decide⟩)).2⟩
      simp only [String.data_append, List.mem_append, not_or]
      exact ⟨⟨by decide, by decide⟩, hord⟩
  have hLd : '$' ∉ L.data ∧ startsNonDigit L.data := by
    rw [← hL]
    split_ifs
    · refine ⟨?_, (startsNonDigit_string_append _ _
        (startsNonDigit_string_append " " "LIMIT " ⟨by decide, by decide⟩)).2⟩
      simp only [String.data_append, List.mem_append, not_or]
      exact ⟨⟨by decide, by decide⟩, intToString_no_dollar _⟩
    · exact ⟨by decide, True.intro⟩
  have hfmt : b.render = (H ++ (" " ++ "WHERE " ++ p)) ++ andTail w ++ (O ++ L) := by
    rw [hr]; apply String.ext; simp [String.data_append]
  have hfmt' : SelectBuilder.render { b with whereExprs := p :: tw } =
      (H ++ (" " ++ "WHERE " ++ p)) ++ andTail tw ++ (O ++ L) := by
    rw [hr']; apply String.ext; simp [String.data_append]
  have hE1 : Emits b.args (H ++ (" " ++ "WHERE " ++ p)) (H ++ (" " ++ "WHERE " ++ p)) [] :=
    emits_plain _ _ (by
      simp only [String.data_append, List.mem_append, not_or]
      exact ⟨hHd, ⟨by decide, by decide⟩, hp⟩)
  have hE3 : Emits b.args (O ++ L) (O ++ L) [] :=
    emits_plain _ _ (by
      simp only [String.data_append, List.mem_append, not_or]
      exact ⟨hOd.1, hLd.1⟩)
  have hall := emits_append _ _ _ _ _ _ _
    (emits_append _ _ _ _ _ _ _ hE1 hE (startsNonDigit_andTail w)) hE3
    (by rw [String.data_append]; exact startsNonDigit_append _ _ hOd.2 hLd.2)
  simp only [SelectBuilder.Build]
  rw [hfmt, hfmt', compile_of_emits _ _ _ _ hall]
  simp

/-! ## The statements of the log selection and series queries -/

theorem startsNonDigit_upperBound (ms : Int) : startsNonDigit (upperBound ms).data :=
  (startsNonDigit_string_append _ _ (startsNonDigit_string_append _ _
    (startsNonDigit_string_append _ _ (startsNonDigit_string_append "`" OtelLogTimestampColumn
      ⟨by decide, by decide⟩)))).2

theorem AcceptLogSelectorExpr_ok (expr : LogSelectorExpr) (hr : selectorRecognized expr)
    (b : SelectBuilder) :
    AcceptLogSelectorExpr b expr =
      .ok (b.extend (selectorWhere SelectBuilder.placeholder b.args.length expr)
        (selectorArgs expr)) := by
  obtain ⟨b', hb'⟩ := foldlM_ok_of_forall acceptNode expr
    (fun n hn b => acceptNode_ok b n (fun mts he => by
      have := hr n hn
      rw [he] at this
      exact this)) b
  have := AcceptLogSelectorExpr_eq expr b b' hb'
  rw [← this]
  exact hb'

theorem selectLogs_render (o : otelEnvironmentImpl) (preds a : List String) (start end_ : Int)
    (limit : Nat) (direction : Direction) :
    SelectBuilder.render
      { (selectLogsInit o start end_ limit direction).extend preds a with
        whereExprs := lowerBound start :: upperBound end_ :: preds } =
      selectLogsText o preds start end_ limit direction := by
  rw [render_clauses _ (by simp [selectLogsInit, SelectBuilder.extend, SelectBuilder.OrderBy,
    SelectBuilder.Limit, SelectBuilder.Where, SelectBuilder.From, SelectBuilder.Select])]
  have h0 : (0 : Int) ≤ (limit : Int) := Int.ofNat_nonneg limit
  simp only [selectLogsInit, SelectBuilder.extend, SelectBuilder.OrderBy, SelectBuilder.Limit,
    SelectBuilder.Where, SelectBuilder.From, SelectBuilder.Select, SelectBuilder.new,
    ne_eq, reduceCtorEq, not_false_eq_true, if_true, h0, Bool.false_eq_true, if_false,
    selectLogsText]
  apply String.ext
  simp only [String.data_append, List.append_assoc]
  rfl

/-- The statement of the log selection query, for a table name without `$` and a
selector that does not panic. -/
theorem SelectLogsQuery_eq (o : otelEnvironmentImpl) (ho : '$' ∉ o.tableName.data)
    (expr : LogSelectorExpr) (hr : selectorRecognized expr) (start end_ : Int) (limit : Nat)
    (direction : Direction) :
    SelectLogsQuery o expr start end_ limit direction =
      .ok (selectLogsText o (selectorWhere questionMark 0 expr) start end_ limit direction,
        selectorArgs expr) := by
  simp only [SelectLogsQuery, selectLogsBuilder]
  rw [AcceptLogSelectorExpr_ok expr hr]
  simp only [Except.map]
  have hargs : (selectLogsInit o start end_ limit direction).args = [] := rfl
  rw [hargs, List.length_nil]
  rw [build_of_emits _ (selectLogsInit_selectCols o start end_ limit direction _ _)
    (show '$' ∉ (", ".intercalate ["`" ++ OtelLogTimestampColumn ++ "`",
      "`" ++ OtelLogMessageColumn ++ "`", "`" ++ OtelLogLabelsColumn ++ "`"]).data by decide)
    ho (orderByOf_no_dollar direction) (lowerBound start)
    (upperBound end_ :: selectorWhere SelectBuilder.placeholder 0 expr)
    (upperBound end_ :: selectorWhere questionMark 0 expr) rfl (lowerBound_no_dollar start)
    (selectorArgs expr)
    (emits_andTail_cons _ _ _ _ _ [] _ (emits_plain _ _ (upperBound_no_dollar end_))
      (startsNonDigit_upperBound end_)
      (emits_selectorWhere _ expr hr [] [] (by simp [SelectBuilder.extend, hargs])))]
  rw [← selectLogs_render o (selectorWhere questionMark 0 expr) (selectorArgs expr)]
  rfl

theorem series_render (o : otelEnvironmentImpl) (preds a : List String) (start end_ : Int) :
    SelectBuilder.render
      { (seriesInit o start end_).extend preds a with
        whereExprs := lowerBound start :: upperBound end_ :: preds } =
      seriesText o preds start end_ := by
  rw [render_clauses _ (by simp [seriesInit, SelectBuilder.extend, SelectBuilder.Where,
    SelectBuilder.Select])]
  simp only [seriesInit, SelectBuilder.extend, SelectBuilder.Distinct,
    SelectBuilder.Where, SelectBuilder.From, SelectBuilder.Select, SelectBuilder.new,
    ne_eq, reduceCtorEq, not_false_eq_true, not_true_eq_false, if_true, if_false, seriesText,
    show ¬ ((0 : Int) ≤ -1) by decide]
  have h1 : ∀ x : String, ", ".intercalate [x] = x := fun _ => rfl
  apply String.ext
  simp only [String.data_append, List.append_assoc, List.append_nil, h1]
  rfl

theorem seriesBuilder_flatten (o : otelEnvironmentImpl) (groups : List (List Matcher))
    (start end_ : Int) :
    seriesBuilder o groups start end_ =
      groups.flatten.foldlM AcceptMatcher (seriesInit o start end_) := by
  simp only [seriesBuilder]
  rw [foldlM_join]

/-- The statement of the series query, for a table name without `$` and matchers
that do not panic. -/
theorem SeriesQuery_eq (o : otelEnvironmentImpl) (ho : '$' ∉ o.tableName.data)
    (groups : List (List Matcher)) (hr : matchersRecognized groups.flatten)
    (start end_ : Int) :
    SeriesQuery o groups start end_ =
      .ok (seriesText o (flatWhere questionMark 0 groups.flatten) start end_,
        flatArgs groups.flatten) := by
  simp only [SeriesQuery]
  rw [seriesBuilder_flatten, AcceptMatchers_ok _ _ hr]
  simp only [Except.map]
  have hargs : (seriesInit o start end_).args = [] := rfl
  rw [hargs, List.length_nil]
  rw [build_of_emits ((seriesInit o start end_).extend
      (flatWhere SelectBuilder.placeholder 0 groups.flatten) (flatArgs groups.flatten))
    (by simp [seriesInit, SelectBuilder.extend, SelectBuilder.Where, SelectBuilder.Select])
    (show '$' ∉ (", ".intercalate ["`" ++ OtelLogLabelsColumn ++ "`"]).data by decide)
    ho (show '$' ∉ (", ".intercalate []).data by decide) (lowerBound start)
    (upperBound end_ :: flatWhere SelectBuilder.placeholder 0 groups.flatten)
    (upperBound end_ :: flatWhere questionMark 0 groups.flatten) rfl
    (lowerBound_no_dollar start) (flatArgs groups.flatten)
    (emits_andTail_cons _ _ _ _ _ [] _ (emits_plain _ _ (upperBound_no_dollar end_))
      (startsNonDigit_upperBound end_)
      (emits_flatWhere _ groups.flatten hr [] [] (by simp [SelectBuilder.extend, hargs])))]
  rw [← series_render o (flatWhere questionMark 0 groups.flatten) (flatArgs groups.flatten)]
  rfl

/-! ## The reader -/

theorem callCurrentRow_done (E : DecodeEnv) (r : rowEntryIterator)
    (res : Except String serializedRow) (h : r.currentRow = some (.done res)) :
    r.callCurrentRow E = .ok (res, r) := by
  simp only [rowEntryIterator.callCurrentRow, h]

theorem callCurrentRow_nil (E : DecodeEnv) (r : rowEntryIterator) (h : r.currentRow = none) :
    r.callCurrentRow E = .error "invalid memory address or nil pointer dereference" := by
  simp only [rowEntryIterator.callCurrentRow, h]

theorem Next_row (E : DecodeEnv) (r : rowEntryIterator) (raw : Except String ScannedRow)
    (rest : List (Except String ScannedRow)) (h : r.rows.pending = raw :: rest) :
    r.Next E = .ok (raw.isOk, afterRow E r raw rest) := by
  cases raw with
  | error e =>
    simp [rowEntryIterator.Next, Rows.Next, h, rowEntryIterator.callCurrentRow,
      rowEntryIterator.readFromDB, Rows.Scan, decodeRow, afterRow, Except.isOk, Except.toBool]
  | ok s =>
    simp [rowEntryIterator.Next, Rows.Next, h, rowEntryIterator.callCurrentRow,
      rowEntryIterator.readFromDB, Rows.Scan, decodeRow, afterRow, Except.isOk, Except.toBool]

theorem Next_end (E : DecodeEnv) (r : rowEntryIterator) (h : r.rows.pending = []) :
    r.Next E = .ok (false, afterEnd r) := by
  simp [rowEntryIterator.Next, Rows.Next, h, afterEnd]

/-- On a reader whose memo holds the result `res`, every accessor returns what
`observe` reads off `res`, and leaves the reader as it is. -/
theorem call_done (E : DecodeEnv) (r : rowEntryIterator) (res : Except String serializedRow)
    (h : r.currentRow = some (.done res)) (a : Accessor) :
    r.call E a = .ok (observe E r.rows.lasterr res a, r) := by
  have hc := callCurrentRow_done E r res h
  cases a with
  | Labels =>
    cases res <;> simp [rowEntryIterator.call, rowEntryIterator.Labels, hc, observe, Except.map]
  | StreamHash =>
    cases res <;>
      simp [rowEntryIterator.call, rowEntryIterator.StreamHash, rowEntryIterator.Labels, hc,
        observe, Except.map]
  | Entry =>
    cases res <;> simp [rowEntryIterator.call, rowEntryIterator.Entry, hc, observe, Except.map]
  | Error =>
    cases hl : r.rows.lasterr <;> cases res <;>
      simp [rowEntryIterator.call, rowEntryIterator.Error, Rows.Err, hl, h, hc, observe,
        Except.map]

theorem calls_done (E : DecodeEnv) (r : rowEntryIterator) (res : Except String serializedRow)
    (h : r.currentRow = some (.done res)) (as : List Accessor) :
    r.calls E as = .ok (as.map (observe E r.rows.lasterr res), r) := by
  induction as with
  | nil => rfl
  | cons a as ih =>
    simp only [rowEntryIterator.calls, call_done E r res h a, ih, List.map_cons]

theorem Error_of_memo (E : DecodeEnv) (r : rowEntryIterator)
    (res : Except String serializedRow) (h : r.currentRow = some (.done res))
    (hl : r.rows.lasterr = none) :
    r.Error E = .ok (decodeError res, r) := by
  cases res <;>
    simp [rowEntryIterator.Error, Rows.Err, hl, h, callCurrentRow_done E r _ h, decodeError]

theorem Error_of_nil (E : DecodeEnv) (r : rowEntryIterator) (h : r.currentRow = none) :
    r.Error E = .ok (r.rows.lasterr, r) := by
  simp [rowEntryIterator.Error, Rows.Err, h]

theorem Error_of_cursor (E : DecodeEnv) (r : rowEntryIterator) (e : String)
    (h : r.rows.lasterr = some e) : r.Error E = .ok (some e, r) := by
  simp [rowEntryIterator.Error, Rows.Err, h]

/-- A run of `Next` over rows that all decode, on a cursor without errors: `true`
for every row, then `false`, and `Error` is nil at the end. -/
theorem nextN_all_ok (E : DecodeEnv) (rows : List ScannedRow) :
    ∀ r : rowEntryIterator, r.rows.pending = rows.map Except.ok → r.rows.lasterr = none →
      r.rows.terminal = none →
      (r.currentRow = none ∨ ∃ row, r.currentRow = some (.done (.ok row))) →
      ∃ rf, r.nextN E (rows.length + 1) = .ok (List.replicate rows.length true ++ [false], rf) ∧
        rf.Error E = .ok (none, rf) := by
  induction rows with
  | nil =>
    intro r hp hl ht hm
    refine ⟨afterEnd r, ?_, ?_⟩
    · simp only [rowEntryIterator.nextN, Next_end E r (by simpa using hp)]
      rfl
    · rcases hm with hm | ⟨row, hm⟩
      · rw [Error_of_nil E _ (by simpa [afterEnd] using hm)]
        simp [afterEnd, ht]
      · rw [Error_of_memo E _ (.ok row) (by simpa [afterEnd] using hm)
          (by simp [afterEnd, ht])]
        rfl
  | cons s rows ih =>
    intro r hp hl ht _
    have hp' : r.rows.pending = .ok s :: rows.map Except.ok := by simpa using hp
    obtain ⟨rf, h1, h2⟩ := ih (afterRow E r (.ok s) (rows.map Except.ok)) rfl
      (by simpa [afterRow] using hl) (by simpa [afterRow] using ht)
      (Or.inr ⟨_, rfl⟩)
    refine ⟨rf, ?_, h2⟩
    rw [rowEntryIterator.nextN, Next_row E r _ _ hp']
    simp only [List.length_cons] at h1 ⊢
    rw [h1]
    rfl

theorem fnv_fold_lt (bs : List Nat) (h : Nat) (hh : h < 2 ^ 64) :
    bs.foldl fnvStep h < 2 ^ 64 := by
  induction bs generalizing h with
  | nil => exact hh
  | cons b bs ih => exact ih _ (Nat.mod_lt _ (by decide))

theorem hashLabels_lt (s : String) : hashLabels s < 2 ^ 64 :=
  fnv_fold_lt _ _ (by decide)

/-! ## `LIKE` on patterns without wildcards -/

theorem likeMatch_cons_eq (c : Char) (ps t : List Char) :
    likeMatch (c :: ps) t =
      if c = '%' then t.tails.any fun s => likeMatch ps s
      else if c = '_' then
        match t with
        | [] => false
        | _ :: ts => likeMatch ps ts
      else if c = '\\' then
        match t with
        | [] => false
        | x :: ts =>
          match ps with
          | [] => decide (x = '\\') && ts.isEmpty
          | e :: ps' => decide (x = e) && likeMatch ps' ts
      else
        match t with
        | [] => false
        | x :: ts => decide (x = c) && likeMatch ps ts :=
  (likeMatch.eq_def (c :: ps) t).trans rfl

/-- A pattern character that `LIKE` takes literally. -/
theorem likeMatch_plain_cons (c : Char) (h1 : c ≠ '%') (h2 : c ≠ '_') (h3 : c ≠ '\\')
    (ps t : List Char) :
    likeMatch (c :: ps) t = true ↔ ∃ ts, t = c :: ts ∧ likeMatch ps ts = true := by
  cases t with
  | nil => simp [likeMatch_cons_eq, h1, h2, h3]
  | cons x ts =>
    simp only [likeMatch_cons_eq, h1, h2, h3, if_false, Bool.and_eq_true, decide_eq_true_eq,
      List.cons.injEq]
    constructor
    · rintro ⟨hx, hm⟩
      exact ⟨ts, ⟨hx, rfl⟩, hm⟩
    · rintro ⟨ts', ⟨hx, hts⟩, hm⟩
      exact ⟨hx, hts ▸ hm⟩

theorem likeMatch_percent (ps t : List Char) :
    likeMatch ('%' :: ps) t = true ↔ ∃ pre s, t = pre ++ s ∧ likeMatch ps s = true := by
  simp only [likeMatch_cons_eq, if_true, List.any_eq_true, List.mem_tails]
  constructor
  · rintro ⟨s, ⟨pre, hpre⟩, hm⟩
    exact ⟨pre, s, hpre.symm, hm⟩
  · rintro ⟨pre, s, ht, hm⟩
    exact ⟨s, ⟨pre, ht.symm⟩, hm⟩

/-- A pattern of literal characters followed by `%` matches the texts that begin
with these characters. -/
theorem likeMatch_plain_then_percent (p : List Char)
    (hp : ∀ c ∈ p, c ≠ '%' ∧ c ≠ '_' ∧ c ≠ '\\') (t : List Char) :
    likeMatch (p ++ ['%']) t = true ↔ ∃ u, t = p ++ u := by
  induction p generalizing t with
  | nil =>
    constructor
    · intro _; exact ⟨t, rfl⟩
    · intro _
      rw [List.nil_append, likeMatch_percent]
      exact ⟨t, [], by simp, rfl⟩
  | cons c ps ih =>
    obtain ⟨h1, h2, h3⟩ := hp c (List.mem_cons_self c ps)
    have ih' := ih (fun x hx => hp x (List.mem_cons_of_mem c hx))
    rw [List.cons_append, likeMatch_plain_cons c h1 h2 h3]
    constructor
    · rintro ⟨ts, ht, hm⟩
      obtain ⟨u, hu⟩ := (ih' ts).mp hm
      exact ⟨u, by rw [ht, hu]; rfl⟩
    · rintro ⟨u, hu⟩
      exact ⟨ps ++ u, by rw [hu]; rfl, (ih' _).mpr ⟨u, rfl⟩⟩

/-- For a pattern without `%`, `_` and backslash, `LIKE` on the pattern between two
`%` is substring containment. -/
theorem like_contains (p b : String) (hp : ∀ c ∈ p.data, c ≠ '%' ∧ c ≠ '_' ∧ c ≠ '\\') :
    likeMatch ("%" ++ p ++ "%").data b.data = true ↔ occursIn p b := by
  have hd : ("%" ++ p ++ "%").data = '%' :: (p.data ++ ['%']) := by
    simp only [String.data_append]
    rfl
  rw [hd, likeMatch_percent]
  unfold occursIn
  constructor
  · rintro ⟨pre, s, hb, hm⟩
    obtain ⟨u, hu⟩ := (likeMatch_plain_then_percent p.data hp s).mp hm
    exact ⟨pre, u, by rw [hb, hu, List.append_assoc]⟩
  · rintro ⟨s, t, hb⟩
    exact ⟨s, p.data ++ t, by rw [hb, List.append_assoc],
      (likeMatch_plain_then_percent p.data hp _).mpr ⟨t, rfl⟩⟩

/-! ## Maps as sorted lists -/

theorem char_toNat_inj (a b : Char) (h : a.toNat = b.toNat) : a = b := by
  rw [← Char.ofNat_toNat a, ← Char.ofNat_toNat b, h]

theorem ltChars_irrefl (a : List Char) : ltChars a a = false := by
  induction a with
  | nil => rfl
  | cons x xs ih => simp [ltChars, ih]

theorem ltChars_asymm : ∀ a b : List Char, ltChars a b = true → ltChars b a = false
  | [], [], _ => rfl
  | [], _ :: _, _ => rfl
  | _ :: _, [], h => by simp [ltChars] at h
  | x :: xs, y :: ys, h => by
    simp only [ltChars] at h ⊢
    by_cases h1 : x.toNat < y.toNat
    · have h2 : ¬ y.toNat < x.toNat := by omega
      have h3 : ¬ y.toNat = x.toNat := by omega
      simp [h2, h3]
    · by_cases h2 : x.toNat = y.toNat
      · simp only [h1, h2, if_true, if_false] at h
        have := ltChars_asymm xs ys (by simpa using h)
        simp [h2, this]
      · simp [h1, h2] at h

theorem ltChars_trans : ∀ a b c : List Char, ltChars a b = true → ltChars b c = true →
    ltChars a c = true
  | [], [], _, h, _ => by simp [ltChars] at h
  | [], _ :: _, [], _, h => by simp [ltChars] at h
  | [], _ :: _, _ :: _, _, _ => rfl
  | _ :: _, [], _, h, _ => by simp [ltChars] at h
  | _ :: _, _ :: _, [], _, h => by simp [ltChars] at h
  | x :: xs, y :: ys, z :: zs, h1, h2 => by
    simp only [ltChars] at h1 h2 ⊢
    by_cases a1 : x.toNat < y.toNat
    · by_cases b1 : y.toNat < z.toNat
      · have : x.toNat < z.toNat := by omega
        simp [this]
      · by_cases b2 : y.toNat = z.toNat
        · have : x.toNat < z.toNat := by omega
          simp [this]
        · simp [b1, b2] at h2
    · by_cases a2 : x.toNat = y.toNat
      · simp only [a1, a2, if_true, if_false] at h1
        by_cases b1 : y.toNat < z.toNat
        · have : x.toNat < z.toNat := by omega
          simp [this]
        · by_cases b2 : y.toNat = z.toNat
          · simp only [b1, b2, if_true, if_false] at h2
            have h3 := ltChars_trans xs ys zs (by simpa using h1) (by simpa using h2)
            have c1 : ¬ x.toNat < z.toNat := by omega
            have c2 : x.toNat = z.toNat := by omega
            simp [c2, h3]
          · simp [b1, b2] at h2
      · simp [a1, a2] at h1

theorem ltChars_total : ∀ a b : List Char, a ≠ b → ltChars a b = true ∨ ltChars b a = true
  | [], [], h => absurd rfl h
  | [], _ :: _, _ => Or.inl rfl
  | _ :: _, [], _ => Or.inr rfl
  | x :: xs, y :: ys, h => by
    simp only [ltChars]
    by_cases h1 : x.toNat < y.toNat
    · simp [h1]
    · by_cases h2 : x.toNat = y.toNat
      · have hxy : x = y := char_toNat_inj x y h2
        have hne : xs ≠ ys := fun e => h (by rw [hxy, e])
        rcases ltChars_total xs ys hne with h3 | h3
        · left; simp [h2, h3]
        · right; simp [h2, h3]
      · have h3 : y.toNat < x.toNat := by omega
        right; simp [h3]

theorem data_ne {a b : String} (h : a ≠ b) : a.data ≠ b.data := fun e => h (String.ext e)

/-- Assigning a key the map does not hold adds one entry. -/
theorem mapInsert_perm (k v : String) : ∀ m : StringMap, (∀ p ∈ m, p.1 ≠ k) →
    (mapInsert k v m).Perm ((k, v) :: m)
  | [], _ => List.Perm.refl _
  | (k', v') :: rest, h => by
    have hk : k ≠ k' := fun e => h (k', v') (List.mem_cons_self _ _) e.symm
    simp only [mapInsert, hk, if_false]
    split
    · exact List.Perm.refl _
    · exact ((mapInsert_perm k v rest
        (fun p hp => h p (List.mem_cons_of_mem _ hp))).cons _).trans (List.Perm.swap _ _ _)

/-- Assigning a key the map does not hold keeps the entries in key order. -/
theorem mapInsert_sorted (k v : String) : ∀ m : StringMap, m.Pairwise keyLt →
    (∀ p ∈ m, p.1 ≠ k) → (mapInsert k v m).Pairwise keyLt
  | [], _, _ => List.pairwise_singleton _ _
  | (k', v') :: rest, hs, h => by
    have hk : k ≠ k' := fun e => h (k', v') (List.mem_cons_self _ _) e.symm
    have hrest : ∀ p ∈ rest, p.1 ≠ k := fun p hp => h p (List.mem_cons_of_mem _ hp)
    simp only [mapInsert, hk, if_false]
    rw [List.pairwise_cons] at hs
    split
    · rename_i hlt
      refine List.Pairwise.cons ?_ (List.Pairwise.cons hs.1 hs.2)
      intro a ha
      rcases List.mem_cons.1 ha with rfl | ha
      · exact hlt
      · exact ltChars_trans _ _ _ hlt (hs.1 a ha)
    · rename_i hlt
      refine List.Pairwise.cons ?_ (mapInsert_sorted k v rest hs.2 hrest)
      intro a ha
      have hmem := (mapInsert_perm k v rest hrest).mem_iff.1 ha
      rcases List.mem_cons.1 hmem with rfl | ha
      · rcases ltChars_total k.data k'.data (data_ne hk) with h1 | h1
        · exact absurd h1 hlt
        · exact h1
      · exact hs.1 a ha

/-- Assigning entries with distinct keys, none of them in the map, one after the
other: the map stays in key order and gains exactly these entries. -/
theorem foldl_mapInsert (N : String → String) :
    ∀ (entries : List (String × String)) (m : StringMap), m.Pairwise keyLt →
      (entries.map fun kv => N kv.1).Nodup → (∀ kv ∈ entries, ∀ p ∈ m, p.1 ≠ N kv.1) →
      (entries.foldl (fun m kv => mapInsert (N kv.1) kv.2 m) m).Pairwise keyLt ∧
      (entries.foldl (fun m kv => mapInsert (N kv.1) kv.2 m) m).Perm
        (entries.map (fun kv => (N kv.1, kv.2)) ++ m)
  | [], m, hs, _, _ => ⟨hs, List.Perm.refl _⟩
  | e :: es, m, hs, hnd, hfresh => by
    rw [List.map_cons, List.nodup_cons] at hnd
    have hme : ∀ p ∈ m, p.1 ≠ N e.1 := hfresh e (List.mem_cons_self _ _)
    have hperm := mapInsert_perm (N e.1) e.2 m hme
    have hfresh' : ∀ kv ∈ es, ∀ p ∈ mapInsert (N e.1) e.2 m, p.1 ≠ N kv.1 := by
      intro kv hkv p hp
      rcases List.mem_cons.1 (hperm.mem_iff.1 hp) with rfl | hp
      · intro heq
        exact hnd.1 (List.mem_map.2 ⟨kv, hkv, heq.symm⟩)
      · exact hfresh kv (List.mem_cons_of_mem _ hkv) p hp
    obtain ⟨h1, h2⟩ := foldl_mapInsert N es (mapInsert (N e.1) e.2 m)
      (mapInsert_sorted (N e.1) e.2 m hs hme) hnd.2 hfresh'
    refine ⟨h1, ?_⟩
    rw [List.foldl_cons]
    refine h2.trans ?_
    rw [List.map_cons, List.cons_append]
    exact ((List.Perm.refl _).append hperm).trans List.perm_middle

theorem normalizeMap_sorted_perm (E : NormalizeEnv) (entries : List (String × String))
    (hnd : (entries.map fun kv => NormalizeLabel E kv.1).Nodup) :
    (normalizeMap E entries).Pairwise keyLt ∧
    (normalizeMap E entries).Perm (entries.map fun kv => (NormalizeLabel E kv.1, kv.2)) := by
  have h := foldl_mapInsert (NormalizeLabel E) entries [] List.Pairwise.nil hnd
    (fun _ _ p hp => absurd hp (List.not_mem_nil p))
  rw [List.append_nil] at h
  exact h

/-- Two lists in key order with the same entries are the same list. -/
theorem eq_of_perm_of_keyLt (a b : StringMap) (hp : a.Perm b) (ha : a.Pairwise keyLt)
    (hb : b.Pairwise keyLt) : a = b := by
  haveI : IsAntisymm (String × String) keyLt :=
    ⟨fun x y h1 h2 => by
      have := ltChars_asymm _ _ h1
      rw [keyLt] at h2
      rw [h2] at this
      exact absurd this (by decide)⟩
  exact List.eq_of_perm_of_sorted hp ha hb

/-- The normalized map of entries with distinct normalized keys is the same for
every order of the entries. -/
theorem normalizeMap_perm (E : NormalizeEnv) (e1 e2 : List (String × String))
    (hp : e1.Perm e2) (hnd : (e1.map fun kv => NormalizeLabel E kv.1).Nodup) :
    normalizeMap E e1 = normalizeMap E e2 := by
  have hnd2 : (e2.map fun kv => NormalizeLabel E kv.1).Nodup :=
    (hp.map _).nodup_iff.1 hnd
  obtain ⟨s1, p1⟩ := normalizeMap_sorted_perm E e1 hnd
  obtain ⟨s2, p2⟩ := normalizeMap_sorted_perm E e2 hnd2
  exact eq_of_perm_of_keyLt _ _ (p1.trans ((hp.map _).trans p2.symm)) s1 s2

/-- On a cursor whose first row scans, the consumer reads the label string of the
normalized map of the row and its hash. -/
theorem firstRowLabels_ok (E : DecodeEnv) (s : ScannedRow)
    (rest : List (Except String ScannedRow)) (t : Option String) :
    firstRowLabels E (Rows.ofList (.ok s :: rest) t) =
      .ok (labelsString E (normalizeMap E.norm s.labelMap),
        hashLabels (labelsString E (normalizeMap E.norm s.labelMap))) := by
  simp [firstRowLabels, newRowEntryIterator, Rows.ofList, rowEntryIterator.Next, Rows.Next,
    rowEntryIterator.callCurrentRow, rowEntryIterator.readFromDB, Rows.Scan, decodeRow,
    rowEntryIterator.Labels, rowEntryIterator.StreamHash]

/-! ## The bytes of a string -/

theorem uint8_toNat_or (a b : UInt8) : (a ||| b).toNat = a.toNat ||| b.toNat :=
  BitVec.toNat_or ..

theorem uint32_toNat_shiftRight (v s : UInt32) :
    (v >>> s).toNat = v.toNat >>> (s.toNat % 32) := by
  show (v.toBitVec >>> (UInt32.mod s 32).toBitVec.toNat).toNat = _
  rw [BitVec.toNat_ushiftRight]
  rfl

theorem uint32_toUInt8_toNat (v : UInt32) : v.toUInt8.toNat = v.toNat % 256 := by
  show (BitVec.ofNat 8 v.toNat).toNat = _
  rw [BitVec.toNat_ofNat]

theorem lead2 : ∀ m, m < 256 → (m &&& 0x1f) ||| 0xc0 = 0xC0 + m % 32 := by decide

theorem lead3 : ∀ m, m < 256 → (m &&& 0x0f) ||| 0xe0 = 0xE0 + m % 16 := by decide

theorem lead4 : ∀ m, m < 256 → (m &&& 0x07) ||| 0xf0 = 0xF0 + m % 8 := by decide

theorem cont : ∀ m, m < 256 → (m &&& 0x3f) ||| 0x80 = 0x80 + m % 64 := by decide

theorem encoded_last_byte (v : UInt32) (mask mark : UInt8) :
    (v.toUInt8 &&& mask ||| mark).toNat = (v.toNat % 256 &&& mask.toNat) ||| mark.toNat := by
  rw [uint8_toNat_or, UInt8.and_toNat, uint32_toUInt8_toNat]

/-- The bytes `utf8Bytes` gives are the bytes of the UTF-8 encoder of the Lean
library. -/
theorem utf8Bytes_eq_encode (c : Char) :
    utf8Bytes c = (String.utf8EncodeChar c).map UInt8.toNat := by
  have hle : ∀ k : UInt32, c.val ≤ k ↔ c.toNat ≤ k.toNat := fun _ => Iff.rfl
  have hv : c.val.toNat = c.toNat := rfl
  have hlt : c.toNat < 0x110000 := by
    rcases c.valid with h | h
    · exact Nat.lt_trans h (by decide)
    · exact h.2
  unfold String.utf8EncodeChar utf8Bytes
  simp only [hle]
  have k1 : (0x7f : UInt32).toNat = 0x7f := rfl
  have k2 : (0x7ff : UInt32).toNat = 0x7ff := rfl
  have k3 : (0xffff : UInt32).toNat = 0xffff := rfl
  rw [k1, k2, k3]
  by_cases h1 : c.toNat ≤ 0x7f
  · have h1' : c.toNat < 0x80 := by omega
    simp only [h1, h1', if_true, List.map_cons, List.map_nil, uint32_toUInt8_toNat, hv]
    congr 1
    omega
  · have h1' : ¬ c.toNat < 0x80 := by omega
    simp only [h1, h1', if_false]
    by_cases h2 : c.toNat ≤ 0x7ff
    · have h2' : c.toNat < 0x800 := by omega
      simp only [h2, h2', if_true, List.map_cons, List.map_nil, encoded_last_byte,
        uint32_toNat_shiftRight, Nat.shiftRight_eq_div_pow, hv]
      have e1 := lead2 (c.toNat / 2 ^ 6 % 256) (Nat.mod_lt _ (by decide))
      have e2 := cont (c.toNat % 256) (Nat.mod_lt _ (by decide))
      have a1 : c.toNat / 2 ^ 6 % 256 % 32 = c.toNat / 64 := by omega
      have a2 : c.toNat % 256 % 64 = c.toNat % 64 := by omega
      rw [a1] at e1
      rw [a2] at e2
      exact congrArg₂ (fun x y => [x, y]) e1.symm e2.symm
    · have h2' : ¬ c.toNat < 0x800 := by omega
      simp only [h2, h2', if_false]
      have e0 := cont (c.toNat % 256) (Nat.mod_lt _ (by decide))
      have a0 : c.toNat % 256 % 64 = c.toNat % 64 := by omega
      rw [a0] at e0
      have e6 := cont (c.toNat / 2 ^ 6 % 256) (Nat.mod_lt _ (by decide))
      have a6 : c.toNat / 2 ^ 6 % 256 % 64 = c.toNat / 64 % 64 := by omega
      rw [a6] at e6
      by_cases h3 : c.toNat ≤ 0xffff
      · have h3' : c.toNat < 0x10000 := by omega
        simp only [h3, h3', if_true, List.map_cons, List.map_nil, encoded_last_byte,
          uint32_toNat_shiftRight, Nat.shiftRight_eq_div_pow, hv]
        have e12 := lead3 (c.toNat / 2 ^ 12 % 256) (Nat.mod_lt _ (by decide))
        have a12 : c.toNat / 2 ^ 12 % 256 % 16 = c.toNat / 4096 := by omega
        rw [a12] at e12
        exact congrArg₂ (fun x l => x :: l) e12.symm
          (congrArg₂ (fun x y => [x, y]) e6.symm e0.symm)
      · have h3' : ¬ c.toNat < 0x10000 := by omega
        simp only [h3, h3', if_false, List.map_cons, List.map_nil, encoded_last_byte,
          uint32_toNat_shiftRight, Nat.shiftRight_eq_div_pow, hv]
        have e18 := lead4 (c.toNat / 2 ^ 18 % 256) (Nat.mod_lt _ (by decide))
        have a18 : c.toNat / 2 ^ 18 % 256 % 8 = c.toNat / 262144 := by omega
        rw [a18] at e18
        have e12 := cont (c.toNat / 2 ^ 12 % 256) (Nat.mod_lt _ (by decide))
        have a12 : c.toNat / 2 ^ 12 % 256 % 64 = c.toNat / 4096 % 64 := by omega
        rw [a12] at e12
        exact congrArg₂ (fun x l => x :: l) e18.symm
          (congrArg₂ (fun x l => x :: l) e12.symm
            (congrArg₂ (fun x y => [x, y]) e6.symm e0.symm))

/-- The bytes `hashLabels` reads are the UTF-8 bytes of the string, `[]byte(lbs)`. -/
theorem flatMap_utf8Bytes (s : String) :
    s.data.flatMap utf8Bytes = s.toUTF8.data.toList.map UInt8.toNat := by
  show _ = (s.data.flatMap String.utf8EncodeChar).map UInt8.toNat
  induction s.data with
  | nil => rfl
  | cons c cs ih =>
    simp only [List.flatMap_cons, List.map_append, ih, utf8Bytes_eq_encode]

/-! ## The claims -/

/-- C1: for every matcher built with a non-empty value and one of the four
recognised operators, `AcceptMatcher` appends exactly one `WHERE` predicate and
two positional arguments, the denormalized name and the value. The predicate looks
up the key placeholder in the `ResourceAttributes` column and compares it with the
value placeholder by `=`, `!=`, `match` or `NOT (match ...)`. -/
theorem AcceptMatcher_adds_one_predicate (b : SelectBuilder) (t : MatchType) (n v : String)
    (hv : v ≠ "") (ht : recognized t) :
    AcceptMatcher b (NewMatcher t n v) =
        .ok (b.extend [matcherPredicate SelectBuilder.placeholder t b.args.length]
          [denormalizeLabel n, v]) ∧
      matcherPredicate SelectBuilder.placeholder t b.args.length =
        comparison t
          ("arrayElement(`ResourceAttributes`, " ++ SelectBuilder.placeholder b.args.length ++ ")")
          (SelectBuilder.placeholder (b.args.length + 1)) ∧
      (∀ key ph, comparison MatchEqual key ph = key ++ " = " ++ ph) ∧
      (∀ key ph, comparison MatchNotEqual key ph = key ++ " != " ++ ph) ∧
      (∀ key ph, comparison MatchRegexp key ph = "match(" ++ key ++ ", " ++ ph ++ ")") ∧
      (∀ key ph, comparison MatchNotRegexp key ph =
        "NOT (" ++ comparison MatchRegexp key ph ++ ")") := by
  have hd : ¬ (NewMatcher t n v).dropped := fun h => hv h.1
  have hp : (NewMatcher t n v).param = v := by
    unfold Matcher.param NewMatcher Matcher.GetRegexString
    rcases ht with h | h | h | h <;> subst h <;>
      simp [MatchEqual, MatchNotEqual, MatchRegexp, MatchNotRegexp]
  have h1 := AcceptMatcher_recognized b (NewMatcher t n v) hd ht
  rw [hp] at h1
  exact ⟨h1, rfl, fun _ _ => rfl, fun _ _ => rfl, fun _ _ => rfl, fun _ _ => rfl⟩

/-- C1 at the matcher `service_name = "api"`: the predicate compares the map lookup
of argument `$0`, the key `service.name`, with argument `$1`, the value `api`; in
the statement of the log selection query both are `?` parameters. -/
theorem AcceptMatcher_adds_one_predicate_witness :
    "api" ≠ "" ∧ recognized MatchEqual ∧
    AcceptMatcher SelectBuilder.new (NewMatcher MatchEqual "service_name" "api") =
      .ok (SelectBuilder.new.extend ["arrayElement(`ResourceAttributes`, $0) = $1"]
        ["service.name", "api"]) ∧
    SelectLogsQuery exampleEnv [.matchersExpr [NewMatcher MatchEqual "service_name" "api"]]
        1000 2000 100 FORWARD =
      .ok ("SELECT `Timestamp`, `Body`, `ResourceAttributes` FROM `otel`.`logs` WHERE `Timestamp` >= fromUnixTimestamp64Milli(1000) AND `Timestamp` <= fromUnixTimestamp64Milli(2000) AND arrayElement(`ResourceAttributes`, ?) = ? ORDER BY `Timestamp` ASC LIMIT 100",
        ["service.name", "api"]) :=
  ⟨by decide, by decide,
    (AcceptMatcher_adds_one_predicate SelectBuilder.new MatchEqual "service_name" "api"
      (by decide) (by decide)).1, rfl⟩

/-- C2: a matcher with an empty value and an empty regex string leaves the builder
unchanged, whatever its operator, so the log selection query and the series query
return the same result with the matcher present as with it removed. -/
theorem AcceptMatcher_empty_is_noop (m : Matcher) (hv : m.Value = "")
    (hr : m.GetRegexString = "") :
    (∀ b, AcceptMatcher b m = .ok b) ∧
    (∀ o pre ms1 ms2 post start end_ limit direction,
      SelectLogsQuery o (pre ++ .matchersExpr (ms1 ++ m :: ms2) :: post) start end_ limit
          direction =
        SelectLogsQuery o (pre ++ .matchersExpr (ms1 ++ ms2) :: post) start end_ limit
          direction) ∧
    (∀ o gs1 g1 g2 gs2 start end_,
      SeriesQuery o (gs1 ++ (g1 ++ m :: g2) :: gs2) start end_ =
        SeriesQuery o (gs1 ++ (g1 ++ g2) :: gs2) start end_) := by
  have h0 : ∀ b, AcceptMatcher b m = .ok b := fun b => AcceptMatcher_dropped b m ⟨hv, hr⟩
  have h1 : ∀ (ms1 ms2 : List Matcher) b,
      (ms1 ++ m :: ms2).foldlM AcceptMatcher b = (ms1 ++ ms2).foldlM AcceptMatcher b :=
    fun ms1 ms2 b => foldlM_skip AcceptMatcher m h0 ms1 ms2 b
  refine ⟨h0, ?_, ?_⟩
  · intro o pre ms1 ms2 post start end_ limit direction
    simp only [SelectLogsQuery, selectLogsBuilder, AcceptLogSelectorExpr]
    rw [foldlM_congr_mid acceptNode (.matchersExpr (ms1 ++ m :: ms2))
      (.matchersExpr (ms1 ++ ms2)) (fun b => h1 ms1 ms2 b)]
  · intro o gs1 g1 g2 gs2 start end_
    simp only [SeriesQuery, seriesBuilder]
    rw [foldlM_congr_mid (fun b group => List.foldlM AcceptMatcher b group) (g1 ++ m :: g2)
      (g1 ++ g2) (fun b => h1 g1 g2 b)]

/-- C2 at a matcher with operator 7 and empty strings. -/
theorem AcceptMatcher_empty_is_noop_witness :
    AcceptMatcher SelectBuilder.new (NewMatcher 7 "app" "") = .ok SelectBuilder.new :=
  (AcceptMatcher_empty_is_noop (NewMatcher 7 "app" "") rfl rfl).1 SelectBuilder.new

/-- C3, as the code has it: a matcher whose operator is none of the four recognised
kinds and whose value and regex string are both empty is dropped without a panic,
and the series query over it returns a statement. -/
theorem unrecognized_empty_matcher_is_dropped :
    ¬ recognized (NewMatcher 7 "app" "").Type_ ∧
    AcceptMatcher SelectBuilder.new (NewMatcher 7 "app" "") = .ok SelectBuilder.new ∧
    SeriesQuery exampleEnv [[NewMatcher 7 "app" ""]] 1000 2000 =
      .ok ("SELECT DISTINCT `ResourceAttributes` FROM `otel`.`logs` WHERE `Timestamp` >= fromUnixTimestamp64Milli(1000) AND `Timestamp` <= fromUnixTimestamp64Milli(2000)",
        []) :=
  ⟨by decide, by decide, rfl⟩

/-- C3 amended: a matcher whose operator is none of the four recognised kinds and
whose value or regex string is not empty makes `AcceptMatcher` panic, and with it
the log selection query over any selector and the series query over any groups
that contain the matcher. -/
theorem unrecognized_matcher_panics (m : Matcher) (ht : ¬ recognized m.Type_)
    (hd : m.Value ≠ "" ∨ m.GetRegexString ≠ "") :
    (∀ b, AcceptMatcher b m = .error "invalid match type") ∧
    (∀ o expr mts start end_ limit direction, Node.matchersExpr mts ∈ expr → m ∈ mts →
      SelectLogsQuery o expr start end_ limit direction = .error "invalid match type") ∧
    (∀ o groups group start end_, group ∈ groups → m ∈ group →
      SeriesQuery o groups start end_ = .error "invalid match type") := by
  have hnd : ¬ m.dropped := by
    intro h
    rcases hd with h1 | h1
    · exact h1 h.1
    · exact h1 h.2
  have h0 : ∀ b, AcceptMatcher b m = .error "invalid match type" :=
    fun b => AcceptMatcher_unrecognized b m hnd ht
  have h1 : ∀ (ms : List Matcher), m ∈ ms → ∀ b,
      ms.foldlM AcceptMatcher b = .error "invalid match type" :=
    fun ms hm b => foldlM_error_of_mem AcceptMatcher m _
      (fun b y e h => AcceptMatcher_error_msg b y e h) h0 ms hm b
  refine ⟨h0, ?_, ?_⟩
  · intro o expr mts start end_ limit direction hn hm
    simp only [SelectLogsQuery, selectLogsBuilder, AcceptLogSelectorExpr]
    rw [foldlM_error_of_mem acceptNode (.matchersExpr mts) _
      (fun b y e h => acceptNode_error_msg b y e h) (fun b => h1 mts hm b) expr hn]
    rfl
  · intro o groups group start end_ hg hm
    simp only [SeriesQuery, seriesBuilder]
    rw [foldlM_error_of_mem (fun b g => List.foldlM AcceptMatcher b g) group _
      (fun b y e h => foldlM_error_msg AcceptMatcher _ AcceptMatcher_error_msg y b e h)
      (fun b => h1 group hm b) groups hg]
    rfl

/-- C3 amended, at the matcher with operator 7 and value `x`. -/
theorem unrecognized_matcher_panics_witness :
    ¬ recognized (NewMatcher 7 "app" "x").Type_ ∧
    AcceptMatcher SelectBuilder.new (NewMatcher 7 "app" "x") = .error "invalid match type" :=
  ⟨by decide,
    (unrecognized_matcher_panics (NewMatcher 7 "app" "x") (by decide)
      (Or.inl (by decide))).1 SelectBuilder.new⟩

/-- C4, as the code has it: the time bounds are printed into the SQL text and are
no positional arguments. Two log selection queries that differ only in the start
time return different texts and the same, empty, argument list. -/
theorem time_bounds_are_in_the_text :
    SelectLogsQuery exampleEnv [] 1 5 10 FORWARD =
      .ok ("SELECT `Timestamp`, `Body`, `ResourceAttributes` FROM `otel`.`logs` WHERE `Timestamp` >= fromUnixTimestamp64Milli(1) AND `Timestamp` <= fromUnixTimestamp64Milli(5) ORDER BY `Timestamp` ASC LIMIT 10",
        []) ∧
    SelectLogsQuery exampleEnv [] 2 5 10 FORWARD =
      .ok ("SELECT `Timestamp`, `Body`, `ResourceAttributes` FROM `otel`.`logs` WHERE `Timestamp` >= fromUnixTimestamp64Milli(2) AND `Timestamp` <= fromUnixTimestamp64Milli(5) ORDER BY `Timestamp` ASC LIMIT 10",
        []) ∧
    (SelectLogsQuery exampleEnv [] 1 5 10 FORWARD).map Prod.fst ≠
      (SelectLogsQuery exampleEnv [] 2 5 10 FORWARD).map Prod.fst :=
  ⟨rfl, rfl, by decide⟩

/-- C4 amended: label names, matcher values that are not empty and line-filter
patterns that are not empty are carried in the positional arguments and do not
show in the SQL text. For a table name without `$` and a selector or groups that
do not panic, the text is written with `?` for every such string and the
arguments are these strings in order; two calls with the same time bounds, limit
and direction that differ only in such strings return the same text, or panic
both. The time bounds stand in the text as decimal millisecond counts. -/
theorem strings_are_arguments (o : otelEnvironmentImpl) (ho : '$' ∉ o.tableName.data)
    (start end_ : Int) :
    (∀ expr limit direction, selectorRecognized expr →
      SelectLogsQuery o expr start end_ limit direction =
        .ok (selectLogsText o (selectorWhere questionMark 0 expr) start end_ limit direction,
          selectorArgs expr)) ∧
    (∀ e1 e2 limit direction, sameShape e1 e2 = true →
      (SelectLogsQuery o e1 start end_ limit direction).map Prod.fst =
        (SelectLogsQuery o e2 start end_ limit direction).map Prod.fst) ∧
    (∀ groups, matchersRecognized groups.flatten →
      SeriesQuery o groups start end_ =
        .ok (seriesText o (flatWhere questionMark 0 groups.flatten) start end_,
          flatArgs groups.flatten)) ∧
    (∀ g1 g2, sameShapeGroups g1 g2 = true →
      (SeriesQuery o g1 start end_).map Prod.fst = (SeriesQuery o g2 start end_).map Prod.fst) ∧
    (∀ name values s e,
      LabelQuery o name values s e =
        ("SELECT DISTINCT " ++
            (if values then "arrayElement(`ResourceAttributes`, ?)"
              else "arrayJoin(mapKeys(`ResourceAttributes`))")
            ++ " FROM " ++ o.tableName ++ whereClause (labelBounds s e),
          if values then [denormalizeLabel name] else [])) := by
  refine ⟨?_, ?_, ?_, ?_, ?_⟩
  · intro expr limit direction hr
    exact SelectLogsQuery_eq o ho expr hr start end_ limit direction
  · intro e1 e2 limit direction hs
    exact agreeResult_build _ _
      (foldlM_agree acceptNode sameShapeNode acceptNode_agree e1 e2 hs _ _ (agree_refl _))
  · intro groups hr
    exact SeriesQuery_eq o ho groups hr start end_
  · intro g1 g2 hs
    exact agreeResult_build _ _
      (foldlM_agree (fun b g => List.foldlM AcceptMatcher b g) (allPairs sameShapeMatcher)
        (fun b1 b2 x1 x2 hb hx =>
          foldlM_agree AcceptMatcher sameShapeMatcher AcceptMatcher_agree x1 x2 hx b1 b2 hb)
        g1 g2 hs _ _ (agree_refl _))
  · intro name values s e
    exact LabelQuery_eq o ho name values s e

/-- C4 amended, at the example environment: two selectors that differ in the label
name, the matcher value and the line-filter pattern have the same text. -/
theorem strings_are_arguments_witness :
    '$' ∉ exampleEnv.tableName.data ∧
    (SelectLogsQuery exampleEnv
        [.matchersExpr [NewMatcher MatchEqual "service_name" "api"],
          .lineFilterExpr MatchEqual "error"] 1000 2000 100 FORWARD).map Prod.fst =
      (SelectLogsQuery exampleEnv
        [.matchersExpr [NewMatcher MatchEqual "env" "prod or 1"],
          .lineFilterExpr MatchEqual "%"] 1000 2000 100 FORWARD).map Prod.fst ∧
    SelectLogsQuery exampleEnv
        [.matchersExpr [NewMatcher MatchEqual "env" "prod or 1"],
          .lineFilterExpr MatchEqual "%"] 1000 2000 100 FORWARD =
      .ok ("SELECT `Timestamp`, `Body`, `ResourceAttributes` FROM `otel`.`logs` WHERE `Timestamp` >= fromUnixTimestamp64Milli(1000) AND `Timestamp` <= fromUnixTimestamp64Milli(2000) AND arrayElement(`ResourceAttributes`, ?) = ? AND Body LIKE ? ORDER BY `Timestamp` ASC LIMIT 100",
        ["env", "prod or 1", "%%%"]) :=
  ⟨by decide,
    (strings_are_arguments exampleEnv (by decide) 1000 2000).2.1 _ _ 100 FORWARD (by decide),
    rfl⟩

/-- C5: the key of a map lookup is a positional argument and is not written into
the SQL text. For a table name without `$`, the label-values query has the same
text for every two label names and its arguments are the denormalized name alone;
two matchers that differ only in their name give the same `WHERE` expressions and
the same built text, and the series query over one translated matcher has a text
with `?` for the key and the arguments denormalized name, compared value. -/
theorem label_key_is_an_argument (o : otelEnvironmentImpl) (ho : '$' ∉ o.tableName.data) :
    (∀ n1 n2 s e, (LabelQuery o n1 true s e).1 = (LabelQuery o n2 true s e).1) ∧
    (∀ n s e, (LabelQuery o n true s e).2 = [denormalizeLabel n]) ∧
    (∀ b m1 m2, m1.Type_ = m2.Type_ → m1.Value = m2.Value → m1.re = m2.re →
      (AcceptMatcher b m1).map (fun r => (r.whereExprs, r.Build.1)) =
        (AcceptMatcher b m2).map (fun r => (r.whereExprs, r.Build.1))) ∧
    (∀ m start end_, ¬ m.dropped → recognized m.Type_ →
      SeriesQuery o [[m]] start end_ =
        .ok (seriesText o [matcherPredicate questionMark m.Type_ 0] start end_,
          [denormalizeLabel m.Name, m.param])) := by
  refine ⟨?_, ?_, ?_, ?_⟩
  · intro n1 n2 s e
    rw [LabelQuery_eq o ho, LabelQuery_eq o ho]
  · intro n s e
    rw [LabelQuery_eq o ho]
    rfl
  · intro b m1 m2 ht hv hre
    have hd : m1.dropped ↔ m2.dropped := by
      unfold Matcher.dropped Matcher.GetRegexString
      rw [hv, hre]
    have hs : sameShapeMatcher m1 m2 = true := by
      simp only [sameShapeMatcher, Bool.and_eq_true, decide_eq_true_eq]
      exact ⟨ht, hd⟩
    have ha := AcceptMatcher_agree b b m1 m2 (agree_refl b) hs
    cases h1 : AcceptMatcher b m1 with
    | error e1 =>
      cases h2 : AcceptMatcher b m2 with
      | error e2 =>
        rw [h1, h2] at ha
        simp only [agreeResult] at ha
        rw [ha]
      | ok b2 => rw [h1, h2] at ha; exact absurd ha (by simp [agreeResult])
    | ok b1 =>
      cases h2 : AcceptMatcher b m2 with
      | error e2 => rw [h1, h2] at ha; exact absurd ha (by simp [agreeResult])
      | ok b2 =>
        rw [h1, h2] at ha
        simp only [agreeResult] at ha
        simp only [Except.map, agree_build b1 b2 ha, ha.2.2.2.1]
  · intro m start end_ hd hr
    have hrec : matchersRecognized [[m]].flatten := by
      intro x hx _
      have : x = m := by simpa using hx
      rw [this]; exact hr
    rw [SeriesQuery_eq o ho [[m]] hrec]
    simp [flatWhere, flatArgs, hd]

/-- C5 at the example environment and the label names `env` and `service_name`. -/
theorem label_key_is_an_argument_witness :
    '$' ∉ exampleEnv.tableName.data ∧
    (LabelQuery exampleEnv "env" true none none).1 =
      (LabelQuery exampleEnv "service_name" true none none).1 ∧
    LabelQuery exampleEnv "service_name" true none none =
      ("SELECT DISTINCT arrayElement(`ResourceAttributes`, ?) FROM `otel`.`logs`",
        ["service.name"]) :=
  ⟨by decide,
    (label_key_is_an_argument exampleEnv (by decide)).1 "env" "service_name" none none, rfl⟩

/-- C6: the log selection query and the series query end either in the panic of
an unrecognised matcher or in a statement whose `WHERE` list starts with the lower
bound on `start` and the upper bound on `end_`, both printed as Unix-millisecond
counts and both present in the SQL text they return, whatever the selector or the
groups are; they do return a statement when every translated matcher has a
recognised operator, and for a table name without `$` that statement is the text
with the two bounds first in its `WHERE` clause. The label query holds exactly one
predicate per bound that is present, and none when both are absent. -/
theorem time_range_predicates (o : otelEnvironmentImpl) (start end_ : Int) :
    (∀ expr limit direction,
      (SelectLogsQuery o expr start end_ limit direction = .error "invalid match type" ∨
        ∃ b w, selectLogsBuilder o expr start end_ limit direction = .ok b ∧
          b.whereExprs = lowerBound start :: upperBound end_ :: w ∧
          ∃ text args T1 T2,
            SelectLogsQuery o expr start end_ limit direction = .ok (text, args) ∧
            text = T1 ++ " WHERE " ++ lowerBound start ++ " AND " ++ upperBound end_ ++ T2) ∧
      (selectorRecognized expr →
        ∃ q, SelectLogsQuery o expr start end_ limit direction = .ok q) ∧
      ('$' ∉ o.tableName.data → selectorRecognized expr →
        SelectLogsQuery o expr start end_ limit direction =
          .ok ("SELECT `Timestamp`, `Body`, `ResourceAttributes` FROM " ++ o.tableName ++
              " WHERE " ++ " AND ".intercalate
                (lowerBound start :: upperBound end_ :: selectorWhere questionMark 0 expr) ++
              " ORDER BY " ++ orderByOf direction ++ " LIMIT " ++ toString limit,
            selectorArgs expr))) ∧
    (∀ groups,
      (SeriesQuery o groups start end_ = .error "invalid match type" ∨
        ∃ b w, seriesBuilder o groups start end_ = .ok b ∧
          b.whereExprs = lowerBound start :: upperBound end_ :: w ∧
          ∃ text args T1 T2, SeriesQuery o groups start end_ = .ok (text, args) ∧
            text = T1 ++ " WHERE " ++ lowerBound start ++ " AND " ++ upperBound end_ ++ T2) ∧
      (matchersRecognized groups.flatten →
        ∃ q, SeriesQuery o groups start end_ = .ok q) ∧
      ('$' ∉ o.tableName.data → matchersRecognized groups.flatten →
        SeriesQuery o groups start end_ =
          .ok ("SELECT DISTINCT `ResourceAttributes` FROM " ++ o.tableName ++ " WHERE " ++
              " AND ".intercalate
                (lowerBound start :: upperBound end_ :: flatWhere questionMark 0 groups.flatten),
            flatArgs groups.flatten))) ∧
    (∀ name values s e,
      (labelBuilder o name values s e).whereExprs = labelBounds s e ∧
      LabelQuery o name values s e = (labelBuilder o name values s e).Build ∧
      ('$' ∉ o.tableName.data →
        LabelQuery o name values s e =
          ("SELECT DISTINCT " ++
              (if values then "arrayElement(`ResourceAttributes`, ?)"
                else "arrayJoin(mapKeys(`ResourceAttributes`))")
              ++ " FROM " ++ o.tableName ++ whereClause (labelBounds s e),
            if values then [denormalizeLabel name] else []))) ∧
    labelBounds none none = [] ∧
    labelBounds (some start) none = [lowerBound start] ∧
    labelBounds none (some end_) = [upperBound end_] ∧
    labelBounds (some start) (some end_) = [lowerBound start, upperBound end_] ∧
    whereClause [] = "" ∧
    whereClause [lowerBound start] = " WHERE " ++ lowerBound start ∧
    whereClause [upperBound end_] = " WHERE " ++ upperBound end_ ∧
    whereClause [lowerBound start, upperBound end_] =
      " WHERE " ++ lowerBound start ++ " AND " ++ upperBound end_ ∧
    lowerBound start = "`Timestamp` >= fromUnixTimestamp64Milli(" ++ toString start ++ ")" ∧
    upperBound end_ = "`Timestamp` <= fromUnixTimestamp64Milli(" ++ toString end_ ++ ")" := by
  refine ⟨?_, ?_, ?_, rfl, rfl, rfl, rfl, rfl, ?_, ?_, ?_, rfl, rfl⟩
  · intro expr limit direction
    refine ⟨?_, ?_, ?_⟩
    · rcases selectLogsBuilder_cases o expr start end_ limit direction with h | ⟨w, a, h⟩
      · exact Or.inl (by simp only [SelectLogsQuery, h, Except.map])
      · obtain ⟨T1, T2, hT⟩ := build_where_two
          ((selectLogsInit o start end_ limit direction).extend w a)
          (selectLogsInit_selectCols o start end_ limit direction w a)
          _ _ w rfl (lowerBound_no_dollar start) (upperBound_no_dollar end_)
        have hq : SelectLogsQuery o expr start end_ limit direction =
            .ok ((selectLogsInit o start end_ limit direction).extend w a).Build := by
          simp only [SelectLogsQuery, h, Except.map]
        generalize ((selectLogsInit o start end_ limit direction).extend w a).Build = q
          at hq hT
        obtain ⟨text, args⟩ := q
        exact Or.inr ⟨_, w, h, rfl, text, args, T1, T2, hq, hT⟩
    · intro hm
      have hb := AcceptLogSelectorExpr_ok expr hm (selectLogsInit o start end_ limit direction)
      exact ⟨SelectBuilder.Build ((selectLogsInit o start end_ limit direction).extend
        (selectorWhere SelectBuilder.placeholder
          (selectLogsInit o start end_ limit direction).args.length expr) (selectorArgs expr)),
        by simp only [SelectLogsQuery, selectLogsBuilder, hb, Except.map]⟩
    · intro ho hm
      rw [SelectLogsQuery_eq o ho expr hm]
      rfl
  · intro groups
    refine ⟨?_, ?_, ?_⟩
    · rcases seriesBuilder_cases o groups start end_ with h | ⟨w, a, h⟩
      · exact Or.inl (by simp only [SeriesQuery, h, Except.map])
      · obtain ⟨T1, T2, hT⟩ := build_where_two ((seriesInit o start end_).extend w a)
          (by simp [seriesInit, SelectBuilder.extend, SelectBuilder.Where,
            SelectBuilder.Select]) _ _ w rfl (lowerBound_no_dollar start)
          (upperBound_no_dollar end_)
        have hq : SeriesQuery o groups start end_ =
            .ok ((seriesInit o start end_).extend w a).Build := by
          simp only [SeriesQuery, h, Except.map]
        generalize ((seriesInit o start end_).extend w a).Build = q at hq hT
        obtain ⟨text, args⟩ := q
        exact Or.inr ⟨_, w, h, rfl, text, args, T1, T2, hq, hT⟩
    · intro hm
      have hb : seriesBuilder o groups start end_ = .ok ((seriesInit o start end_).extend
          (flatWhere SelectBuilder.placeholder (seriesInit o start end_).args.length
            groups.flatten) (flatArgs groups.flatten)) := by
        rw [seriesBuilder, foldlM_join, AcceptMatchers_ok _ _ hm]
      exact ⟨SelectBuilder.Build ((seriesInit o start end_).extend
          (flatWhere SelectBuilder.placeholder (seriesInit o start end_).args.length
            groups.flatten) (flatArgs groups.flatten)),
        by simp only [SeriesQuery, hb, Except.map]⟩
    · intro ho hm
      rw [SeriesQuery_eq o ho groups hm]
      rfl
  · intro name values s e
    exact ⟨labelBuilder_whereExprs o name values s e, rfl,
      fun ho => LabelQuery_eq o ho name values s e⟩
  · simp [whereClause]
    rfl
  · simp [whereClause]
    rfl
  · simp only [whereClause, ne_eq, reduceCtorEq, not_false_eq_true, if_true,
      String.intercalate, String.intercalate.go, String.append_assoc]

/-- C6 at the example environment: the log selection query and the series query
hold both bounds, the label query without bounds has no `WHERE` clause, and with
both bounds it has the two predicates. -/
theorem time_range_predicates_witness :
    '$' ∉ exampleEnv.tableName.data ∧
    selectorRecognized [.matchersExpr [NewMatcher MatchEqual "service_name" "api"]] ∧
    SelectLogsQuery exampleEnv [.matchersExpr [NewMatcher MatchEqual "service_name" "api"]]
        1000 2000 100 FORWARD =
      .ok ("SELECT `Timestamp`, `Body`, `ResourceAttributes` FROM `otel`.`logs` WHERE `Timestamp` >= fromUnixTimestamp64Milli(1000) AND `Timestamp` <= fromUnixTimestamp64Milli(2000) AND arrayElement(`ResourceAttributes`, ?) = ? ORDER BY `Timestamp` ASC LIMIT 100",
        ["service.name", "api"]) ∧
    SeriesQuery exampleEnv [] 1000 2000 =
      .ok ("SELECT DISTINCT `ResourceAttributes` FROM `otel`.`logs` WHERE `Timestamp` >= fromUnixTimestamp64Milli(1000) AND `Timestamp` <= fromUnixTimestamp64Milli(2000)",
        []) ∧
    LabelQuery exampleEnv "env" true none none =
      ("SELECT DISTINCT arrayElement(`ResourceAttributes`, ?) FROM `otel`.`logs`", ["env"]) ∧
    LabelQuery exampleEnv "env" false (some 5) (some (-7)) =
      ("SELECT DISTINCT arrayJoin(mapKeys(`ResourceAttributes`)) FROM `otel`.`logs` WHERE `Timestamp` >= fromUnixTimestamp64Milli(5) AND `Timestamp` <= fromUnixTimestamp64Milli(-7)",
        []) :=
  ⟨by decide, by decide,
    (((time_range_predicates exampleEnv 1000 2000).1
      [.matchersExpr [NewMatcher MatchEqual "service_name" "api"]] 100 FORWARD).2.2
        (by decide) (by decide)).trans (by decide),
    (((time_range_predicates exampleEnv 1000 2000).2.1 []).2.2
        (by decide) (by decide)).trans (by decide),
    (((time_range_predicates exampleEnv 0 0).2.2.1 "env" true none none).2.2
        (by decide)).trans (by decide),
    by decide⟩

/-- C7: whenever the log selection query returns a statement, it is built with
the timestamp column as its one ordering column, with suffix `DESC` for `BACKWARD`,
`ASC` for `FORWARD` and no suffix for any other direction, and with the given
limit, and the text it returns ends with these two clauses; they are the same for
every selector. -/
theorem order_and_limit (o : otelEnvironmentImpl) (expr : LogSelectorExpr) (start end_ : Int)
    (limit : Nat) (direction : Direction) (q : String × List String)
    (h : SelectLogsQuery o expr start end_ limit direction = .ok q) :
    (∃ b, selectLogsBuilder o expr start end_ limit direction = .ok b ∧ q = b.Build ∧
      b.orderByCols = [orderByOf direction] ∧ b.limit = (limit : Int)) ∧
    (∃ T : String, q.1 =
      T ++ " ORDER BY " ++ orderByOf direction ++ " LIMIT " ++ toString limit) ∧
    orderByOf BACKWARD = "`Timestamp` DESC" ∧ orderByOf FORWARD = "`Timestamp` ASC" ∧
    (direction ≠ BACKWARD → direction ≠ FORWARD → orderByOf direction = "`Timestamp`") := by
  have hq : ∃ b, selectLogsBuilder o expr start end_ limit direction = .ok b ∧ q = b.Build := by
    simp only [SelectLogsQuery] at h
    cases hb : selectLogsBuilder o expr start end_ limit direction with
    | error e => rw [hb] at h; simp [Except.map] at h
    | ok b =>
      rw [hb] at h
      exact ⟨b, rfl, (Except.ok.inj h).symm⟩
  obtain ⟨b, hb, hqb⟩ := hq
  obtain ⟨w, a, hw⟩ := selectLogsBuilder_extends o expr start end_ limit direction b hb
  subst hw
  subst hqb
  refine ⟨⟨_, hb, rfl, rfl, rfl⟩, ?_, by decide, by decide, ?_⟩
  · exact build_order_limit _ (selectLogsInit_selectCols o start end_ limit direction w a)
      (orderByOf direction) rfl limit rfl (orderByOf_no_dollar direction)
  · intro h1 h2
    simp only [orderByOf, h1, h2, if_false]
    decide

/-- C7 at the selector `service_name = "api"`, limit 100, direction `BACKWARD`. -/
theorem order_and_limit_witness :
    SelectLogsQuery exampleEnv [.matchersExpr [NewMatcher MatchEqual "service_name" "api"]]
        1000 2000 100 BACKWARD =
      .ok ("SELECT `Timestamp`, `Body`, `ResourceAttributes` FROM `otel`.`logs` WHERE `Timestamp` >= fromUnixTimestamp64Milli(1000) AND `Timestamp` <= fromUnixTimestamp64Milli(2000) AND arrayElement(`ResourceAttributes`, ?) = ? ORDER BY `Timestamp` DESC LIMIT 100",
        ["service.name", "api"]) ∧
    ∃ T : String,
      "SELECT `Timestamp`, `Body`, `ResourceAttributes` FROM `otel`.`logs` WHERE `Timestamp` >= fromUnixTimestamp64Milli(1000) AND `Timestamp` <= fromUnixTimestamp64Milli(2000) AND arrayElement(`ResourceAttributes`, ?) = ? ORDER BY `Timestamp` DESC LIMIT 100" =
      T ++ " ORDER BY " ++ orderByOf BACKWARD ++ " LIMIT " ++ toString 100 :=
  ⟨by decide,
    (order_and_limit exampleEnv [.matchersExpr [NewMatcher MatchEqual "service_name" "api"]]
      1000 2000 100 BACKWARD
      ("SELECT `Timestamp`, `Body`, `ResourceAttributes` FROM `otel`.`logs` WHERE `Timestamp` >= fromUnixTimestamp64Milli(1000) AND `Timestamp` <= fromUnixTimestamp64Milli(2000) AND arrayElement(`ResourceAttributes`, ?) = ? ORDER BY `Timestamp` DESC LIMIT 100",
        ["service.name", "api"]) (by decide)).2.1⟩

/-- C8: the series query treats the groups as one flat list of matchers. It
returns the same result for the groups as for the single group of all their
matchers; when every translated matcher has a recognised operator, its `WHERE`
list is the two time-range predicates followed by one predicate per matcher that
is not dropped, in group order then matcher order, each matcher adding its
denormalized name and its compared value to the arguments; otherwise it panics. -/
theorem series_flat_and_chain (o : otelEnvironmentImpl) (groups : List (List Matcher))
    (start end_ : Int) :
    SeriesQuery o groups start end_ = SeriesQuery o [groups.flatten] start end_ ∧
    (matchersRecognized groups.flatten →
      seriesBuilder o groups start end_ =
        .ok ((seriesInit o start end_).extend
          (flatWhere SelectBuilder.placeholder 0 groups.flatten) (flatArgs groups.flatten)) ∧
      ((seriesInit o start end_).extend
          (flatWhere SelectBuilder.placeholder 0 groups.flatten)
          (flatArgs groups.flatten)).whereExprs =
        lowerBound start :: upperBound end_ ::
          flatWhere SelectBuilder.placeholder 0 groups.flatten ∧
      ('$' ∉ o.tableName.data →
        SeriesQuery o groups start end_ =
          .ok (seriesText o (flatWhere questionMark 0 groups.flatten) start end_,
            flatArgs groups.flatten))) ∧
    ((∃ m ∈ groups.flatten, ¬ m.dropped ∧ ¬ recognized m.Type_) →
      SeriesQuery o groups start end_ = .error "invalid match type") ∧
    (flatWhere SelectBuilder.placeholder 0 groups.flatten).length =
      (groups.flatten.filter fun m => decide (¬ m.dropped)).length := by
  have hj := seriesBuilder_flatten o groups start end_
  refine ⟨?_, ?_, ?_, flatWhere_length _ 0 _⟩
  · have h1 : seriesBuilder o [groups.flatten] start end_ =
        groups.flatten.foldlM AcceptMatcher (seriesInit o start end_) := by
      simp only [seriesBuilder]
      rw [foldlM_join]
      simp
    simp only [SeriesQuery]
    rw [hj, h1]
  · intro hm
    exact ⟨by rw [hj]; exact AcceptMatchers_ok _ _ hm, rfl,
      fun ho => SeriesQuery_eq o ho groups hm start end_⟩
  · rintro ⟨m, hmem, hd, hr⟩
    simp only [SeriesQuery]
    rw [hj, foldlM_error_of_mem AcceptMatcher m _
      (fun b y e h => AcceptMatcher_error_msg b y e h)
      (fun b => AcceptMatcher_unrecognized b m hd hr) _ hmem]
    rfl

/-- C8 at two groups, the second holding a dropped matcher. -/
theorem series_flat_and_chain_witness :
    seriesBuilder exampleEnv
        [[NewMatcher MatchEqual "service_name" "api"],
          [NewMatcher MatchNotRegexp "a_b" "x.*", NewMatcher MatchEqual "c" ""]] 1000 2000 =
      .ok ((seriesInit exampleEnv 1000 2000).extend
        ["arrayElement(`ResourceAttributes`, $0) = $1",
          "NOT (match(arrayElement(`ResourceAttributes`, $2), $3))"]
        ["service.name", "api", "a.b", "x.*"]) ∧
    SeriesQuery exampleEnv
        [[NewMatcher MatchEqual "service_name" "api"],
          [NewMatcher MatchNotRegexp "a_b" "x.*", NewMatcher MatchEqual "c" ""]] 1000 2000 =
      .ok ("SELECT DISTINCT `ResourceAttributes` FROM `otel`.`logs` WHERE `Timestamp` >= fromUnixTimestamp64Milli(1000) AND `Timestamp` <= fromUnixTimestamp64Milli(2000) AND arrayElement(`ResourceAttributes`, ?) = ? AND NOT (match(arrayElement(`ResourceAttributes`, ?), ?))",
        ["service.name", "api", "a.b", "x.*"]) :=
  ⟨((series_flat_and_chain exampleEnv
      [[NewMatcher MatchEqual "service_name" "api"],
        [NewMatcher MatchNotRegexp "a_b" "x.*", NewMatcher MatchEqual "c" ""]] 1000 2000).2.1
      (by decide)).1, rfl⟩

/-- C9: `denormalizeLabel` keeps the number of characters, puts `.` wherever the
name has `_`, keeps every other character in its place, and so its result holds
no underscore. -/
theorem denormalizeLabel_replaces_underscores (L : String) :
    (denormalizeLabel L).length = L.length ∧
    (∀ i c, L.data.get? i = some c →
      (denormalizeLabel L).data.get? i = some (if c = '_' then '.' else c)) ∧
    '_' ∉ (denormalizeLabel L).data := by
  refine ⟨?_, ?_, ?_⟩
  · simp only [denormalizeLabel, String.length, List.length_map]
  · intro i c h
    simp only [denormalizeLabel, List.get?_eq_getElem?, List.getElem?_map] at h ⊢
    rw [h]; rfl
  · simp only [denormalizeLabel, List.mem_map, not_exists, not_and]
    intro c _ h
    split_ifs at h with h1
    · exact absurd h (by decide)
    · exact h1 h

/-- C9 at the name `service_name`. -/
theorem denormalizeLabel_replaces_underscores_witness :
    denormalizeLabel "service_name" = "service.name" ∧
    (denormalizeLabel "service_name").data.get? 7 = some '.' :=
  ⟨by decide,
    (denormalizeLabel_replaces_underscores "service_name").2.1 7 '_' (by decide)⟩

/-- C10, as the code has it: a name of ASCII letters, digits and underscores that
begins with a digit comes back from `NormalizeLabel` behind the prefix `key_`, and
one that begins with a single underscore behind the prefix `key` (feature gate at
its default), so the round trip does not return the name. -/
theorem normalize_denormalize_adds_prefix :
    (∀ c ∈ "1abc".data, c.isAlphanum = true ∨ c = '_') ∧
    (¬ ∃ E, NormalizeLabel E (denormalizeLabel "1abc") = "1abc") ∧
    NormalizeLabel asciiNormalizeEnv (denormalizeLabel "1abc") = "key_1abc" ∧
    (∀ c ∈ "_tenant".data, c.isAlphanum = true ∨ c = '_') ∧
    NormalizeLabel asciiNormalizeEnv (denormalizeLabel "_tenant") = "key_tenant" := by
  refine ⟨by decide, ?_, by decide, by decide, by decide⟩
  rintro ⟨E, hE⟩
  have : NormalizeLabel E (denormalizeLabel "1abc") = "key_1abc" := rfl
  rw [this] at hE
  exact absurd hE (by decide)

/-- C10 amended: for a name `L` of ASCII letters, digits and underscores that does
not begin with a digit and does not begin with a single underscore (an underscore
that no second underscore follows, unless the sanitization feature gate is on),
`NormalizeLabel (denormalizeLabel L) = L`. -/
theorem normalize_denormalize_roundtrip (E : NormalizeEnv) (L : String)
    (hp : ∀ c ∈ L.data, c.isAlphanum = true ∨ c = '_')
    (hd : beginsWithDigit L = false)
    (hu : beginsWithSingleUnderscore L = false ∨ E.dropSanitizationGate = true) :
    NormalizeLabel E (denormalizeLabel L) = L := by
  rw [NormalizeLabel_denormalizeLabel E L hp]
  unfold beginsWithDigit at hd
  unfold beginsWithSingleUnderscore at hu
  cases hL : L.data with
  | nil => rfl
  | cons c cs =>
    rw [hL] at hd hu
    simp only at hd hu
    simp only [hd, Bool.false_eq_true, if_false]
    split_ifs with h2
    · exfalso
      obtain ⟨hc, hh, hg⟩ := h2
      rcases hu with h | h
      · simp only [decide_eq_false_iff_not] at h
        exact h ⟨hc, hh⟩
      · rw [hg] at h; exact absurd h (by decide)
    · rfl

/-- C10 amended, at the name `service_name`. -/
theorem normalize_denormalize_roundtrip_witness :
    NormalizeLabel asciiNormalizeEnv (denormalizeLabel "service_name") = "service_name" :=
  normalize_denormalize_roundtrip asciiNormalizeEnv "service_name" (by decide) (by decide)
    (Or.inl (by decide))

/-- C11: for a non-empty pattern `p`, an Equal line filter adds the predicate
`Body LIKE $i` and a NotEqual line filter the predicate `Body NOT LIKE $i`, both
with the argument `%p%`, the pattern as it is. For a pattern without `%`, `_` and
backslash the `LIKE` predicate holds for exactly the bodies `p` occurs in; the
pattern `a_c` makes it hold for the body `abc`, in which `a_c` does not occur. -/
theorem like_filter_reads_wildcards (b : SelectBuilder) (p : String) (hp : p ≠ "") :
    AcceptLineFilterExpr b MatchEqual p =
      b.extend ["Body LIKE " ++ SelectBuilder.placeholder b.args.length] ["%" ++ p ++ "%"] ∧
    AcceptLineFilterExpr b MatchNotEqual p =
      b.extend ["Body NOT LIKE " ++ SelectBuilder.placeholder b.args.length]
        ["%" ++ p ++ "%"] ∧
    ((∀ c ∈ p.data, c ≠ '%' ∧ c ≠ '_' ∧ c ≠ '\\') →
      ∀ body : String, likeMatch ("%" ++ p ++ "%").data body.data = true ↔ occursIn p body) ∧
    likeMatch ("%" ++ "a_c" ++ "%").data "abc".data = true ∧ ¬ occursIn "a_c" "abc" := by
  refine ⟨?_, ?_, fun h body => like_contains p body h, by decide, ?_⟩
  · rw [AcceptLineFilterExpr_eq]
    simp [lineFilterWhere, lineFilterArgs, hp, OtelLogMessageColumn]
  · rw [AcceptLineFilterExpr_eq]
    simp [lineFilterWhere, lineFilterArgs, hp, OtelLogMessageColumn, MatchNotEqual, MatchEqual]
  · rintro ⟨s, t, h⟩
    have h' : ['a', 'b', 'c'] = s ++ ['a', '_', 'c'] ++ t := h
    have hl := congrArg List.length h'
    simp only [List.length_append, List.length_cons, List.length_nil] at hl
    have hs : s = [] := List.length_eq_zero.1 (by omega)
    have ht : t = [] := List.length_eq_zero.1 (by omega)
    subst hs ht
    revert h'
    decide

/-- C11 at the pattern `a_c` on the empty builder. -/
theorem like_filter_reads_wildcards_witness :
    "a_c" ≠ "" ∧
    (AcceptLineFilterExpr SelectBuilder.new MatchEqual "a_c").whereExprs = ["Body LIKE $0"] ∧
    (AcceptLineFilterExpr SelectBuilder.new MatchEqual "a_c").args = ["%a_c%"] ∧
    likeMatch "%a_c%".data "abc".data = true ∧ ¬ occursIn "a_c" "abc" := by
  obtain ⟨h1, _, _, h4, h5⟩ := like_filter_reads_wildcards SelectBuilder.new "a_c" (by decide)
  exact ⟨by decide, by rw [h1]; rfl, by rw [h1]; rfl, h4, h5⟩

/-- C12: a line filter whose operator is none of the four recognised kinds, and a
node of a kind the walk callback does not know, leave the builder as it is and do
not panic, so the log selection query returns the same result for the selector
with the node as for the selector without it. -/
theorem warnings_are_noops (b : SelectBuilder) (ty : MatchType) (mtch : String)
    (hty : ¬ recognized ty) :
    AcceptLineFilterExpr b ty mtch = b ∧
    acceptNode b (.lineFilterExpr ty mtch) = .ok b ∧
    acceptNode b .other = .ok b ∧
    (∀ o pre post start end_ limit direction,
      SelectLogsQuery o (pre ++ .lineFilterExpr ty mtch :: post) start end_ limit direction =
        SelectLogsQuery o (pre ++ post) start end_ limit direction) ∧
    (∀ o pre post start end_ limit direction,
      SelectLogsQuery o (pre ++ .other :: post) start end_ limit direction =
        SelectLogsQuery o (pre ++ post) start end_ limit direction) := by
  have h0 : ∀ b, AcceptLineFilterExpr b ty mtch = b := by
    intro b
    unfold recognized at hty
    push_neg at hty
    simp only [AcceptLineFilterExpr, hty.1, hty.2.1, hty.2.2.1, hty.2.2.2, if_false, ite_self]
  refine ⟨h0 b, by simp only [acceptNode, h0], rfl, ?_, ?_⟩
  · intro o pre post start end_ limit direction
    simp only [SelectLogsQuery, selectLogsBuilder, AcceptLogSelectorExpr]
    rw [foldlM_skip acceptNode (.lineFilterExpr ty mtch)
      (fun b => by simp only [acceptNode, h0])]
  · intro o pre post start end_ limit direction
    simp only [SelectLogsQuery, selectLogsBuilder, AcceptLogSelectorExpr]
    rw [foldlM_skip acceptNode .other (fun _ => rfl)]

/-- C12 at a line filter with operator 7. -/
theorem warnings_are_noops_witness :
    SelectLogsQuery exampleEnv
        [.matchersExpr [NewMatcher MatchEqual "service_name" "api"],
          .lineFilterExpr 7 "error", .other] 1000 2000 100 FORWARD =
      SelectLogsQuery exampleEnv
        [.matchersExpr [NewMatcher MatchEqual "service_name" "api"], .other]
        1000 2000 100 FORWARD :=
  (warnings_are_noops SelectBuilder.new 7 "error" (by decide)).2.2.2.1 exampleEnv
    [.matchersExpr [NewMatcher MatchEqual "service_name" "api"]] [.other] 1000 2000 100 FORWARD

/-- C13: after a `Next` that found a row, the row has been scanned exactly once,
and every sequence of calls of `Labels`, `StreamHash`, `Entry` and `Error` returns
what the one cached decoding of that row shows, the row or its error, and leaves
the reader and the scan count as they are. -/
theorem decode_runs_once (E : DecodeEnv) (r : rowEntryIterator)
    (raw : Except String ScannedRow) (rest : List (Except String ScannedRow))
    (h : r.rows.pending = raw :: rest) (as : List Accessor) :
    ∃ b r1, r.Next E = .ok (b, r1) ∧ r1.rows.scanned = r.rows.scanned + 1 ∧
      r1.calls E as = .ok (as.map (observe E r.rows.lasterr (decodeRow E raw)), r1) :=
  ⟨raw.isOk, afterRow E r raw rest, Next_row E r raw rest h, rfl,
    calls_done E (afterRow E r raw rest) (decodeRow E raw) rfl as⟩

/-- C13 on a reader over one row and the calls `Labels`, `Entry`, `StreamHash`,
`Labels`. -/
theorem decode_runs_once_witness :
    ∃ b r1,
      (newRowEntryIterator (Rows.ofList
        [.ok exampleRow] none)).Next exampleDecodeEnv = .ok (b, r1) ∧
      r1.rows.scanned = 0 + 1 ∧
      r1.calls exampleDecodeEnv [.Labels, .Entry, .StreamHash, .Labels] =
        .ok ([.labels "\x7bservice_name=\"api\"\x7d",
            .entry { Timestamp := 5, Line := "hello" },
            .streamHash (hashLabels "\x7bservice_name=\"api\"\x7d"),
            .labels "\x7bservice_name=\"api\"\x7d"], r1) := by
  obtain ⟨b, r1, h1, h2, h3⟩ := decode_runs_once exampleDecodeEnv
    (newRowEntryIterator (Rows.ofList [.ok exampleRow] none)) _ [] rfl [.Labels, .Entry, .StreamHash, .Labels]
  exact ⟨b, r1, h1, h2, h3⟩

/-- C14, as the code has it: `Next` itself scans and decodes the row it found. On
a reader over one row, after `Next` and before any accessor call, the row has been
scanned once and the memo holds its decoding. -/
theorem next_scans_the_row :
    ((newRowEntryIterator (Rows.ofList
        [.ok exampleRow] none)).Next exampleDecodeEnv).map
          (fun x => (x.1, x.2.rows.scanned, x.2.currentRow)) =
      .ok (true, 1, some (.done (.ok exampleDecoded))) := by
  rfl

/-- C14 amended: decoding is eager. A `Next` that finds a row installs a fresh memo
and calls it at once: the row is scanned exactly once during `Next`, its decoding
is cached, and no accessor call after it scans again. A `Next` that finds no row
scans nothing and leaves the memo as it is. -/
theorem next_decodes_at_once (E : DecodeEnv) (r : rowEntryIterator) :
    (∀ raw rest, r.rows.pending = raw :: rest →
      r.Next E = .ok (raw.isOk, afterRow E r raw rest) ∧
      (afterRow E r raw rest).rows.scanned = r.rows.scanned + 1 ∧
      (afterRow E r raw rest).currentRow = some (.done (decodeRow E raw)) ∧
      ∀ as, ∃ os, (afterRow E r raw rest).calls E as = .ok (os, afterRow E r raw rest)) ∧
    (r.rows.pending = [] →
      r.Next E = .ok (false, afterEnd r) ∧ (afterEnd r).rows.scanned = r.rows.scanned ∧
      (afterEnd r).currentRow = r.currentRow) := by
  constructor
  · intro raw rest h
    exact ⟨Next_row E r raw rest h, rfl, rfl,
      fun as => ⟨_, calls_done E (afterRow E r raw rest) (decodeRow E raw) rfl as⟩⟩
  · intro h
    exact ⟨Next_end E r h, rfl, rfl⟩

/-- C14 amended, on a reader over one row that fails to scan. -/
theorem next_decodes_at_once_witness :
    (newRowEntryIterator (Rows.ofList [.error "bad map"] none)).Next exampleDecodeEnv =
      .ok (false, afterRow exampleDecodeEnv
        (newRowEntryIterator (Rows.ofList [.error "bad map"] none)) (.error "bad map") []) :=
  ((next_decodes_at_once exampleDecodeEnv
    (newRowEntryIterator (Rows.ofList [.error "bad map"] none))).1 (.error "bad map") []
    rfl).1

/-- C15: when the cursor yields a row whose scan fails with `e`, `Next` returns
false after the one scan, and then `Labels` returns the empty string, `Entry` the
zero entry, `StreamHash` the hash of the empty string and, the cursor having no
error, `Error` the decode error, none of them scanning again. Over three rows
whose second fails to scan, `Next` is true, then false, and `Error` reports the
decode failure. -/
theorem failed_scan_is_cached (E : DecodeEnv) (r : rowEntryIterator) (e : String)
    (rest : List (Except String ScannedRow)) (h : r.rows.pending = .error e :: rest)
    (hl : r.rows.lasterr = none) :
    (∃ r1, r.Next E = .ok (false, r1) ∧ r1.rows.scanned = r.rows.scanned + 1 ∧
      r1.Labels E = .ok ("", r1) ∧
      r1.Entry E = .ok ({ Timestamp := zeroTime, Line := "" }, r1) ∧
      r1.StreamHash E = .ok (hashLabels "", r1) ∧
      r1.Error E = .ok (some ("failed to scan row: " ++ e), r1)) ∧
    (∀ a c : ScannedRow, ∃ rf,
      (newRowEntryIterator (Rows.ofList [.ok a, .error e, .ok c] none)).nextN E 2 =
        .ok ([true, false], rf) ∧
      rf.Error E = .ok (some ("failed to scan row: " ++ e), rf)) := by
  constructor
  · have hc := callCurrentRow_done E (afterRow E r (.error e) rest) (decodeRow E (.error e)) rfl
    refine ⟨afterRow E r (.error e) rest, Next_row E r _ rest h, rfl, ?_, ?_, ?_, ?_⟩
    · simp [rowEntryIterator.Labels, hc, decodeRow]
    · simp [rowEntryIterator.Entry, hc, decodeRow]
    · simp [rowEntryIterator.StreamHash, rowEntryIterator.Labels, hc, decodeRow]
    · rw [Error_of_memo E _ (decodeRow E (.error e)) rfl (by simpa [afterRow] using hl)]
      rfl
  · intro a c
    refine ⟨afterRow E (afterRow E (newRowEntryIterator
      (Rows.ofList [.ok a, .error e, .ok c] none)) (.ok a) [.error e, .ok c])
      (.error e) [.ok c], ?_, ?_⟩
    · simp only [rowEntryIterator.nextN,
        Next_row E (newRowEntryIterator (Rows.ofList [.ok a, .error e, .ok c] none)) (.ok a)
          [.error e, .ok c] rfl,
        Next_row E (afterRow E _ (.ok a) [.error e, .ok c]) (.error e) [.ok c] rfl]
      rfl
    · rw [Error_of_memo E _ (decodeRow E (.error e)) rfl rfl]
      rfl

/-- C15 on a reader whose next row fails to scan with `bad map`. -/
theorem failed_scan_is_cached_witness :
    ∃ r1,
      (newRowEntryIterator (Rows.ofList [.error "bad map"] none)).Next exampleDecodeEnv =
        .ok (false, r1) ∧
      r1.rows.scanned = 0 + 1 ∧
      r1.Labels exampleDecodeEnv = .ok ("", r1) ∧
      r1.Entry exampleDecodeEnv = .ok ({ Timestamp := zeroTime, Line := "" }, r1) ∧
      r1.StreamHash exampleDecodeEnv = .ok (hashLabels "", r1) ∧
      r1.Error exampleDecodeEnv = .ok (some ("failed to scan row: " ++ "bad map"), r1) :=
  (failed_scan_is_cached exampleDecodeEnv
    (newRowEntryIterator (Rows.ofList [.error "bad map"] none)) "bad map" [] rfl rfl).1

/-- C16: `Error` returns the error of the cursor when it has one; otherwise the
error of the cached decoding, if the memo holds a failed one, and nil if it holds
a good one; and the error of the cursor, without a call of the memo, when the memo
is nil. `Next` caches the decoding of every row it finds and leaves the memo alone
when it finds none, so the memo of a reader is nil or the decoding of the last row
found. After a run over rows that all decode on a cursor without error, `Error` is
nil. -/
theorem Error_reports (E : DecodeEnv) (r : rowEntryIterator) :
    (∀ e, r.rows.Err = some e → r.Error E = .ok (some e, r)) ∧
    (r.rows.Err = none → ∀ res, r.currentRow = some (.done res) →
      r.Error E = .ok (decodeError res, r)) ∧
    (r.currentRow = none → r.Error E = .ok (r.rows.Err, r)) ∧
    (∀ raw rest, r.rows.pending = raw :: rest →
      ∃ r1, r.Next E = .ok (raw.isOk, r1) ∧ r1.currentRow = some (.done (decodeRow E raw)) ∧
        r1.rows.Err = r.rows.Err) ∧
    (r.rows.pending = [] →
      ∃ r1, r.Next E = .ok (false, r1) ∧ r1.currentRow = r.currentRow ∧
        r1.rows.Err = r.rows.terminal) ∧
    (∀ rows, (newRowEntryIterator rows).currentRow = none) ∧
    (∀ e, decodeError (decodeRow E (.error e)) = some ("failed to scan row: " ++ e)) ∧
    (∀ s, decodeError (decodeRow E (.ok s)) = none) ∧
    (∀ rows : List ScannedRow, ∃ rf,
      (newRowEntryIterator (Rows.ofList (rows.map Except.ok) none)).nextN E (rows.length + 1) =
        .ok (List.replicate rows.length true ++ [false], rf) ∧
      rf.Error E = .ok (none, rf)) := by
  refine ⟨fun e h => Error_of_cursor E r e h, fun hl res h => Error_of_memo E r res h hl,
    fun h => Error_of_nil E r h, ?_, ?_, fun _ => rfl, fun _ => rfl, fun _ => rfl, ?_⟩
  · intro raw rest h
    exact ⟨_, Next_row E r raw rest h, rfl, rfl⟩
  · intro h
    exact ⟨_, Next_end E r h, rfl, rfl⟩
  · intro rows
    exact nextN_all_ok E rows _ rfl rfl rfl (Or.inl rfl)

/-- C16 on a reader over two rows that decode: `Next` is true twice, then false,
and `Error` is nil. -/
theorem Error_reports_witness :
    ∃ rf,
      (newRowEntryIterator (Rows.ofList ([exampleRow, exampleRow].map Except.ok)
        none)).nextN exampleDecodeEnv 3 = .ok ([true, true, false], rf) ∧
      rf.Error exampleDecodeEnv = .ok (none, rf) :=
  (Error_reports exampleDecodeEnv (newRowEntryIterator (Rows.ofList [] none))).2.2.2.2.2.2.2.2
    [exampleRow, exampleRow]

/-- C17, as the code has it: `Label` and `Series` return after their row loop
without reading `rows.Err()`. A query that fails to execute is returned as an
error, but on a cursor that yields one row and then stops with the terminal error
`connection reset` both return the response built from that one row, as they do
on a cursor that ends cleanly. -/
theorem terminal_error_is_masked (E : NormalizeEnv) (o : otelEnvironmentImpl)
    (req : LabelRequest) (start end_ : Int) :
    (∀ err, Label E o (constConn (.error err)) req = .error err) ∧
    (∀ err, Series E o (constConn (.error err)) (.ok []) start end_ =
      .ok (.error ("failed to query: " ++ err))) ∧
    Label E o (constConn (.ok (Rows.ofList [.ok "env"] (some "connection reset")))) req =
      .ok [NormalizeLabel E "env"] ∧
    Label E o (constConn (.ok (Rows.ofList [.ok "env"] none))) req =
      .ok [NormalizeLabel E "env"] ∧
    Series E o (constConn (.ok (Rows.ofList [.ok [("env", "prod")]]
        (some "connection reset")))) (.ok []) start end_ =
      .ok (.ok [normalizeMap E [("env", "prod")]]) := by
  refine ⟨fun _ => rfl, fun _ => rfl, rfl, rfl, rfl⟩

/-- C18: `StreamHash` is the 64-bit FNV-1a hash of the bytes of what `Labels`
returns, in every state of the reader: offset basis 14695981039346656037, each byte
xor-ed in and the result multiplied by 1099511628211 modulo `2 ^ 64`, over the
UTF-8 bytes of the string, one to four bytes for a character. Rows with equal label
strings have equal hashes, and a row whose decoding failed has the hash of the
empty string, the offset basis. -/
theorem StreamHash_is_fnv1a (E : DecodeEnv) (r : rowEntryIterator) :
    r.StreamHash E = (r.Labels E).map (fun x => (hashLabels x.1, x.2)) ∧
    (∀ s, hashLabels s =
      (s.data.flatMap utf8Bytes).foldl (fun h b => (h ^^^ b) * 1099511628211 % 2 ^ 64)
        14695981039346656037) ∧
    (∀ s : String, hashLabels s =
      (s.toUTF8.data.toList.map UInt8.toNat).foldl
        (fun h b => (h ^^^ b) * 1099511628211 % 2 ^ 64) 14695981039346656037) ∧
    (∀ c : Char, utf8Bytes c = (String.utf8EncodeChar c).map UInt8.toNat) ∧
    (∀ s, hashLabels s < 2 ^ 64) ∧
    hashLabels "" = 14695981039346656037 ∧
    (∀ e, r.currentRow = some (.done (.error e)) → r.StreamHash E = .ok (hashLabels "", r)) ∧
    (∀ (r' : rowEntryIterator) s x x', r.Labels E = .ok (s, x) → r'.Labels E = .ok (s, x') →
      ∃ h, r.StreamHash E = .ok (h, x) ∧ r'.StreamHash E = .ok (h, x')) := by
  refine ⟨?_, fun _ => rfl, ?_, utf8Bytes_eq_encode, hashLabels_lt, by decide, ?_, ?_⟩
  · unfold rowEntryIterator.StreamHash
    cases r.Labels E with
    | error p => rfl
    | ok x => rfl
  · intro s
    rw [← flatMap_utf8Bytes]
    rfl
  · intro e h
    simp [rowEntryIterator.StreamHash, rowEntryIterator.Labels, callCurrentRow_done E r _ h]
  · intro r' s x x' h1 h2
    exact ⟨hashLabels s, by simp [rowEntryIterator.StreamHash, h1],
      by simp [rowEntryIterator.StreamHash, h2]⟩

/-- C18 on the reader after a row that failed to scan, and the hashes of strings
with characters of one, two, three and four bytes. -/
theorem StreamHash_is_fnv1a_witness :
    (afterRow exampleDecodeEnv (newRowEntryIterator (Rows.ofList [.error "bad map"] none))
        (.error "bad map") []).StreamHash exampleDecodeEnv =
      .ok (14695981039346656037,
        afterRow exampleDecodeEnv (newRowEntryIterator (Rows.ofList [.error "bad map"] none))
          (.error "bad map") []) ∧
    hashLabels "a" = 12638187200555641996 ∧
    hashLabels "foobar" = 9625390261332436968 ∧
    utf8Bytes 'é' = [195, 169] ∧ hashLabels "é" = 775207407765167617 ∧
    utf8Bytes '€' = [226, 130, 172] ∧ hashLabels "€" = 6216753210906187371 ∧
    utf8Bytes '😀' = [240, 159, 152, 128] ∧ hashLabels "😀" = 18374412943757542024 ∧
    hashLabels "\x7bservice_name=\"café\"\x7d" = 7512043423424345985 ∧
    firstRowLabels exampleDecodeEnv
        (Rows.ofList [.ok (ScannedRow.mk 5 "hello" [("service.name", "café")])] none) =
      .ok ("\x7bservice_name=\"café\"\x7d", 7512043423424345985) :=
  ⟨(StreamHash_is_fnv1a exampleDecodeEnv _).2.2.2.2.2.2.1 _ rfl, by decide, by decide,
    by decide, by decide, by decide, by decide, by decide, by decide, by decide, by decide⟩

/-- C19, as the code has it: `Entry` calls the memo without the nil check that
`Error` makes. On a reader as `SelectLogs` returns it, before any `Next`, and on
a reader whose first `Next` found the cursor empty, `Entry` panics on the nil
function, while `Error` returns the error of the cursor. -/
theorem Entry_panics_without_a_row (E : DecodeEnv) (rows : Rows (Except String ScannedRow)) :
    (newRowEntryIterator rows).Entry E =
      .error "invalid memory address or nil pointer dereference" ∧
    (newRowEntryIterator rows).Error E = .ok (rows.Err, newRowEntryIterator rows) ∧
    (newRowEntryIterator (Rows.ofList [] none)).Next E =
      .ok (false, afterEnd (newRowEntryIterator (Rows.ofList [] none))) ∧
    (afterEnd (newRowEntryIterator (Rows.ofList [] none))).Entry E =
      .error "invalid memory address or nil pointer dereference" := by
  refine ⟨rfl, Error_of_nil E _ rfl, Next_end E _ rfl, rfl⟩

/-- C20 fails for a raw map with the keys `a.b` and `a_b`, which both normalize to
`a_b`: visited in one order the loop keeps the value `2`, in the other order the
value `1`, the pair of the other entry is lost, and the label string and the
stream hash of the row differ between the two orders. -/
theorem colliding_keys_depend_on_order :
    collidingRow.labelMap.Perm collidingRowSwapped.labelMap ∧
    normalizeMap asciiNormalizeEnv collidingRow.labelMap = [("a_b", "2")] ∧
    normalizeMap asciiNormalizeEnv collidingRowSwapped.labelMap = [("a_b", "1")] ∧
    firstRowLabels exampleDecodeEnv (Rows.ofList [.ok collidingRow] none) =
      .ok ("\x7ba_b=\"2\"\x7d", 12581372817966290670) ∧
    firstRowLabels exampleDecodeEnv (Rows.ofList [.ok collidingRowSwapped] none) =
      .ok ("\x7ba_b=\"1\"\x7d", 13205443523346318199) ∧
    seriesRows asciiNormalizeEnv [.ok collidingRow.labelMap] [] = .ok [[("a_b", "2")]] ∧
    seriesRows asciiNormalizeEnv [.ok collidingRowSwapped.labelMap] [] =
      .ok [[("a_b", "1")]] :=
  ⟨List.Perm.swap _ _ _, by decide, by decide, by decide, by decide, by decide, by decide⟩

/-- C20, amended: when the normalized keys of the raw entries are pairwise distinct,
the loop of `readFromDB` and of `Series` gives the same normalized map for every
order of the entries; the map holds the pair `(NormalizeLabel(k), v)` for every raw
entry `(k, v)` and nothing else, and the label string and the stream hash read for
the row, and the label set `Series` returns for it, do not depend on the order. -/
theorem distinct_keys_ignore_order (E : DecodeEnv) (s1 s2 : ScannedRow)
    (hperm : s1.labelMap.Perm s2.labelMap)
    (hnd : (s1.labelMap.map fun kv => NormalizeLabel E.norm kv.1).Nodup) :
    normalizeMap E.norm s1.labelMap = normalizeMap E.norm s2.labelMap ∧
    (∀ p, p ∈ normalizeMap E.norm s1.labelMap ↔
      ∃ kv ∈ s1.labelMap, p = (NormalizeLabel E.norm kv.1, kv.2)) ∧
    (∀ rest t, firstRowLabels E (Rows.ofList (.ok s1 :: rest) t) =
      firstRowLabels E (Rows.ofList (.ok s2 :: rest) t)) ∧
    (∀ rest series, seriesRows E.norm (.ok s1.labelMap :: rest) series =
      seriesRows E.norm (.ok s2.labelMap :: rest) series) := by
  have heq := normalizeMap_perm E.norm _ _ hperm hnd
  refine ⟨heq, ?_, ?_, ?_⟩
  · intro p
    rw [(normalizeMap_sorted_perm E.norm _ hnd).2.mem_iff, List.mem_map]
    constructor
    · rintro ⟨kv, h1, h2⟩
      exact ⟨kv, h1, h2.symm⟩
    · rintro ⟨kv, h1, h2⟩
      exact ⟨kv, h1, h2.symm⟩
  · intro rest t
    rw [firstRowLabels_ok, firstRowLabels_ok, heq]
  · intro rest series
    simp only [seriesRows, heq]

/-- C20, amended, at the row with the labels `service.name` and `host` in its two
orders. -/
theorem distinct_keys_ignore_order_witness :
    [("service.name", "api"), ("host", "h1")].Perm [("host", "h1"), ("service.name", "api")] ∧
    normalizeMap asciiNormalizeEnv [("service.name", "api"), ("host", "h1")] =
      [("host", "h1"), ("service_name", "api")] ∧
    normalizeMap asciiNormalizeEnv [("host", "h1"), ("service.name", "api")] =
      [("host", "h1"), ("service_name", "api")] :=
  have h := distinct_keys_ignore_order exampleDecodeEnv
    (ScannedRow.mk 5 "hello" [("service.name", "api"), ("host", "h1")])
    (ScannedRow.mk 5 "hello" [("host", "h1"), ("service.name", "api")])
    (List.Perm.swap _ _ _) (by decide)
  ⟨List.Perm.swap _ _ _, by decide, h.1 ▸ by decide⟩

end Vortex
